import Mathlib

/-!
# Greedy graph matching (iso-rank): a verification development

Shallow embedding of `GreedyAlgorithms.h` (the five greedy matching strategies) and
of `SymSparseMatrix.h` (the sparse symmetric matrix).
The strategies are translated from the source.  The matrix class `DenseMatrix1D`
and the helper routines of `GreedyAlgorithmsHelper.h` are not part of the
sources at hand; they are modelled from the specification and marked so.

Scores are exact rationals extended by the invalidated floor, which is negative
infinity (`⊥`), as the comments of the source say ("all -inf").  Calls of `rand()`
read successive values of a stream `rnd : Nat → Nat`; the number of calls made so
far is threaded through the state.  Locals that the source reads before writing
them are parameters (`Uninit`).  The states of the strategies carry ghost records of
what their loops did (the pairs assigned, the tie-sets met); no step of a strategy
reads them.
-/

namespace IsoRank

/-! ## Data model -/

/-- Modelled from the spec: the scores of the matrix class, a rational or the
invalidated sentinel ("negative infinity, or a reserved minimum"), here `⊥`. -/
abbrev Score := WithBot ℚ

/-- Difference of two scores.  Negative infinity minus a finite score is negative
infinity; a difference whose right operand is negative infinity has no value in
exact arithmetic and is given the floor. -/
def Score.sub : Score → Score → Score
  | some a, some b => some (a - b)
  | _, _ => ⊥

/-- The tolerance `max_tol = pow(10,-6)` of the randomised strategies. -/
def max_tol : Score := some (1 / 1000000)

/-- Modelled from the spec: the dense `DenseMatrix1D` class (ScoredMatrix): a row
count, a column count and a value for every (row, col) pair. -/
structure DenseMatrix1D where
  rows : Nat
  cols : Nat
  val : Nat → Nat → Score

/-- Modelled from the spec: `getNumberOfRows` of the dense matrix class. -/
def DenseMatrix1D.getNumberOfRows (m : DenseMatrix1D) : Nat := m.rows

/-- Modelled from the spec: `getNumberOfColumns` of the dense matrix class. -/
def DenseMatrix1D.getNumberOfColumns (m : DenseMatrix1D) : Nat := m.cols

/-- Modelled from the spec: the constructor `DenseMatrix1D(rows, cols)`.  The entries
it starts with are not specified; they are taken to be 0 and are overwritten by
`set_matrix_values` before they are read. -/
def DenseMatrix1D.create (r c : Nat) : DenseMatrix1D :=
  { rows := r, cols := c, val := fun _ _ => 0 }

/-- Row-major enumeration of the cells of an `R × C` grid. -/
def coords (R C : Nat) : List (Nat × Nat) :=
  (List.range R).flatMap (fun i => (List.range C).map (fun j => (i, j)))

/-- Modelled from the spec: `getNeighbors` of the dense matrix class (AdjacencyGraph:
the ordered list of the vertices adjacent to `vertex` in the 0/1 relation), the
same scan as `SymSparseMatrix::getNeighbors`. -/
def DenseMatrix1D.getNeighbors (g : DenseMatrix1D) (vertex : Nat) : List Nat :=
  (List.range g.getNumberOfRows).filter (fun i => decide (g.val i vertex = 1))

/-- Modelled from the spec: helper `init_array(arr, n, v)`: the first `n` cells of
the array are set to `v`. -/
def init_array (arr : List Int) (n : Nat) (v : Int) : List Int :=
  List.replicate n v ++ arr.drop n

/-- Modelled from the spec: helper `sum_array(arr, n)`: sum of the first `n` cells. -/
def sum_array (arr : List Int) (n : Nat) : Int := (arr.take n).sum

/-- Contents of the locals that a strategy may read before it has written them:
the coordinates `row`, `col` and the cells of a flag array. -/
structure Uninit where
  row : Nat
  col : Nat
  flags : List Int

/-- Ways in which a run can stop without returning: `rand() % 0`, a write past the
last cell of an array, and the exhaustion of the iteration bound of the model. -/
inductive Fault where
  | division_by_zero
  | out_of_bounds
  | out_of_fuel
  deriving DecidableEq, Repr

deriving instance DecidableEq for Except

/-! ## Candidate selection primitives -/

/-- One comparison of the maximum scan. -/
def return_max_step (m : DenseMatrix1D) (acc : Score × Nat × Nat) (p : Nat × Nat) :
    Score × Nat × Nat :=
  if acc.1 < m.val p.1 p.2 then (m.val p.1 p.2, p.1, p.2) else acc

/-- Modelled from the spec: helper `return_max(matrix, &total, &row, &col)` (globalMax):
the largest valid entry and its coordinates, the first one met in row-major order;
the maximum is added to the running total.  When no entry exceeds the invalidated
floor the returned score is the floor and `row`, `col` keep the values they had.
Result: (maximum, new total, row, col). -/
def return_max (m : DenseMatrix1D) (total : Score) (row col : Nat) :
    Score × Score × Nat × Nat :=
  let r := (coords m.rows m.cols).foldl (return_max_step m) (⊥, row, col)
  (r.1, total + r.1, r.2.1, r.2.2)

/-- Modelled from the spec: helper `invalidate(row, col, matrix)`: every entry of
the row and every entry of the column becomes the invalidated floor. -/
def invalidate (row col : Nat) (m : DenseMatrix1D) : DenseMatrix1D :=
  { m with val := fun i j => if i = row ∨ j = col then ⊥ else m.val i j }

/-- Modelled from the spec: helper `all_inf(matrix)` (isAllInvalidated): true iff no
entry exceeds the invalidated floor. -/
def all_inf (m : DenseMatrix1D) : Bool :=
  (coords m.rows m.cols).all (fun p => decide (m.val p.1 p.2 ≤ ⊥))

/-- Cells of the matrix whose value is at or above the threshold, in row-major order. -/
def cells_at_or_above (m : DenseMatrix1D) (threshold : Score) : List (Nat × Nat) :=
  (coords m.rows m.cols).filter (fun p => decide (threshold ≤ m.val p.1 p.2))

/-- Modelled from the spec: helper `find_values(matrix, threshold, &size)`
(valuesAtOrAbove): the values of the entries at or above the threshold; `size` is
the length of the result. -/
def find_values (m : DenseMatrix1D) (threshold : Score) : List Score :=
  (cells_at_or_above m threshold).map (fun p => m.val p.1 p.2)

/-- Modelled from the spec: helper `find_all_values(matrix, values, size, &n)`
(coordinatesOf): the coordinates of the entries whose value is among the first
`size` listed values. -/
def find_all_values (m : DenseMatrix1D) (values : List Score) (size : Nat) :
    List (Nat × Nat) :=
  (coords m.rows m.cols).filter (fun p => decide (m.val p.1 p.2 ∈ values.take size))

/-- Modelled from the spec: helper `get_Max(matrix, id, threshold, &row, &col)`
(randomized selection): the `id`-th (counted from 1) entry at or above the
threshold; its value and coordinates.  Without such an entry `row`, `col` are
kept.  Result: (value, row, col). -/
def get_Max (m : DenseMatrix1D) (id : Nat) (threshold : Score) (row col : Nat) :
    Score × Nat × Nat :=
  match (cells_at_or_above m threshold).get? (id - 1) with
  | some p => (m.val p.1 p.2, p.1, p.2)
  | none => (⊥, row, col)

/-- Modelled from the spec: helper `set_to_min(matrix)`: every entry becomes the
invalidated floor. -/
def set_to_min (m : DenseMatrix1D) : DenseMatrix1D :=
  { m with val := fun _ _ => ⊥ }

/-- Modelled from the spec: helper `set_matrix_values(dest, source, rows, cols)`
(restrictTo): the entries of `source` addressed by `rows × cols` are copied into
`dest`; all other entries of `dest` are set to the invalidated floor. -/
def set_matrix_values (dest source : DenseMatrix1D) (rws cls : List Nat) :
    DenseMatrix1D :=
  { dest with val := fun i j => if i ∈ rws ∧ j ∈ cls then source.val i j else ⊥ }

/-- Modelled from the spec: helper `invalidate_neighbors(assigned, neigh)`.  The spec
does not describe it; the model follows the comments at its call sites in the
source ("remove nodes that are already assigned from consideration in the next
assignment"): the vertices flagged 1 in `assigned` are removed from the list. -/
def invalidate_neighbors (assigned : List Int) (neigh : List Nat) : List Nat :=
  neigh.filter (fun v => decide (assigned.getD v 0 ≠ 1))

/-- Modelled from the spec: helper `neighbor_enforcement(&row, &col, graph1, graph2,
matrix)`: entries are only kept where the row is a neighbour of `row` in graph 1
and the column is a neighbour of `col` in graph 2. -/
def neighbor_enforcement (row col : Nat) (graph1 graph2 scores : DenseMatrix1D) :
    DenseMatrix1D :=
  set_matrix_values scores scores (graph1.getNeighbors row) (graph2.getNeighbors col)

/-! ## Completion fallback -/

/-- The graph-2 vertices that no graph-1 vertex is mapped to. -/
def free_cols (assignment : List Int) (n2 : Nat) : List Nat :=
  (List.range n2).filter (fun j => decide ((j : Int) ∉ assignment))

/-- One step of the fallback: vertex `i`, when still unassigned, takes the first
graph-2 vertex that is still unused, if there is one. -/
def match_rest_step (n2 : Nat) (assignment : List Int) (i : Nat) : List Int :=
  if assignment.getD i (-1) = -1 then
    match free_cols assignment n2 with
    | [] => assignment
    | j :: _ => assignment.set i (j : Int)
  else assignment

/-- Modelled from the spec: helper `match_rest(assignment, graph1, graph2)`
(Completion Fallback): every still-unassigned graph-1 vertex is paired with a
still-unassigned graph-2 vertex until either side runs out.  The spec leaves the
order open; vertices are taken in increasing order on both sides. -/
def match_rest (assignment : List Int) (graph1 graph2 : DenseMatrix1D) : List Int :=
  (List.range graph1.getNumberOfRows).foldl
    (match_rest_step graph2.getNumberOfRows) assignment

/-! ## Strategy 1: pure greedy -/

/-- State of the selection loop of `greedy_1`.  `picks` is a ghost record of the
pairs written to the assignment, oldest first. -/
structure G1State where
  scores : DenseMatrix1D
  total_score : Score
  row : Nat
  col : Nat
  assignment : List Int
  picks : List (Nat × Nat)

/-- Body of the `for` loop of `greedy_1`. -/
def greedy_1_body (s : G1State) : G1State :=
  let r := return_max s.scores s.total_score s.row s.col
  let row := r.2.2.1
  let col := r.2.2.2
  { scores := invalidate row col s.scores
    total_score := r.2.1
    row := row
    col := col
    assignment := s.assignment.set row (col : Int)
    picks := s.picks ++ [(row, col)] }

/-- The `for` loop of `greedy_1`, run `n` times. -/
def greedy_1_loop : Nat → G1State → G1State
  | 0, s => s
  | n + 1, s => greedy_1_loop n (greedy_1_body s)

/-- State of `greedy_1` when its selection loop ends, before `match_rest`. -/
def greedy_1_select (scores : DenseMatrix1D) (assignment : List Int) (u : Uninit) :
    G1State :=
  let graph1_nodes := scores.getNumberOfRows
  let graph2_nodes := scores.getNumberOfColumns
  greedy_1_loop (min graph1_nodes graph2_nodes)
    { scores := scores
      total_score := 0
      row := u.row
      col := u.col
      assignment := init_array assignment graph1_nodes (-1)
      picks := [] }

/-- The strategy `greedy_1`. -/
def greedy_1 (scores graph1 graph2 : DenseMatrix1D) (assignment : List Int)
    (u : Uninit) : List Int :=
  match_rest (greedy_1_select scores assignment u).assignment graph1 graph2

/-! ## Strategy 2: connectivity-restricted greedy -/

/-- Body of the `for` loop of `greedy_connectivity_1`. -/
def greedy_connectivity_1_body (graph1 graph2 : DenseMatrix1D) (s : G1State) : G1State :=
  let r := return_max s.scores s.total_score s.row s.col
  let row := r.2.2.1
  let col := r.2.2.2
  { scores := neighbor_enforcement row col graph1 graph2 (invalidate row col s.scores)
    total_score := r.2.1
    row := row
    col := col
    assignment := s.assignment.set row (col : Int)
    picks := s.picks ++ [(row, col)] }

/-- The `for` loop of `greedy_connectivity_1`, run `n` times. -/
def greedy_connectivity_1_loop (graph1 graph2 : DenseMatrix1D) : Nat → G1State → G1State
  | 0, s => s
  | n + 1, s =>
    greedy_connectivity_1_loop graph1 graph2 n (greedy_connectivity_1_body graph1 graph2 s)

/-- The strategy `greedy_connectivity_1`. -/
def greedy_connectivity_1 (scores graph1 graph2 : DenseMatrix1D) (assignment : List Int)
    (u : Uninit) : List Int :=
  let graph1_nodes := scores.getNumberOfRows
  let graph2_nodes := scores.getNumberOfColumns
  let s := greedy_connectivity_1_loop graph1 graph2 (min graph1_nodes graph2_nodes)
    { scores := scores
      total_score := 0
      row := u.row
      col := u.col
      assignment := init_array assignment graph1_nodes (-1)
      picks := [] }
  match_rest s.assignment graph1 graph2

/-! ## Strategy 3: randomized radial expansion -/

/-- What one iteration of the loop of `greedy_connectivity_2` worked on: the local
matrix `active_matches` at the time of the calls of `find_values` and `get_Max`, the
difference `score - prev_score` that the source takes for the maximum, the threshold
`score - prev_score - max_tol` passed to both calls, the entries at or above that
threshold (the tie-set), and the pair that `get_Max` returned, with its score. -/
structure G2Iteration where
  active : DenseMatrix1D
  maximum : Score
  threshold : Score
  tie_set : List (Nat × Nat)
  row : Nat
  col : Nat
  value : Score

/-- State of `greedy_connectivity_2`.  `scores` is the canonical matrix `matches`,
`k` counts the calls of `rand()` made so far.  Two fields are ghost records, oldest
first: `picks`, the pairs written to the assignment, and `iterations`, what each
iteration that made an assignment worked on. -/
structure G2State where
  scores : DenseMatrix1D
  active_matches : DenseMatrix1D
  assignment : List Int
  assignment2 : List Int
  assigned_G1 : List Nat
  score : Score
  prev_score : Score
  final_score : Score
  row : Nat
  col : Nat
  k : Nat
  picks : List (Nat × Nat)
  iterations : List G2Iteration

/-- The loop condition of `greedy_connectivity_2`: `sum_array(..) < min(..) &&
return_max(..) > -1`.  The second operand runs only when the first holds; it
updates `score`, `row` and `col`. -/
def greedy_connectivity_2_cond (graph1 graph2 : DenseMatrix1D) (s : G2State) :
    Bool × G2State :=
  let graph1_nodes := graph1.getNumberOfColumns
  let graph2_nodes := graph2.getNumberOfColumns
  if sum_array s.assignment2 graph1_nodes < ((min graph1_nodes graph2_nodes : Nat) : Int) then
    let r := return_max s.active_matches s.score s.row s.col
    (decide (((-1 : ℚ) : Score) < r.1), { s with score := r.2.1, row := r.2.2.1, col := r.2.2.2 })
  else (false, s)

/-- The threshold `score - prev_score - max_tol` of `greedy_connectivity_2`. -/
def greedy_connectivity_2_threshold (s : G2State) : Score :=
  Score.sub (Score.sub s.score s.prev_score) max_tol

/-- The rebuilding loop of `greedy_connectivity_2` over the assigned vertices. -/
def greedy_connectivity_2_rebuild (graph1 graph2 scores : DenseMatrix1D)
    (assignment : List Int) (assigned_G1 : List Nat) (active : DenseMatrix1D) :
    DenseMatrix1D :=
  assigned_G1.foldl
    (fun act curr_row =>
      let curr_col := (assignment.getD curr_row (-1)).toNat
      set_matrix_values act scores (graph1.getNeighbors curr_row)
        (graph2.getNeighbors curr_col))
    active

/-- The part of the loop body of `greedy_connectivity_2` that follows the choice of
`random_id`. -/
def greedy_connectivity_2_assign (graph1 graph2 : DenseMatrix1D) (random_id : Nat)
    (s : G2State) : G2State :=
  let g := get_Max s.active_matches random_id (greedy_connectivity_2_threshold s) s.row s.col
  let row := g.2.1
  let col := g.2.2
  let assignment := s.assignment.set row (col : Int)
  let assigned_G1 := s.assigned_G1 ++ [row]
  let scores := invalidate row col s.scores
  { scores := scores
    active_matches :=
      greedy_connectivity_2_rebuild graph1 graph2 scores assignment assigned_G1
        (set_to_min s.active_matches)
    assignment := assignment
    assignment2 := s.assignment2.set row 1
    assigned_G1 := assigned_G1
    score := s.score
    prev_score := s.score
    final_score := s.final_score + g.1
    row := row
    col := col
    k := s.k + 1
    picks := s.picks ++ [(row, col)]
    iterations := s.iterations ++
      [{ active := s.active_matches
         maximum := Score.sub s.score s.prev_score
         threshold := greedy_connectivity_2_threshold s
         tie_set := cells_at_or_above s.active_matches (greedy_connectivity_2_threshold s)
         row := row
         col := col
         value := g.1 }] }

/-- The `while` loop of `greedy_connectivity_2`.  It returns without calling
`match_rest` when the loop condition fails.  The result carries the final state
for inspection. -/
def greedy_connectivity_2_loop (graph1 graph2 : DenseMatrix1D) (rnd : Nat → Nat) :
    Nat → G2State → Except Fault (G2State × List Int)
  | 0, _ => .error .out_of_fuel
  | n + 1, s =>
    let c := greedy_connectivity_2_cond graph1 graph2 s
    if c.1 then
      if all_inf c.2.active_matches then
        .ok (c.2, match_rest c.2.assignment graph1 graph2)
      else
        let size := (find_values c.2.active_matches (greedy_connectivity_2_threshold c.2)).length
        if size = 0 then .error .division_by_zero
        else
          greedy_connectivity_2_loop graph1 graph2 rnd n
            (greedy_connectivity_2_assign graph1 graph2 (rnd c.2.k % size + 1) c.2)
    else .ok (c.2, c.2.assignment)

/-- Initial state of `greedy_connectivity_2`. -/
def greedy_connectivity_2_init (scores graph1 : DenseMatrix1D) (assignment : List Int)
    (u : Uninit) : G2State :=
  let graph1_nodes := graph1.getNumberOfColumns
  { scores := scores
    active_matches := scores
    assignment := init_array assignment graph1_nodes (-1)
    assignment2 := List.replicate graph1_nodes 0
    assigned_G1 := []
    score := 0
    prev_score := 0
    final_score := 0
    row := u.row
    col := u.col
    k := 0
    picks := []
    iterations := [] }

/-- The run of `greedy_connectivity_2` with its final state. -/
def greedy_connectivity_2_run (scores graph1 graph2 : DenseMatrix1D) (assignment : List Int)
    (u : Uninit) (rnd : Nat → Nat) (fuel : Nat) : Except Fault (G2State × List Int) :=
  greedy_connectivity_2_loop graph1 graph2 rnd fuel
    (greedy_connectivity_2_init scores graph1 assignment u)

/-- The strategy `greedy_connectivity_2`, with `fuel` bounding the iterations. -/
def greedy_connectivity_2 (scores graph1 graph2 : DenseMatrix1D) (assignment : List Int)
    (u : Uninit) (rnd : Nat → Nat) (fuel : Nat) : Except Fault (List Int) :=
  (greedy_connectivity_2_run scores graph1 graph2 assignment u rnd fuel).map Prod.snd

/-! ## Strategy 4: deterministic radial expansion -/

/-- One assignment of the inner loop of `greedy_connectivity_3`: the local matrix
before the call of `return_max`, the pair that was assigned, and the local and the
canonical matrix after the two calls of `invalidate`. -/
structure G3Pick where
  local_before : DenseMatrix1D
  row : Nat
  col : Nat
  local_after : DenseMatrix1D
  scores_after : DenseMatrix1D

/-- One outer iteration of `greedy_connectivity_3`: the seed pair and the assignments
of its inner loop, oldest first. -/
structure G3Branch where
  seed_row : Nat
  seed_col : Nat
  picks : List G3Pick

/-- The record of an inner assignment is added to the outer iteration under way, the
first of the list. -/
def G3Branch.record (branches : List G3Branch) (p : G3Pick) : List G3Branch :=
  match branches with
  | [] => []
  | b :: r => { b with picks := b.picks ++ [p] } :: r

/-- State of `greedy_connectivity_3`.  Two fields are ghost records: `picks`, the
pairs written to the assignment, oldest first, and `branches`, the outer iterations
with the assignments of their inner loops, the latest outer iteration first. -/
structure G3State where
  scores : DenseMatrix1D
  local_matches : DenseMatrix1D
  assignment : List Int
  assignment2 : List Int
  assignment_G1 : List Int
  assignment_G2 : List Int
  neigh_1 : List Nat
  neigh_2 : List Nat
  final_score : Score
  row : Nat
  col : Nat
  picks : List (Nat × Nat)
  branches : List G3Branch

/-- The assignment made by both loops of `greedy_connectivity_3` after a call of
`return_max` on the matrix `m`. -/
def greedy_connectivity_3_pick (m : DenseMatrix1D) (s : G3State) : G3State :=
  let r := return_max m s.final_score s.row s.col
  let row := r.2.2.1
  let col := r.2.2.2
  { s with
    final_score := r.2.1
    row := row
    col := col
    assignment := s.assignment.set row (col : Int)
    assignment2 := s.assignment2.set row 1
    assignment_G1 := s.assignment_G1.set row 1
    assignment_G2 := s.assignment_G2.set col 1
    picks := s.picks ++ [(row, col)] }

/-- The inner `for` loop of `greedy_connectivity_3`, with `n` iterations left.  The
flag of the result is true when the loop left through `return`. -/
def greedy_connectivity_3_inner : Nat → G3State → Bool × G3State
  | 0, s => (false, s)
  | n + 1, s =>
    if all_inf s.local_matches then (false, s)
    else
      let s1 := greedy_connectivity_3_pick s.local_matches s
      let s2 := { s1 with
        local_matches := invalidate s1.row s1.col s1.local_matches
        scores := invalidate s1.row s1.col s1.scores
        branches := G3Branch.record s1.branches
          { local_before := s.local_matches
            row := s1.row
            col := s1.col
            local_after := invalidate s1.row s1.col s1.local_matches
            scores_after := invalidate s1.row s1.col s1.scores } }
      if all_inf s2.scores then (true, s2)
      else greedy_connectivity_3_inner n s2

/-- The first half of the outer loop body of `greedy_connectivity_3`: the seed pick
and the restriction of the local matrix to the neighbours of the seed. -/
def greedy_connectivity_3_seed (graph1 graph2 : DenseMatrix1D) (s : G3State) : G3State :=
  let s1 := greedy_connectivity_3_pick s.scores s
  let scores := invalidate s1.row s1.col s1.scores
  let neigh_1 := invalidate_neighbors s1.assignment_G1 (graph1.getNeighbors s1.row)
  let neigh_2 := invalidate_neighbors s1.assignment_G2 (graph2.getNeighbors s1.col)
  { s1 with
    scores := scores
    neigh_1 := neigh_1
    neigh_2 := neigh_2
    local_matches := set_matrix_values (set_to_min s1.local_matches) scores neigh_1 neigh_2
    branches := { seed_row := s1.row, seed_col := s1.col, picks := [] } :: s1.branches }

/-- The outer `while` loop of `greedy_connectivity_3`, every exit followed by
`match_rest`.  The result carries the final state for inspection. -/
def greedy_connectivity_3_loop (graph1 graph2 : DenseMatrix1D) :
    Nat → G3State → Except Fault (G3State × List Int)
  | 0, _ => .error .out_of_fuel
  | n + 1, s =>
    let graph1_nodes := graph1.getNumberOfRows
    let graph2_nodes := graph2.getNumberOfRows
    if sum_array s.assignment2 graph1_nodes < ((min graph1_nodes graph2_nodes : Nat) : Int) then
      let s1 := greedy_connectivity_3_seed graph1 graph2 s
      if all_inf s1.scores then .ok (s1, match_rest s1.assignment graph1 graph2)
      else
        let r := greedy_connectivity_3_inner (min s1.neigh_1.length s1.neigh_2.length) s1
        if r.1 then .ok (r.2, match_rest r.2.assignment graph1 graph2)
        else greedy_connectivity_3_loop graph1 graph2 n r.2
    else .ok (s, match_rest s.assignment graph1 graph2)

/-- Initial state of `greedy_connectivity_3`.  The flag array `assignment_G2` has
one cell per graph-2 vertex and `init_array` is run on it with the graph-1 size: the
field lists the cells that the call writes, followed by the cells that it leaves as
they were.  With more graph-1 than graph-2 vertices the call writes past the array,
and the run stops there (`greedy_connectivity_3_run`). -/
def greedy_connectivity_3_init (scores graph1 graph2 : DenseMatrix1D)
    (assignment : List Int) (u : Uninit) : G3State :=
  let graph1_nodes := graph1.getNumberOfRows
  { scores := scores
    local_matches := scores
    assignment := init_array assignment graph1_nodes (-1)
    assignment2 := List.replicate graph1_nodes 0
    assignment_G1 := List.replicate graph1_nodes 0
    assignment_G2 := init_array (u.flags.take graph2.getNumberOfRows) graph1_nodes 0
    neigh_1 := []
    neigh_2 := []
    final_score := 0
    row := u.row
    col := u.col
    picks := []
    branches := [] }

/-- The run of `greedy_connectivity_3` with its final state.  The array
`assignment_G2` is declared with `graph2.getNumberOfRows()` cells and
`init_array(assignment_G2, graph1_nodes, 0)` writes `graph1_nodes` cells of it: with
more graph-1 than graph-2 vertices the writes run past the array and the run stops
before its loop. -/
def greedy_connectivity_3_run (scores graph1 graph2 : DenseMatrix1D)
    (assignment : List Int) (u : Uninit) (fuel : Nat) :
    Except Fault (G3State × List Int) :=
  if graph2.getNumberOfRows < graph1.getNumberOfRows then .error .out_of_bounds
  else
    greedy_connectivity_3_loop graph1 graph2 fuel
      (greedy_connectivity_3_init scores graph1 graph2 assignment u)

/-- The strategy `greedy_connectivity_3`, with `fuel` bounding the outer iterations. -/
def greedy_connectivity_3 (scores graph1 graph2 : DenseMatrix1D) (assignment : List Int)
    (u : Uninit) (fuel : Nat) : Except Fault (List Int) :=
  (greedy_connectivity_3_run scores graph1 graph2 assignment u fuel).map Prod.snd

/-! ## Strategy 5: connectivity-weighted radial expansion -/

/-- The graph-1 vertices among the first `n` that hold an assignment. -/
def matched_G1 (assignment : List Int) (n : Nat) : List Nat :=
  (List.range n).filter (fun i => decide (assignment.getD i (-1) ≠ -1))

/-- Modelled from the spec: helper `get_valid_entries(graph, assignment, n, &size)`:
one entry per edge of `graph` that joins a vertex to an already-matched vertex, a
vertex among the first `n` that holds an assignment (the "connectivity count" of a
vertex is the number of its entries). -/
def get_valid_entries (graph : DenseMatrix1D) (assignment : List Int) (n : Nat) : List Nat :=
  (matched_G1 assignment n).flatMap (fun v => graph.getNeighbors v)

/-- Modelled from the spec: helper `intersect(entries, n, rows_cols, size)`: the
candidate rows, those of the first `size` pairs that occur among the entries, each
once. -/
def intersect (entries : List Nat) (rows_cols : List (Nat × Nat)) (size : Nat) :
    List Nat :=
  (((rows_cols.take size).map Prod.fst).filter (fun r => decide (r ∈ entries))).dedup

/-- Modelled from the spec: helper `vector_max(v)`: the positions that hold the
largest value of the vector. -/
def vector_max (v : List Int) : List Nat :=
  (List.range v.length).filter
    (fun i => v.all (fun x => decide (x ≤ v.getD i 0)))

/-- Modelled from the spec: helper `choose_cols(rows_cols, n, row)`: the columns
paired with `row` among the first `n` pairs. -/
def choose_cols (rows_cols : List (Nat × Nat)) (n : Nat) (row : Nat) : List Nat :=
  ((rows_cols.take n).filter (fun p => decide (p.1 = row))).map Prod.snd

/-- The counting loops of `greedy_connectivity_4`: every listed vertex gets the
number of its occurrences among the entries. -/
def connectivity_count (ids entries : List Nat) (init : List Int) : List Int :=
  ids.foldl (fun g id => g.set id ((entries.count id : Nat) : Int)) init

/-- One iteration of the expansion loop of `greedy_connectivity_4` that took the
branch `size > 1`: the local matrix, the total that `return_max` left in `score`, the
tie-set `rows_cols` and the pair (best_row, best_col) that the branch chose. -/
structure G4Tie where
  matches_local : DenseMatrix1D
  score : Score
  tie_set : List (Nat × Nat)
  best_row : Nat
  best_col : Nat

/-- State of `greedy_connectivity_4`.  `scores` is the canonical matrix `matches`,
`k` counts the calls of `rand()` made so far.  Two fields are ghost records, oldest
first: `picks`, the pairs written to the assignment, and `ties`, the iterations of
the expansion loop that took the branch `size > 1`. -/
structure G4State where
  scores : DenseMatrix1D
  matches_local : DenseMatrix1D
  assignment : List Int
  assigned_G1 : List Int
  assigned_G2 : List Int
  add_order : List Int
  add_order_counter : Nat
  add_idx : Nat
  neigh_1 : List Nat
  neigh_2 : List Nat
  score : Score
  final_score : Score
  row : Nat
  col : Nat
  best_row : Nat
  best_col : Nat
  k : Nat
  picks : List (Nat × Nat)
  ties : List G4Tie

/-- State of `greedy_connectivity_4` after its first `return_max`.  The caller's
assignment array is used as it is: the source does not initialise it.  The local
matrix is created later, in `greedy_connectivity_4_first`; until then the field
holds the canonical matrix and is not read. -/
def greedy_connectivity_4_init (scores graph1 graph2 : DenseMatrix1D)
    (assignment : List Int) (u : Uninit) : G4State :=
  let r := return_max scores 0 u.row u.col
  { scores := scores
    matches_local := scores
    assignment := assignment
    assigned_G1 := List.replicate graph1.getNumberOfRows (-1)
    assigned_G2 := List.replicate graph2.getNumberOfRows (-1)
    add_order := List.replicate graph1.getNumberOfRows (-1)
    add_order_counter := 2
    add_idx := 0
    neigh_1 := []
    neigh_2 := []
    score := r.2.1
    final_score := 0
    row := r.2.2.1
    col := r.2.2.2
    best_row := 0
    best_col := 0
    k := 0
    picks := []
    ties := [] }

/-- The first assignment of `greedy_connectivity_4`, after the choice of
`random_id`, up to the second `return_max` on the new local matrix. -/
def greedy_connectivity_4_first (graph1 graph2 : DenseMatrix1D) (random_id : Nat)
    (s : G4State) : G4State :=
  let g := get_Max s.scores random_id (Score.sub s.score max_tol) s.row s.col
  let row := g.2.1
  let col := g.2.2
  let assigned_G1 := s.assigned_G1.set row 1
  let assigned_G2 := s.assigned_G2.set col 1
  let scores := invalidate row col s.scores
  let neigh_1 := invalidate_neighbors assigned_G1 (graph1.getNeighbors row)
  let neigh_2 := invalidate_neighbors assigned_G2 (graph2.getNeighbors col)
  let matches_local :=
    set_matrix_values
      (DenseMatrix1D.create scores.getNumberOfRows scores.getNumberOfColumns)
      scores neigh_1 neigh_2
  let r := return_max matches_local 0 row col
  { s with
    scores := scores
    matches_local := matches_local
    assignment := s.assignment.set row (col : Int)
    assigned_G1 := assigned_G1
    assigned_G2 := assigned_G2
    add_order := s.add_order.set 0 (row : Int)
    neigh_1 := neigh_1
    neigh_2 := neigh_2
    score := r.2.1
    final_score := s.final_score + g.1
    row := r.2.2.1
    col := r.2.2.2
    k := s.k + 1
    picks := s.picks ++ [(row, col)] }

/-- The second assignment of `greedy_connectivity_4`, after the choice of
`random_id`. -/
def greedy_connectivity_4_second (random_id : Nat) (s : G4State) : G4State :=
  let g := get_Max s.matches_local random_id (Score.sub s.score max_tol) s.row s.col
  let row := g.2.1
  let col := g.2.2
  let assigned_G1 := s.assigned_G1.set row 1
  let assigned_G2 := s.assigned_G2.set col 1
  { s with
    scores := invalidate row col s.scores
    matches_local := invalidate row col s.matches_local
    assignment := s.assignment.set row (col : Int)
    assigned_G1 := assigned_G1
    assigned_G2 := assigned_G2
    add_order := s.add_order.set 1 (row : Int)
    neigh_1 := invalidate_neighbors assigned_G1 s.neigh_1
    neigh_2 := invalidate_neighbors assigned_G2 s.neigh_2
    final_score := s.final_score + g.1
    row := row
    col := col
    k := s.k + 1
    picks := s.picks ++ [(row, col)] }

/-- The branch `size > 1` of the expansion loop: the most connected candidate row
and, among the columns paired with it, the most connected column.  Both calls of
`get_valid_entries` are given `assignment` and the graph-1 size, as in the source. -/
def greedy_connectivity_4_tie (graph1 graph2 : DenseMatrix1D) (rnd : Nat → Nat)
    (rows_cols : List (Nat × Nat)) (size : Nat) (s : G4State) : Except Fault G4State :=
  let n1 := graph1.getNumberOfRows
  let valid_entries := get_valid_entries graph1 s.assignment n1
  let prev_assigned := intersect valid_entries rows_cols size
  let g1c_count := connectivity_count prev_assigned valid_entries (List.replicate n1 (-1))
  let max_g1c := vector_max g1c_count
  if max_g1c.length = 0 then .error .division_by_zero
  else
    let best_row := max_g1c.getD (rnd s.k % max_g1c.length) 0
    let valid_entries2 := get_valid_entries graph2 s.assignment n1
    let cols_chosen := choose_cols rows_cols rows_cols.length best_row
    let g2c_count :=
      connectivity_count cols_chosen valid_entries2 (List.replicate graph2.getNumberOfRows 0)
    let max_g2c := vector_max g2c_count
    if max_g2c.length = 0 then .error .division_by_zero
    else
      let best_col := max_g2c.getD (rnd (s.k + 1) % max_g2c.length) 0
      .ok { s with
        best_row := best_row
        best_col := best_col
        k := s.k + 2
        ties := s.ties ++
          [{ matches_local := s.matches_local
             score := s.score
             tie_set := rows_cols
             best_row := best_row
             best_col := best_col }] }

/-- The assignment that closes an iteration of the expansion loop.  The array
`add_order` has `graph1.getNumberOfRows()` cells; the write
`add_order[add_order_counter] = best_row` past its last cell stops the run. -/
def greedy_connectivity_4_record (s : G4State) : Except Fault G4State :=
  if s.add_order.length ≤ s.add_order_counter then .error .out_of_bounds
  else
    .ok { s with
      assignment := s.assignment.set s.best_row (s.best_col : Int)
      assigned_G1 := s.assigned_G1.set s.best_row 1
      assigned_G2 := s.assigned_G2.set s.best_col 1
      add_order := s.add_order.set s.add_order_counter (s.best_row : Int)
      add_order_counter := s.add_order_counter + 1
      final_score := s.final_score + s.scores.val s.best_row s.best_col
      matches_local := invalidate s.best_row s.best_col s.matches_local
      scores := invalidate s.best_row s.best_col s.scores
      picks := s.picks ++ [(s.best_row, s.best_col)] }

/-- The inner `for` loop of `greedy_connectivity_4`, with `n` iterations left. -/
def greedy_connectivity_4_inner (graph1 graph2 : DenseMatrix1D) (rnd : Nat → Nat) :
    Nat → G4State → Except Fault G4State
  | 0, s => .ok s
  | n + 1, s =>
    let r := return_max s.matches_local 0 s.row s.col
    let s1 := { s with score := r.2.1, row := r.2.2.1, col := r.2.2.2 }
    let idx_array := find_values s1.matches_local (Score.sub s1.score max_tol)
    let size := idx_array.length
    let rows_cols := find_all_values s1.matches_local idx_array size
    if 1 < size then
      match greedy_connectivity_4_tie graph1 graph2 rnd rows_cols size s1 with
      | .error e => .error e
      | .ok s2 =>
        match greedy_connectivity_4_record s2 with
        | .error e => .error e
        | .ok s3 => greedy_connectivity_4_inner graph1 graph2 rnd n s3
    else if size = 1 then
      let cp := rows_cols.getD 0 (s1.best_row, s1.best_col)
      match greedy_connectivity_4_record { s1 with best_row := cp.1, best_col := cp.2 } with
      | .error e => .error e
      | .ok s3 => greedy_connectivity_4_inner graph1 graph2 rnd n s3
    else .ok s1

/-- The outer `while` loop of `greedy_connectivity_4`. -/
def greedy_connectivity_4_loop (graph1 graph2 : DenseMatrix1D) (rnd : Nat → Nat) :
    Nat → G4State → Except Fault G4State
  | 0, _ => .error .out_of_fuel
  | n + 1, s =>
    let last := graph1.getNumberOfRows - 1
    if s.add_order.getD last (-1) = -1 then
      match greedy_connectivity_4_inner graph1 graph2 rnd
          (min s.neigh_1.length s.neigh_2.length) s with
      | .error e => .error e
      | .ok s1 =>
        let add_idx := s1.add_idx + 1
        let r := s1.add_order.getD add_idx (-1)
        if r = -1 then
          .ok { s1 with add_idx := add_idx, add_order := s1.add_order.set last (-2) }
        else
          let c := s1.assignment.getD r.toNat (-1)
          let neigh_1 := invalidate_neighbors s1.assigned_G1 (graph1.getNeighbors r.toNat)
          let neigh_2 := invalidate_neighbors s1.assigned_G2 (graph2.getNeighbors c.toNat)
          greedy_connectivity_4_loop graph1 graph2 rnd n
            { s1 with
              add_idx := add_idx
              neigh_1 := neigh_1
              neigh_2 := neigh_2
              matches_local := set_matrix_values s1.matches_local s1.scores neigh_1 neigh_2 }
    else .ok s

/-- The closing loop of `greedy_connectivity_4`: `match_rest` runs when some
graph-1 vertex still holds -1. -/
def greedy_connectivity_4_finish (graph1 graph2 : DenseMatrix1D) (assignment : List Int) :
    List Int :=
  if (List.range graph1.getNumberOfRows).any (fun i => decide (assignment.getD i (-1) = -1))
  then match_rest assignment graph1 graph2
  else assignment

/-- The run of `greedy_connectivity_4` from the state after its first `return_max`
up to the end of its `while` loop.  The writes `add_order[0] = row` and
`add_order[1] = row` stop the run when the array has no such cell. -/
def greedy_connectivity_4_from (graph1 graph2 : DenseMatrix1D) (rnd : Nat → Nat)
    (fuel : Nat) (s0 : G4State) : Except Fault G4State :=
  let size0 := (find_values s0.scores (Score.sub s0.score max_tol)).length
  if size0 = 0 then .error .division_by_zero
  else if s0.add_order.length ≤ 0 then .error .out_of_bounds
  else
    let s1 := greedy_connectivity_4_first graph1 graph2 (rnd s0.k % size0 + 1) s0
    let size1 := (find_values s1.matches_local (Score.sub s1.score max_tol)).length
    if size1 = 0 then .error .division_by_zero
    else if s1.add_order.length ≤ 1 then .error .out_of_bounds
    else
      greedy_connectivity_4_loop graph1 graph2 rnd fuel
        (greedy_connectivity_4_second (rnd s1.k % size1 + 1) s1)

/-- The run of `greedy_connectivity_4` up to the end of its `while` loop. -/
def greedy_connectivity_4_run (scores graph1 graph2 : DenseMatrix1D)
    (assignment : List Int) (u : Uninit) (rnd : Nat → Nat) (fuel : Nat) :
    Except Fault G4State :=
  greedy_connectivity_4_from graph1 graph2 rnd fuel
    (greedy_connectivity_4_init scores graph1 graph2 assignment u)

/-- The strategy `greedy_connectivity_4`, with `fuel` bounding the outer iterations. -/
def greedy_connectivity_4 (scores graph1 graph2 : DenseMatrix1D) (assignment : List Int)
    (u : Uninit) (rnd : Nat → Nat) (fuel : Nat) : Except Fault (List Int) :=
  (greedy_connectivity_4_run scores graph1 graph2 assignment u rnd fuel).map
    (fun s => greedy_connectivity_4_finish graph1 graph2 s.assignment)

end IsoRank
namespace IsoRank

/-! ## Predicates used in the statements -/

/-- Some entry of the matrix exceeds the invalidated floor. -/
def has_valid (m : DenseMatrix1D) : Prop :=
  ∃ i j, i < m.rows ∧ j < m.cols ∧ ⊥ < m.val i j

/-- Number of non-sentinel cells of an assignment. -/
def assigned_count (a : List Int) : Nat := a.countP (fun x => decide (x ≠ -1))

/-- No two distinct graph-1 vertices are mapped to the same graph-2 vertex. -/
def injective_assignment (a : List Int) : Prop :=
  ∀ i, i < a.length → ∀ j, j < a.length → i ≠ j →
    a.getD i (-1) ≠ -1 → a.getD i (-1) ≠ a.getD j (-1)

/-- Every non-sentinel cell holds a graph-2 vertex, a number of `[0, n2)`. -/
def in_range_assignment (a : List Int) (n2 : Nat) : Prop :=
  ∀ i, i < a.length → a.getD i (-1) ≠ -1 → 0 ≤ a.getD i (-1) ∧ a.getD i (-1) < (n2 : Int)

/-- Every score of the matrix is non-negative. -/
def nonneg_scores (m : DenseMatrix1D) : Prop :=
  ∀ i, i < m.rows → ∀ j, j < m.cols → (0 : Score) ≤ m.val i j

/-- The assignment `a` is the all-sentinel array of length `n1` updated by the
pairs `picks`, whose rows are distinct and whose columns are distinct. -/
structure PartialMatch (a : List Int) (picks : List (Nat × Nat)) (n1 n2 : Nat) : Prop where
  len : a.length = n1
  rows_nodup : (picks.map Prod.fst).Nodup
  cols_nodup : (picks.map Prod.snd).Nodup
  in_range : ∀ p ∈ picks, p.1 < n1 ∧ p.2 < n2
  hit : ∀ p ∈ picks, a.getD p.1 (-1) = (p.2 : Int)
  miss : ∀ i, i ∉ picks.map Prod.fst → a.getD i (-1) = -1
  count : assigned_count a = picks.length

/-- The working matrix `scores` is the input matrix `M` with the rows and the
columns of `picks` invalidated, and `a` records `picks`. -/
structure Selecting (M scores : DenseMatrix1D) (a : List Int) (picks : List (Nat × Nat)) :
    Prop where
  rows_eq : scores.rows = M.rows
  cols_eq : scores.cols = M.cols
  vals : ∀ i j, scores.val i j =
    if i ∈ picks.map Prod.fst ∨ j ∈ picks.map Prod.snd then ⊥ else M.val i j
  pm : PartialMatch a picks M.rows M.cols

/-- Every pair of `picks` has the largest score among the cells whose row and
column do not occur earlier in `picks`, and its own row and column are new. -/
def score_ordered (M : DenseMatrix1D) (picks : List (Nat × Nat)) : Prop :=
  ∀ k p, picks.get? k = some p →
    p.1 ∉ (picks.take k).map Prod.fst ∧ p.2 ∉ (picks.take k).map Prod.snd ∧
    ∀ i, i < M.rows → ∀ j, j < M.cols →
      i ∉ (picks.take k).map Prod.fst → j ∉ (picks.take k).map Prod.snd →
      M.val i j ≤ M.val p.1 p.2

/-- Invariant of the selection loop of `greedy_1`. -/
structure G1Inv (M : DenseMatrix1D) (s : G1State) : Prop where
  sel : Selecting M s.scores s.assignment s.picks
  ord : score_ordered M s.picks


/-! ## Concrete inputs -/

/-- The flag array `a2` holds 1 at the rows of `picks` and 0 elsewhere. -/
structure Flags (a2 : List Int) (picks : List (Nat × Nat)) (n1 : Nat) : Prop where
  len : a2.length = n1
  zero : ∀ i, i ∉ picks.map Prod.fst → a2.getD i 0 = 0
  sum : a2.sum = (picks.length : Int)

/-- Invariant of `greedy_connectivity_3`: the canonical matrix is the input with the
picked rows and columns invalidated, and every valid cell of the local matrix
carries the value of the canonical matrix. -/
structure G3Inv (M : DenseMatrix1D) (s : G3State) : Prop where
  sel : Selecting M s.scores s.assignment s.picks
  flags : Flags s.assignment2 s.picks M.rows
  loc_rows : s.local_matches.rows = M.rows
  loc_cols : s.local_matches.cols = M.cols
  loc_vals : ∀ i j, ⊥ < s.local_matches.val i j → s.local_matches.val i j = s.scores.val i j

/-- Invariant of `greedy_connectivity_2` at the head of its loop. -/
structure G2Inv (M : DenseMatrix1D) (s : G2State) : Prop where
  sel : Selecting M s.scores s.assignment s.picks
  flags : Flags s.assignment2 s.picks M.rows
  act_rows : s.active_matches.rows = M.rows
  act_cols : s.active_matches.cols = M.cols
  act_vals : ∀ i j, ⊥ < s.active_matches.val i j →
    s.active_matches.val i j = s.scores.val i j
  score_ne : s.score ≠ ⊥
  prev_eq : s.prev_score = s.score

/-- Exhaustive exploration of `greedy_connectivity_2` over every value that
`random_id` can take: true when every run of at most `n` iterations from `s`
returns an assignment accepted by `P`. -/
def greedy_connectivity_2_all (graph1 graph2 : DenseMatrix1D) (P : List Int → Bool) :
    Nat → G2State → Bool
  | 0, _ => false
  | n + 1, s =>
    let c := greedy_connectivity_2_cond graph1 graph2 s
    if c.1 then
      if all_inf c.2.active_matches then P (match_rest c.2.assignment graph1 graph2)
      else
        let size := (find_values c.2.active_matches (greedy_connectivity_2_threshold c.2)).length
        decide (size ≠ 0) &&
          (List.range size).all (fun i =>
            greedy_connectivity_2_all graph1 graph2 P n
              (greedy_connectivity_2_assign graph1 graph2 (i + 1) c.2))
    else P c.2.assignment

/-- The inner loop of `greedy_connectivity_4` as long as no tie occurs: it needs no
random value; `none` when a tie-set of more than one member is met. -/
def greedy_connectivity_4_inner_det : Nat → G4State → Option G4State
  | 0, s => some s
  | n + 1, s =>
    let r := return_max s.matches_local 0 s.row s.col
    let s1 := { s with score := r.2.1, row := r.2.2.1, col := r.2.2.2 }
    let idx_array := find_values s1.matches_local (Score.sub s1.score max_tol)
    let size := idx_array.length
    let rows_cols := find_all_values s1.matches_local idx_array size
    if 1 < size then none
    else if size = 1 then
      let cp := rows_cols.getD 0 (s1.best_row, s1.best_col)
      match greedy_connectivity_4_record { s1 with best_row := cp.1, best_col := cp.2 } with
      | .error _ => none
      | .ok s3 => greedy_connectivity_4_inner_det n s3
    else some s1

/-- The outer loop of `greedy_connectivity_4` as long as no tie occurs and every
cell of the assignment that is read was written by the strategy before. -/
def greedy_connectivity_4_loop_det (graph1 graph2 : DenseMatrix1D) :
    Nat → G4State → Option G4State
  | 0, _ => none
  | n + 1, s =>
    let last := graph1.getNumberOfRows - 1
    if s.add_order.getD last (-1) = -1 then
      match greedy_connectivity_4_inner_det (min s.neigh_1.length s.neigh_2.length) s with
      | none => none
      | some s1 =>
        let add_idx := s1.add_idx + 1
        let r := s1.add_order.getD add_idx (-1)
        if r = -1 then
          some { s1 with add_idx := add_idx, add_order := s1.add_order.set last (-2) }
        else if r.toNat ∈ s1.picks.map Prod.fst then
          let c := s1.assignment.getD r.toNat (-1)
          let neigh_1 := invalidate_neighbors s1.assigned_G1 (graph1.getNeighbors r.toNat)
          let neigh_2 := invalidate_neighbors s1.assigned_G2 (graph2.getNeighbors c.toNat)
          greedy_connectivity_4_loop_det graph1 graph2 n
            { s1 with
              add_idx := add_idx
              neigh_1 := neigh_1
              neigh_2 := neigh_2
              matches_local := set_matrix_values s1.matches_local s1.scores neigh_1 neigh_2 }
        else none
    else some s

/-- Exhaustive exploration of `greedy_connectivity_4` over every value of the two
`random_id`: true when every run is free of ties in its expansion loop, stays inside
the array `add_order`, writes every cell of the assignment and returns an assignment
accepted by `P`. -/
def greedy_connectivity_4_all (graph1 graph2 : DenseMatrix1D) (P : List Int → Bool)
    (fuel : Nat) (s0 : G4State) : Bool :=
  let size0 := (find_values s0.scores (Score.sub s0.score max_tol)).length
  decide (size0 ≠ 0) && decide (0 < s0.add_order.length) &&
    (List.range size0).all (fun i =>
      let s1 := greedy_connectivity_4_first graph1 graph2 (i + 1) s0
      let size1 := (find_values s1.matches_local (Score.sub s1.score max_tol)).length
      decide (size1 ≠ 0) && decide (1 < s1.add_order.length) &&
        (List.range size1).all (fun j =>
          match greedy_connectivity_4_loop_det graph1 graph2 fuel
              (greedy_connectivity_4_second (j + 1) s1) with
          | none => false
          | some t =>
            (List.range t.assignment.length).all
                (fun v => decide (v ∈ t.picks.map Prod.fst)) &&
              P (greedy_connectivity_4_finish graph1 graph2 t.assignment)))

/-- Two states of `greedy_connectivity_4` that differ at most in the cells of the
assignment that the strategy has not written. -/
def G4Sim (s t : G4State) : Prop :=
  ∃ A, t = { s with assignment := A } ∧ A.length = s.assignment.length ∧
    ∀ i ∈ s.picks.map Prod.fst, A.getD i (-1) = s.assignment.getD i (-1)

/-- The matrix with the given rows (cells outside the lists are zero). -/
def ofRows (R C : Nat) (l : List (List ℚ)) : DenseMatrix1D :=
  { rows := R, cols := C, val := fun i j => some ((l.getD i []).getD j 0) }

/-- Scenario A: a 4 x 4 score matrix whose unique maximum 0.9 sits at (0, 2). -/
def scenarioA : DenseMatrix1D :=
  ofRows 4 4 [[1/10, 2/10, 9/10, 3/10], [4/10, 5/10, 1/10, 2/10],
              [3/10, 1/10, 2/10, 6/10], [2/10, 7/10, 3/10, 1/10]]

/-- The graph on `n` vertices without edges. -/
def noEdges (n : Nat) : DenseMatrix1D := ofRows n n []

/-- The triangle: three vertices, fully connected. -/
def triangle : DenseMatrix1D := ofRows 3 3 [[0, 1, 1], [1, 0, 1], [1, 1, 0]]

/-- Scenario B: 1.0 on the diagonal and 0.1 off the diagonal. -/
def scenarioB : DenseMatrix1D :=
  ofRows 3 3 [[1, 1/10, 1/10], [1/10, 1, 1/10], [1/10, 1/10, 1]]

/-- Scenario C: every entry is the invalidated floor. -/
def scenarioC (r c : Nat) : DenseMatrix1D := { rows := r, cols := c, val := fun _ _ => ⊥ }

/-- Locals that start at zero. -/
def zeroed : Uninit := { row := 0, col := 0, flags := [] }

/-- The star on four vertices: vertex 0 is adjacent to 1, 2 and 3. -/
def star4 : DenseMatrix1D :=
  ofRows 4 4 [[0, 1, 1, 1], [1, 0, 0, 0], [1, 0, 0, 0], [1, 0, 0, 0]]

/-- The path 0 - 3 - 2 on four vertices; vertex 1 has no edge. -/
def path4 : DenseMatrix1D :=
  ofRows 4 4 [[0, 0, 0, 1], [0, 0, 0, 0], [0, 0, 0, 1], [1, 0, 1, 0]]

/-- A 4 x 4 score matrix with the maximum 9 at (0, 3), the next score 8 at (1, 2) and
the equal scores 5 at (2, 0) and (3, 0). -/
def tieScores : DenseMatrix1D :=
  ofRows 4 4 [[0, 0, 0, 9], [0, 0, 8, 0], [5, 0, 0, 0], [5, 0, 0, 0]]

/-- The star on three vertices: vertex 0 is adjacent to 1 and 2. -/
def star3 : DenseMatrix1D := ofRows 3 3 [[0, 1, 1], [1, 0, 0], [1, 0, 0]]

/-- The star on the vertices 1, 2, 3 with centre 1; vertex 0 has no edge. -/
def star4_centre1 : DenseMatrix1D :=
  ofRows 4 4 [[0, 0, 0, 0], [0, 0, 1, 1], [0, 1, 0, 0], [0, 1, 0, 0]]

/-- A 3 x 4 score matrix with the maximum 9 at (0, 0), then 8 at (1, 2) and 7 at
(2, 3). -/
def frontierScores : DenseMatrix1D :=
  ofRows 3 4 [[9, 0, 0, 0], [0, 0, 8, 1], [0, 0, 2, 7]]

end IsoRank
namespace IsoRank

/-! ## SymSparseMatrix.h

The sparse symmetric matrix stores its entries in a `std::unordered_map<int, T>`
under a packed triangular index.  Indices are `int` (they may be negative), the
packed index is computed in `size_t` and converted to the `int` key of the map.
Values are rationals.  A member function that changes the object returns the
object after the call together with its result.  The file constructor reads a text
file through a `std::ifstream`, whose extractions and state bits are part of the
model. -/

/-- The exceptions of MatrixExceptions.h thrown by SymSparseMatrix.h. -/
inductive MatrixException where
  | FileDoesNotExistException
  | NotASquareMatrixException
  | IndexOutOfBoundsException
  deriving DecidableEq, Repr

/-- Conversion of a `size_t` value to the `int` key type of the map: the value
modulo 2^32, read as a signed 32-bit integer. -/
def int_of_size_t (x : Nat) : Int := ((x : Int) + 2147483648) % 4294967296 - 2147483648

/-- The packed triangular index of the source, `i + size_t(j)*(j+1)/2` when `i <= j`
and `j + size_t(i)*(i+1)/2` otherwise (64-bit arithmetic, which does not overflow for
`int` indices). -/
def packed_index (i j : Nat) : Nat :=
  if i ≤ j then i + j * (j + 1) / 2 else j + i * (i + 1) / 2

/-- The key under which `insert`, `operator()` and `_hasEdge` address the pair (i, j),
for indices that passed the bounds check. -/
def edge_key (i j : Int) : Int := int_of_size_t (packed_index i.toNat j.toNat)

/-- The map `std::unordered_map<int, T>` as a list of (key, value) entries. -/
abbrev EdgeMap := List (Int × ℚ)

/-- The call `_edges.find(k)`: the value stored under the key, if any. -/
def EdgeMap.find : EdgeMap → Int → Option ℚ
  | [], _ => none
  | (k', v) :: r, k => if k' = k then some v else EdgeMap.find r k

/-- The call `_edges.erase(k)`. -/
def EdgeMap.erase (m : EdgeMap) (k : Int) : EdgeMap := m.filter (fun e => decide (e.1 ≠ k))

/-- The assignment `_edges[k] = v`: the entry under the key is created or
overwritten. -/
def EdgeMap.assign (m : EdgeMap) (k : Int) (v : ℚ) : EdgeMap := (k, v) :: EdgeMap.erase m k

/-- The read `_edges[k]`: `operator[]` creates a zero entry when the key is absent. -/
def EdgeMap.access (m : EdgeMap) (k : Int) : EdgeMap × ℚ :=
  match EdgeMap.find m k with
  | some v => (m, v)
  | none => ((k, 0) :: m, 0)

/-- The data members that the class declares. -/
structure SymSparseMatrix where
  _size : Int
  _edges : EdgeMap
  deriving DecidableEq

/-- The bounds test shared by `insert`, `operator()` and `_hasEdge`. -/
def SymSparseMatrix.out_of_bounds (m : SymSparseMatrix) (i j : Int) : Bool :=
  decide (i ≥ m._size) || decide (i < 0) || decide (j ≥ m._size) || decide (j < 0)

/-- The accessor `getSize`. -/
def SymSparseMatrix.getSize (m : SymSparseMatrix) : Int := m._size

/-- The private `_hasEdge`: after the bounds check it returns
`_edges.find(key) == _edges.end()`, which is true when NO entry is stored. -/
def SymSparseMatrix._hasEdge (m : SymSparseMatrix) (i j : Int) : Except MatrixException Bool :=
  if m.out_of_bounds i j then .error .IndexOutOfBoundsException
  else .ok (EdgeMap.find m._edges (edge_key i j)).isNone

/-- The mutator `insert(i, j, value)`: bounds check, then `erase` when `_hasEdge`
answers true, then the assignment when the value is not zero.  The result is the
object after the call and the exception thrown, if any. -/
def SymSparseMatrix.insert (m : SymSparseMatrix) (i j : Int) (value : ℚ) :
    SymSparseMatrix × Except MatrixException Unit :=
  if m.out_of_bounds i j then (m, .error .IndexOutOfBoundsException)
  else
    match m._hasEdge i j with
    | .error e => (m, .error e)
    | .ok has =>
      let m1 : SymSparseMatrix :=
        if has then { m with _edges := EdgeMap.erase m._edges (edge_key i j) } else m
      let m2 : SymSparseMatrix :=
        if value ≠ 0 then { m1 with _edges := EdgeMap.assign m1._edges (edge_key i j) value }
        else m1
      (m2, .ok ())

/-- The operator `operator()(i, j)`: bounds check, then the stored value or zero. -/
def SymSparseMatrix.apply (m : SymSparseMatrix) (i j : Int) : Except MatrixException ℚ :=
  if m.out_of_bounds i j then .error .IndexOutOfBoundsException
  else
    match EdgeMap.find m._edges (edge_key i j) with
    | none => .ok 0
    | some v => .ok v

/-- One round of the loop of `getNeighbors`: the read `_edges[(i * _cols) + vertex]`
and the test against 1. -/
def SymSparseMatrix.getNeighbors_step (cols vertex : Int)
    (acc : SymSparseMatrix × List Int) (i : Nat) : SymSparseMatrix × List Int :=
  let r := EdgeMap.access acc.1._edges ((i : Int) * cols + vertex)
  ({ acc.1 with _edges := r.1 }, if r.2 = 1 then acc.2 ++ [(i : Int)] else acc.2)

/-- The accessor `getNeighbors(vertex)`.  The member `_cols` and the function
`getNumberOfRows()` that it reads are not declared by the class; they are the
parameters `cols` and `rows`. -/
def SymSparseMatrix.getNeighbors (m : SymSparseMatrix) (rows cols : Int) (vertex : Int) :
    SymSparseMatrix × List Int :=
  (List.range rows.toNat).foldl (SymSparseMatrix.getNeighbors_step cols vertex) (m, [])

/-- Values of `_size`, `tmp_i` and `tmp_j` before the file constructor writes them. -/
structure SparseUninit where
  _size : Int
  tmp_i : Int
  tmp_j : Int

/-- The 1-based index pairs of an edge list as the tokens of a file. -/
def pair_tokens : List (Int × Int) → List Int
  | [] => []
  | (p, q) :: r => p :: q :: pair_tokens r

/-- The empty matrix of the given size. -/
def SymSparseMatrix.empty (n : Int) : SymSparseMatrix := { _size := n, _edges := [] }

/-- Uninitialised values that are zero. -/
def SparseUninit.zero : SparseUninit := { _size := 0, tmp_i := 0, tmp_j := 0 }

/-- The path 0 - 1 - 2 on three vertices, built by `insert` from the empty matrix. -/
def pathMatrix : SymSparseMatrix :=
  (((SymSparseMatrix.empty 3).insert 0 1 1).1.insert 1 2 1).1

/-- A sequence of calls `insert(i, j, v)` on one object, first call first; a call
that throws leaves the object as it was. -/
def SymSparseMatrix.inserts (m : SymSparseMatrix) : List (Int × Int × ℚ) → SymSparseMatrix
  | [] => m
  | (i, j, v) :: r => SymSparseMatrix.inserts (m.insert i j v).1 r

end IsoRank
namespace IsoRank

/-! ## What is claimed of the recorded iterations -/

/-- The pairs of the recorded outer iterations in the order of their assignment:
for each outer iteration, oldest first, the seed and then the pairs of its inner
loop. -/
def G3Branch.pairs (branches : List G3Branch) : List (Nat × Nat) :=
  branches.reverse.flatMap
    (fun b => (b.seed_row, b.seed_col) :: b.picks.map (fun p => (p.row, p.col)))

/-- Every pair of the list after the first one is adjacent to an earlier pair: its
row is a neighbour in graph 1 of the row of an earlier pair, and its column is a
neighbour in graph 2 of the column of that pair. -/
def neighbor_expanded (graph1 graph2 : DenseMatrix1D) (picks : List (Nat × Nat)) : Prop :=
  ∀ k p, picks[k]? = some p → 0 < k →
    ∃ q ∈ picks.take k, p.1 ∈ graph1.getNeighbors q.1 ∧ p.2 ∈ graph2.getNeighbors q.2

/-- What is claimed of an iteration of `greedy_connectivity_4` with `size > 1`: the
tie-set has more than one member, it consists of the cells of the local matrix at or
above the maximum minus `max_tol`, and the assigned pair is one of its members. -/
def G4Tie.inside (t : G4Tie) : Prop :=
  1 < t.tie_set.length ∧
  (∀ i j, i < t.matches_local.rows → j < t.matches_local.cols →
    t.matches_local.val i j ≤ t.score) ∧
  (∀ i j, (i, j) ∈ t.tie_set ↔
    (i < t.matches_local.rows ∧ j < t.matches_local.cols) ∧
      Score.sub t.score max_tol ≤ t.matches_local.val i j) ∧
  (t.best_row, t.best_col) ∈ t.tie_set

end IsoRank
namespace IsoRank

/-! ## Properties of the selection primitives -/

theorem mem_coords {R C i j : Nat} : (i, j) ∈ coords R C ↔ i < R ∧ j < C := by
  simp [coords]

theorem scan_spec (m : DenseMatrix1D) (l : List (Nat × Nat)) (acc : Score × Nat × Nat) :
    acc.1 ≤ (l.foldl (return_max_step m) acc).1 ∧
    (∀ p ∈ l, m.val p.1 p.2 ≤ (l.foldl (return_max_step m) acc).1) ∧
    (l.foldl (return_max_step m) acc = acc ∨
      (((l.foldl (return_max_step m) acc).2.1, (l.foldl (return_max_step m) acc).2.2) ∈ l ∧
        m.val (l.foldl (return_max_step m) acc).2.1 (l.foldl (return_max_step m) acc).2.2
          = (l.foldl (return_max_step m) acc).1 ∧
        acc.1 < (l.foldl (return_max_step m) acc).1)) := by
  induction l generalizing acc with
  | nil => simp
  | cons p l ih =>
    simp only [List.foldl_cons]
    obtain ⟨h1, h2, h3⟩ := ih (return_max_step m acc p)
    by_cases hp : acc.1 < m.val p.1 p.2
    · have hs : return_max_step m acc p = (m.val p.1 p.2, p.1, p.2) := by
        simp [return_max_step, hp]
      rw [hs] at h1 h2 h3 ⊢
      refine ⟨le_trans (le_of_lt hp) h1, ?_, ?_⟩
      · intro q hq
        rcases List.mem_cons.1 hq with rfl | hq
        · exact h1
        · exact h2 q hq
      · right
        rcases h3 with h3 | ⟨h3, h4, h5⟩
        · rw [h3]; exact ⟨by simp, rfl, hp⟩
        · exact ⟨List.mem_cons_of_mem _ h3, h4, lt_trans hp h5⟩
    · have hs : return_max_step m acc p = acc := by
        simp [return_max_step, hp]
      rw [hs] at h1 h2 h3 ⊢
      refine ⟨h1, ?_, ?_⟩
      · intro q hq
        rcases List.mem_cons.1 hq with rfl | hq
        · exact le_trans (not_lt.1 hp) h1
        · exact h2 q hq
      · rcases h3 with h3 | ⟨h3, h4, h5⟩
        · left; exact h3
        · right; exact ⟨List.mem_cons_of_mem _ h3, h4, h5⟩

theorem scan_no_valid (m : DenseMatrix1D) (l : List (Nat × Nat)) (a b : Nat)
    (h : ∀ p ∈ l, m.val p.1 p.2 = ⊥) :
    l.foldl (return_max_step m) (⊥, a, b) = (⊥, a, b) := by
  induction l with
  | nil => rfl
  | cons p l ih =>
    have hp : m.val p.1 p.2 = ⊥ := h p (by simp)
    simp only [List.foldl_cons]
    have hs : return_max_step m (⊥, a, b) p = (⊥, a, b) := by
      simp [return_max_step, hp]
    rw [hs]
    exact ih (fun q hq => h q (List.mem_cons_of_mem _ hq))

theorem scan_indep (m : DenseMatrix1D) (l : List (Nat × Nat)) (a b a2 b2 : Nat)
    (h : ∃ p ∈ l, ⊥ < m.val p.1 p.2) :
    l.foldl (return_max_step m) (⊥, a, b) = l.foldl (return_max_step m) (⊥, a2, b2) := by
  induction l with
  | nil => simp at h
  | cons p l ih =>
    simp only [List.foldl_cons]
    by_cases hp : ⊥ < m.val p.1 p.2
    · have hs : ∀ x y : Nat, return_max_step m (⊥, x, y) p = (m.val p.1 p.2, p.1, p.2) := by
        intro x y; simp [return_max_step, hp]
      rw [hs, hs]
    · have hs : ∀ x y : Nat, return_max_step m (⊥, x, y) p = (⊥, x, y) := by
        intro x y; simp only [return_max_step, hp, if_false]
      rw [hs, hs]
      apply ih
      obtain ⟨q, hq, hv⟩ := h
      rcases List.mem_cons.1 hq with rfl | hq
      · exact absurd hv hp
      · exact ⟨q, hq, hv⟩

/-- On a matrix with a valid entry `return_max` yields an in-range cell that holds
the maximum, which is valid and bounds every entry. -/
theorem return_max_valid (m : DenseMatrix1D) (t : Score) (row col : Nat)
    (h : has_valid m) :
    (return_max m t row col).2.2.1 < m.rows ∧
    (return_max m t row col).2.2.2 < m.cols ∧
    m.val (return_max m t row col).2.2.1 (return_max m t row col).2.2.2
      = (return_max m t row col).1 ∧
    ⊥ < (return_max m t row col).1 ∧
    ∀ i j, i < m.rows → j < m.cols → m.val i j ≤ (return_max m t row col).1 := by
  obtain ⟨i0, j0, hi0, hj0, hv⟩ := h
  obtain ⟨_, h2, h3⟩ := scan_spec m (coords m.rows m.cols) (⊥, row, col)
  have hle := h2 (i0, j0) (mem_coords.2 ⟨hi0, hj0⟩)
  have hpos : ⊥ < ((coords m.rows m.cols).foldl (return_max_step m) (⊥, row, col)).1 :=
    lt_of_lt_of_le hv hle
  rcases h3 with h3 | ⟨h3, h4, _⟩
  · rw [h3] at hpos; exact absurd hpos (lt_irrefl _)
  · have hm := mem_coords.1 h3
    refine ⟨hm.1, hm.2, h4, hpos, ?_⟩
    intro i j hi hj
    exact h2 (i, j) (mem_coords.2 ⟨hi, hj⟩)

theorem return_max_indep (m : DenseMatrix1D) (t : Score) (row col row2 col2 : Nat)
    (h : has_valid m) : return_max m t row col = return_max m t row2 col2 := by
  obtain ⟨i0, j0, hi0, hj0, hv⟩ := h
  have := scan_indep m (coords m.rows m.cols) row col row2 col2
    ⟨(i0, j0), mem_coords.2 ⟨hi0, hj0⟩, hv⟩
  simp only [return_max, this]

theorem return_max_no_valid (m : DenseMatrix1D) (t : Score) (row col : Nat)
    (h : ¬ has_valid m) : return_max m t row col = (⊥, t + ⊥, row, col) := by
  have := scan_no_valid m (coords m.rows m.cols) row col (by
    intro p hp
    by_contra hne
    exact h ⟨p.1, p.2, (mem_coords.1 hp).1, (mem_coords.1 hp).2, bot_lt_iff_ne_bot.2 hne⟩)
  simp only [return_max, this]

theorem all_inf_iff (m : DenseMatrix1D) : all_inf m = true ↔ ¬ has_valid m := by
  simp only [all_inf, List.all_eq_true, decide_eq_true_eq, le_bot_iff, has_valid]
  constructor
  · rintro h ⟨i, j, hi, hj, hv⟩
    have := h (i, j) (mem_coords.2 ⟨hi, hj⟩)
    simp only at this
    rw [this] at hv
    exact lt_irrefl _ hv
  · intro h p hp
    by_contra hne
    exact h ⟨p.1, p.2, (mem_coords.1 hp).1, (mem_coords.1 hp).2, bot_lt_iff_ne_bot.2 hne⟩

theorem all_inf_false_iff (m : DenseMatrix1D) : all_inf m = false ↔ has_valid m := by
  rw [← Bool.not_eq_true, all_inf_iff, not_not]

end IsoRank
namespace IsoRank

/-! ## Assignments -/

theorem getD_set_eq (a : List Int) (i : Nat) (v d : Int) (h : i < a.length) :
    (a.set i v).getD i d = v := by
  simp [List.getD_eq_getElem?_getD, List.getElem?_set, h]

theorem getD_set_ne (a : List Int) (i j : Nat) (v d : Int) (h : i ≠ j) :
    (a.set i v).getD j d = a.getD j d := by
  simp [List.getD_eq_getElem?_getD, List.getElem?_set, h]

theorem PartialMatch.pm_init (n1 n2 : Nat) : PartialMatch (List.replicate n1 (-1)) [] n1 n2 where
  len := by simp
  rows_nodup := by simp
  cols_nodup := by simp
  in_range := by simp
  hit := by simp
  miss := by
    intro i _
    simp only [List.getD_eq_getElem?_getD]
    by_cases h : i < n1
    · simp [List.getElem?_replicate, h]
    · simp [List.getElem?_replicate, h]
  count := by
    simp only [assigned_count, List.length_nil]
    rw [List.countP_eq_zero]
    intro x hx
    simp [List.eq_of_mem_replicate hx]

theorem PartialMatch.pm_step {a : List Int} {picks : List (Nat × Nat)} {n1 n2 : Nat}
    (h : PartialMatch a picks n1 n2) {row col : Nat} (hr : row < n1) (hc : col < n2)
    (hrow : row ∉ picks.map Prod.fst) (hcol : col ∉ picks.map Prod.snd) :
    PartialMatch (a.set row (col : Int)) (picks ++ [(row, col)]) n1 n2 where
  len := by simp [h.len]
  rows_nodup := by
    rw [List.map_append, List.nodup_append]
    refine ⟨h.rows_nodup, by simp, ?_⟩
    intro x hx hx2
    simp only [List.map_cons, List.map_nil, List.mem_singleton] at hx2
    exact hrow (hx2 ▸ hx)
  cols_nodup := by
    rw [List.map_append, List.nodup_append]
    refine ⟨h.cols_nodup, by simp, ?_⟩
    intro x hx hx2
    simp only [List.map_cons, List.map_nil, List.mem_singleton] at hx2
    exact hcol (hx2 ▸ hx)
  in_range := by
    intro p hp
    rcases List.mem_append.1 hp with hp | hp
    · exact h.in_range p hp
    · simp only [List.mem_singleton] at hp
      subst hp
      exact ⟨hr, hc⟩
  hit := by
    intro p hp
    rcases List.mem_append.1 hp with hp | hp
    · have hne : row ≠ p.1 := by
        intro he
        exact hrow (he ▸ List.mem_map_of_mem Prod.fst hp)
      rw [getD_set_ne _ _ _ _ _ hne]
      exact h.hit p hp
    · simp only [List.mem_singleton] at hp
      subst hp
      exact getD_set_eq _ _ _ _ (h.len ▸ hr)
  miss := by
    intro i hi
    simp only [List.map_append, List.map_cons, List.map_nil, List.mem_append,
      List.mem_singleton, not_or] at hi
    rw [getD_set_ne _ _ _ _ _ (Ne.symm hi.2)]
    exact h.miss i hi.1
  count := by
    have hlt : row < a.length := h.len ▸ hr
    have hm : a[row] = -1 := by
      have := h.miss row hrow
      rw [List.getD_eq_getElem _ _ hlt] at this
      exact this
    have hcol2 : ((col : Int) ≠ -1) := by omega
    simp only [assigned_count, List.length_append, List.length_singleton]
    rw [List.countP_set _ _ _ _ hlt]
    simp only [hm, ne_eq, not_true_eq_false, decide_False, Bool.false_eq_true, if_false,
      hcol2, not_false_eq_true, decide_True, if_true, Nat.sub_zero]
    have := h.count
    simp only [assigned_count, ne_eq] at this
    omega

theorem PartialMatch.row_of_assigned {a : List Int} {picks : List (Nat × Nat)} {n1 n2 : Nat}
    (h : PartialMatch a picks n1 n2) {i : Nat} (hi : a.getD i (-1) ≠ -1) :
    ∃ p ∈ picks, p.1 = i ∧ a.getD i (-1) = (p.2 : Int) := by
  by_cases hm : i ∈ picks.map Prod.fst
  · obtain ⟨p, hp, rfl⟩ := List.mem_map.1 hm
    exact ⟨p, hp, rfl, h.hit p hp⟩
  · exact absurd (h.miss i hm) hi

theorem PartialMatch.injective {a : List Int} {picks : List (Nat × Nat)} {n1 n2 : Nat}
    (h : PartialMatch a picks n1 n2) : injective_assignment a := by
  intro i _ j _ hij hi heq
  obtain ⟨p, hp, hpi, hpv⟩ := h.row_of_assigned hi
  have hj : a.getD j (-1) ≠ -1 := heq ▸ hi
  obtain ⟨q, hq, hqj, hqv⟩ := h.row_of_assigned hj
  have hcols : p.2 = q.2 := by
    have : (p.2 : Int) = (q.2 : Int) := by rw [← hpv, ← hqv, heq]
    exact_mod_cast this
  have := List.inj_on_of_nodup_map h.cols_nodup hp hq hcols
  apply hij
  rw [← hpi, ← hqj, this]

theorem PartialMatch.range {a : List Int} {picks : List (Nat × Nat)} {n1 n2 : Nat}
    (h : PartialMatch a picks n1 n2) : in_range_assignment a n2 := by
  intro i _ hi
  obtain ⟨p, hp, _, hpv⟩ := h.row_of_assigned hi
  rw [hpv]
  have := (h.in_range p hp).2
  omega

theorem length_le_of_nodup_lt {l : List Nat} {n : Nat} (hn : l.Nodup)
    (hlt : ∀ x ∈ l, x < n) : l.length ≤ n := by
  have hsub : l ⊆ List.range n := fun x hx => List.mem_range.2 (hlt x hx)
  have := (List.subperm_of_subset hn hsub).length_le
  simpa using this

theorem exists_not_mem_of_length_lt {l : List Nat} {n : Nat} (h : l.length < n) :
    ∃ i, i < n ∧ i ∉ l := by
  by_contra hc
  push_neg at hc
  have hsub : List.range n ⊆ l := fun x hx => hc x (List.mem_range.1 hx)
  have := (List.subperm_of_subset (List.nodup_range n) hsub).length_le
  simp at this
  omega

theorem mem_of_nodup_full {l : List Nat} {n : Nat} (hn : l.Nodup) (hlt : ∀ x ∈ l, x < n)
    (hlen : n ≤ l.length) {j : Nat} (hj : j < n) : j ∈ l := by
  by_contra hc
  have hsub : j :: l ⊆ List.range n := by
    intro x hx
    rcases List.mem_cons.1 hx with rfl | hx
    · exact List.mem_range.2 hj
    · exact List.mem_range.2 (hlt x hx)
  have := (List.subperm_of_subset (List.nodup_cons.2 ⟨hc, hn⟩) hsub).length_le
  simp at this
  omega

theorem PartialMatch.picks_le {a : List Int} {picks : List (Nat × Nat)} {n1 n2 : Nat}
    (h : PartialMatch a picks n1 n2) : picks.length ≤ n1 ∧ picks.length ≤ n2 := by
  constructor
  · have := length_le_of_nodup_lt h.rows_nodup (by
      intro x hx
      obtain ⟨p, hp, rfl⟩ := List.mem_map.1 hx
      exact (h.in_range p hp).1)
    simpa using this
  · have := length_le_of_nodup_lt h.cols_nodup (by
      intro x hx
      obtain ⟨p, hp, rfl⟩ := List.mem_map.1 hx
      exact (h.in_range p hp).2)
    simpa using this

end IsoRank
namespace IsoRank

/-! ## Completion fallback -/

theorem mem_of_getD_eq {a : List Int} {i : Nat} {v : Int} (hi : i < a.length)
    (h : a.getD i (-1) = v) : v ∈ a := by
  rw [List.getD_eq_getElem _ _ hi] at h
  exact h ▸ List.getElem_mem hi

theorem PartialMatch.col_of_mem {a : List Int} {picks : List (Nat × Nat)} {n1 n2 : Nat}
    (h : PartialMatch a picks n1 n2) {j : Nat} (hj : (j : Int) ∈ a) :
    j ∈ picks.map Prod.snd := by
  obtain ⟨i, hi, hv⟩ := List.mem_iff_getElem.1 hj
  have hd : a.getD i (-1) = (j : Int) := by rw [List.getD_eq_getElem _ _ hi]; exact hv
  have hne : a.getD i (-1) ≠ -1 := by rw [hd]; omega
  obtain ⟨p, hp, _, hpv⟩ := h.row_of_assigned hne
  have : p.2 = j := by
    have : (p.2 : Int) = (j : Int) := by rw [← hpv, hd]
    exact_mod_cast this
  exact this ▸ List.mem_map_of_mem Prod.snd hp

theorem PartialMatch.mem_of_col {a : List Int} {picks : List (Nat × Nat)} {n1 n2 : Nat}
    (h : PartialMatch a picks n1 n2) {j : Nat} (hj : j ∈ picks.map Prod.snd) :
    (j : Int) ∈ a := by
  obtain ⟨p, hp, rfl⟩ := List.mem_map.1 hj
  exact mem_of_getD_eq (h.len ▸ (h.in_range p hp).1) (h.hit p hp)

theorem PartialMatch.not_row_of_sentinel {a : List Int} {picks : List (Nat × Nat)}
    {n1 n2 : Nat} (h : PartialMatch a picks n1 n2) {i : Nat} (hi : a.getD i (-1) = -1) :
    i ∉ picks.map Prod.fst := by
  intro hm
  obtain ⟨p, hp, rfl⟩ := List.mem_map.1 hm
  have := h.hit p hp
  rw [hi] at this
  omega

theorem mem_free_cols {a : List Int} {n2 j : Nat} :
    j ∈ free_cols a n2 ↔ j < n2 ∧ (j : Int) ∉ a := by
  simp [free_cols]

/-- One step of the fallback keeps the assignment a partial matching that extends
the previous one. -/
theorem match_rest_step_pm {a : List Int} {picks : List (Nat × Nat)} {n1 n2 : Nat}
    (h : PartialMatch a picks n1 n2) {i : Nat} (hi : i < n1) :
    ∃ extra, PartialMatch (match_rest_step n2 a i) (picks ++ extra) n1 n2 := by
  unfold match_rest_step
  by_cases hs : a.getD i (-1) = -1
  · rw [if_pos hs]
    cases hf : free_cols a n2 with
    | nil => exact ⟨[], by simpa using h⟩
    | cons j t =>
      have hj : j ∈ free_cols a n2 := by rw [hf]; simp
      obtain ⟨hj2, hja⟩ := mem_free_cols.1 hj
      refine ⟨[(i, j)], ?_⟩
      exact h.pm_step hi hj2 (h.not_row_of_sentinel hs) (fun hm => hja (h.mem_of_col hm))
  · rw [if_neg hs]
    exact ⟨[], by simpa using h⟩

theorem match_rest_step_progress (a : List Int) (n2 i : Nat) (hi : i < a.length) :
    (match_rest_step n2 a i).getD i (-1) ≠ -1 ∨ free_cols (match_rest_step n2 a i) n2 = [] := by
  unfold match_rest_step
  by_cases hs : a.getD i (-1) = -1
  · rw [if_pos hs]
    cases hf : free_cols a n2 with
    | nil => right; exact hf
    | cons j t =>
      left
      simp only
      rw [getD_set_eq _ _ _ _ hi]
      omega
  · rw [if_neg hs]
    left; exact hs

theorem match_rest_step_keeps {a : List Int} {n2 i k : Nat} (hk : a.getD k (-1) ≠ -1) :
    (match_rest_step n2 a i).getD k (-1) = a.getD k (-1) := by
  unfold match_rest_step
  by_cases hs : a.getD i (-1) = -1
  · rw [if_pos hs]
    cases hf : free_cols a n2 with
    | nil => rfl
    | cons j t =>
      simp only
      have : i ≠ k := by
        intro he
        exact hk (he ▸ hs)
      exact getD_set_ne _ _ _ _ _ this
  · rw [if_neg hs]

theorem match_rest_step_free_nil {a : List Int} {n2 i : Nat} (h : free_cols a n2 = []) :
    match_rest_step n2 a i = a := by
  unfold match_rest_step
  by_cases hs : a.getD i (-1) = -1
  · rw [if_pos hs, h]
  · rw [if_neg hs]

/-- Invariant of the fallback loop after the first `k` graph-1 vertices. -/
theorem match_rest_fold {a : List Int} {picks : List (Nat × Nat)} {n1 n2 : Nat}
    (h : PartialMatch a picks n1 n2) (k : Nat) (hk : k ≤ n1) :
    ∃ extra,
      PartialMatch ((List.range k).foldl (match_rest_step n2) a) (picks ++ extra) n1 n2 ∧
      ((∀ i, i < k → ((List.range k).foldl (match_rest_step n2) a).getD i (-1) ≠ -1) ∨
        free_cols ((List.range k).foldl (match_rest_step n2) a) n2 = []) ∧
      (∀ i, a.getD i (-1) ≠ -1 →
        ((List.range k).foldl (match_rest_step n2) a).getD i (-1) = a.getD i (-1)) := by
  induction k with
  | zero => exact ⟨[], by simpa using h, Or.inl (by simp), fun _ _ => rfl⟩
  | succ k ih =>
    obtain ⟨extra, hpm, hdis, hkeep⟩ := ih (Nat.le_of_succ_le hk)
    rw [List.range_succ, List.foldl_append]
    simp only [List.foldl_cons, List.foldl_nil]
    generalize (List.range k).foldl (match_rest_step n2) a = b at hpm hdis hkeep ⊢
    obtain ⟨extra2, hpm2⟩ := match_rest_step_pm hpm (i := k) (by omega)
    refine ⟨extra ++ extra2, by simpa [List.append_assoc] using hpm2, ?_, ?_⟩
    · rcases hdis with hall | hnil
      · rcases match_rest_step_progress b n2 k (by rw [hpm.len]; omega) with hp | hp
        · left
          intro i hi
          rcases Nat.lt_succ_iff_lt_or_eq.1 hi with hlt | rfl
          · rw [match_rest_step_keeps (hall i hlt)]
            exact hall i hlt
          · exact hp
        · right; exact hp
      · right
        rw [match_rest_step_free_nil hnil]
        exact hnil
    · intro i hi
      have hb := hkeep i hi
      rw [match_rest_step_keeps (by rw [hb]; exact hi), hb]

theorem assigned_count_eq_length {a : List Int} (h : ∀ i, i < a.length → a.getD i (-1) ≠ -1) :
    assigned_count a = a.length := by
  simp only [assigned_count]
  rw [List.countP_eq_length]
  intro x hx
  obtain ⟨i, hi, hv⟩ := List.mem_iff_getElem.1 hx
  have := h i hi
  rw [List.getD_eq_getElem _ _ hi, hv] at this
  simpa using this

theorem PartialMatch.full_of_free_nil {a : List Int} {picks : List (Nat × Nat)} {n1 n2 : Nat}
    (h : PartialMatch a picks n1 n2) (hf : free_cols a n2 = []) : n2 ≤ picks.length := by
  have hsub : List.range n2 ⊆ picks.map Prod.snd := by
    intro j hj
    have hj2 := List.mem_range.1 hj
    by_contra hc
    have : j ∈ free_cols a n2 :=
      mem_free_cols.2 ⟨hj2, fun hm => hc (h.col_of_mem hm)⟩
    rw [hf] at this
    simp at this
  have := (List.subperm_of_subset (List.nodup_range n2) hsub).length_le
  simpa using this

/-- The fallback turns a partial matching into one with exactly `min n1 n2`
assigned vertices and leaves the assigned cells as they are. -/
theorem match_rest_spec {a : List Int} {picks : List (Nat × Nat)} {graph1 graph2 : DenseMatrix1D}
    (h : PartialMatch a picks graph1.rows graph2.rows) :
    ∃ extra,
      PartialMatch (match_rest a graph1 graph2) (picks ++ extra) graph1.rows graph2.rows ∧
      assigned_count (match_rest a graph1 graph2) = min graph1.rows graph2.rows ∧
      (∀ i, a.getD i (-1) ≠ -1 → (match_rest a graph1 graph2).getD i (-1) = a.getD i (-1)) := by
  obtain ⟨extra, hpm, hdis, hkeep⟩ := match_rest_fold h graph1.rows (le_refl _)
  refine ⟨extra, hpm, ?_, hkeep⟩
  simp only [match_rest, DenseMatrix1D.getNumberOfRows]
  generalize (List.range graph1.rows).foldl (match_rest_step graph2.rows) a = b at hpm hdis
  have hle := hpm.picks_le
  rcases hdis with hall | hnil
  · have := assigned_count_eq_length (a := b) (by rw [hpm.len]; exact hall)
    rw [this, hpm.len]
    have hc := hpm.count
    rw [this, hpm.len] at hc
    omega
  · have := hpm.full_of_free_nil hnil
    rw [hpm.count]
    omega

/-- On a matching that already has `min n1 n2` pairs the fallback changes nothing. -/
theorem match_rest_of_complete {a : List Int} {picks : List (Nat × Nat)}
    {graph1 graph2 : DenseMatrix1D} (h : PartialMatch a picks graph1.rows graph2.rows)
    (hfull : picks.length = min graph1.rows graph2.rows) :
    match_rest a graph1 graph2 = a := by
  have hstep : ∀ i, i < graph1.rows → match_rest_step graph2.rows a i = a := by
    intro i hi
    by_cases hc : graph1.rows ≤ graph2.rows
    · have hr : i ∈ picks.map Prod.fst :=
        mem_of_nodup_full h.rows_nodup (by
          intro x hx
          obtain ⟨p, hp, rfl⟩ := List.mem_map.1 hx
          exact (h.in_range p hp).1) (by simp; omega) hi
      obtain ⟨p, hp, rfl⟩ := List.mem_map.1 hr
      have hv := h.hit p hp
      unfold match_rest_step
      rw [if_neg (by rw [hv]; omega)]
    · apply match_rest_step_free_nil
      rw [List.eq_nil_iff_forall_not_mem]
      intro j hj
      obtain ⟨hj2, hja⟩ := mem_free_cols.1 hj
      have hcol : j ∈ picks.map Prod.snd :=
        mem_of_nodup_full h.cols_nodup (by
          intro x hx
          obtain ⟨p, hp, rfl⟩ := List.mem_map.1 hx
          exact (h.in_range p hp).2) (by simp; omega) hj2
      exact hja (h.mem_of_col hcol)
  simp only [match_rest, DenseMatrix1D.getNumberOfRows]
  have : ∀ l : List Nat, (∀ i ∈ l, i < graph1.rows) →
      l.foldl (match_rest_step graph2.rows) a = a := by
    intro l
    induction l with
    | nil => intro _; rfl
    | cons x l ih =>
      intro hl
      simp only [List.foldl_cons]
      rw [hstep x (hl x (by simp))]
      exact ih (fun i hi => hl i (List.mem_cons_of_mem _ hi))
  exact this _ (fun i hi => List.mem_range.1 hi)

end IsoRank
namespace IsoRank

/-! ## Selection against the canonical matrix -/

theorem Selecting.fresh {M scores : DenseMatrix1D} {a : List Int} {picks : List (Nat × Nat)}
    (h : Selecting M scores a picks) {row col : Nat} (hv : ⊥ < scores.val row col) :
    row ∉ picks.map Prod.fst ∧ col ∉ picks.map Prod.snd ∧
      scores.val row col = M.val row col := by
  have := h.vals row col
  by_cases hc : row ∈ picks.map Prod.fst ∨ col ∈ picks.map Prod.snd
  · rw [if_pos hc] at this
    rw [this] at hv
    exact absurd hv (lt_irrefl _)
  · rw [if_neg hc] at this
    push_neg at hc
    exact ⟨hc.1, hc.2, this⟩

theorem Selecting.pick {M scores : DenseMatrix1D} {a : List Int} {picks : List (Nat × Nat)}
    (h : Selecting M scores a picks) {row col : Nat} (hr : row < M.rows) (hc : col < M.cols)
    (hv : ⊥ < scores.val row col) :
    Selecting M (invalidate row col scores) (a.set row (col : Int)) (picks ++ [(row, col)]) where
  rows_eq := h.rows_eq
  cols_eq := h.cols_eq
  vals := by
    intro i j
    simp only [invalidate, List.map_append, List.map_cons, List.map_nil, List.mem_append,
      List.mem_singleton]
    rw [h.vals i j]
    by_cases h1 : i = row
    · simp [h1]
    · by_cases h2 : j = col
      · simp [h2]
      · rw [if_neg (by tauto)]
        exact if_congr (by tauto) rfl rfl
  pm := h.pm.pm_step hr hc (h.fresh hv).1 (h.fresh hv).2.1

theorem Selecting.sel_init (M : DenseMatrix1D) : Selecting M M (List.replicate M.rows (-1)) [] where
  rows_eq := rfl
  cols_eq := rfl
  vals := by simp
  pm := PartialMatch.pm_init _ _

/-- While fewer than `min R C` pairs are picked, a matrix of non-negative scores
keeps a valid entry. -/
theorem Selecting.valid_of_lt {M scores : DenseMatrix1D} {a : List Int}
    {picks : List (Nat × Nat)} (h : Selecting M scores a picks) (hn : nonneg_scores M)
    (hlt : picks.length < min M.rows M.cols) : has_valid scores := by
  obtain ⟨i, hi, hi2⟩ := exists_not_mem_of_length_lt (l := picks.map Prod.fst) (n := M.rows)
    (by simp; omega)
  obtain ⟨j, hj, hj2⟩ := exists_not_mem_of_length_lt (l := picks.map Prod.snd) (n := M.cols)
    (by simp; omega)
  refine ⟨i, j, h.rows_eq ▸ hi, h.cols_eq ▸ hj, ?_⟩
  rw [h.vals i j, if_neg (by push_neg; exact ⟨hi2, hj2⟩)]
  exact lt_of_lt_of_le (WithBot.bot_lt_coe (0 : ℚ)) (hn i hi j hj)

/-- Conversely a valid entry means that fewer than `min R C` pairs are picked. -/
theorem Selecting.lt_of_has_valid {M scores : DenseMatrix1D} {a : List Int}
    {picks : List (Nat × Nat)} (h : Selecting M scores a picks) (hv : has_valid scores) :
    picks.length < min M.rows M.cols := by
  obtain ⟨i, j, hi, hj, hpos⟩ := hv
  obtain ⟨h1, h2, _⟩ := h.fresh hpos
  have hpm := h.pm.pm_step (h.rows_eq ▸ hi) (h.cols_eq ▸ hj) h1 h2
  have := hpm.picks_le
  simp only [List.length_append, List.length_singleton] at this
  omega

theorem score_ordered_nil (M : DenseMatrix1D) : score_ordered M [] := by
  intro k p h
  simp at h

theorem score_ordered_snoc {M : DenseMatrix1D} {picks : List (Nat × Nat)} {q : Nat × Nat}
    (h : score_ordered M picks)
    (hq : q.1 ∉ picks.map Prod.fst ∧ q.2 ∉ picks.map Prod.snd ∧
      ∀ i, i < M.rows → ∀ j, j < M.cols →
        i ∉ picks.map Prod.fst → j ∉ picks.map Prod.snd → M.val i j ≤ M.val q.1 q.2) :
    score_ordered M (picks ++ [q]) := by
  intro k p hk
  by_cases hlt : k < picks.length
  · have h1 : (picks ++ [q]).get? k = picks.get? k := by
      simp [List.getElem?_append_left hlt]
    have h2 : (picks ++ [q]).take k = picks.take k := by
      rw [List.take_append_of_le_length (le_of_lt hlt)]
    rw [h1] at hk
    rw [h2]
    exact h k p hk
  · have hk2 : k = picks.length := by
      have : k < (picks ++ [q]).length := by
        by_contra hc
        have : (picks ++ [q]).get? k = none := by
          simp only [List.get?_eq_getElem?]
          exact List.getElem?_eq_none (not_lt.1 hc)
        rw [this] at hk
        exact Option.noConfusion hk
      simp at this
      omega
    subst hk2
    have h1 : (picks ++ [q]).get? picks.length = some q := by simp
    have h2 : (picks ++ [q]).take picks.length = picks := by simp
    rw [h1] at hk
    rw [h2]
    cases hk
    exact hq

/-! ## `greedy_1` -/

theorem greedy_1_body_inv {M : DenseMatrix1D} {s : G1State} (hn : nonneg_scores M)
    (h : G1Inv M s) (hlt : s.picks.length < min M.rows M.cols) :
    G1Inv M (greedy_1_body s) ∧ (greedy_1_body s).picks.length = s.picks.length + 1 := by
  have hv := h.sel.valid_of_lt hn hlt
  obtain ⟨h1, h2, h3, h4, h5⟩ := return_max_valid s.scores s.total_score s.row s.col hv
  rw [← h3] at h4
  have hf := h.sel.fresh h4
  refine ⟨⟨?_, ?_⟩, by simp [greedy_1_body]⟩
  · exact h.sel.pick (h.sel.rows_eq ▸ h1) (h.sel.cols_eq ▸ h2) h4
  · apply score_ordered_snoc h.ord
    refine ⟨hf.1, hf.2.1, ?_⟩
    intro i hi j hj hi2 hj2
    have := h5 i j (h.sel.rows_eq ▸ hi) (h.sel.cols_eq ▸ hj)
    rw [← h3, hf.2.2, h.sel.vals i j, if_neg (by push_neg; exact ⟨hi2, hj2⟩)] at this
    exact this

theorem greedy_1_loop_inv {M : DenseMatrix1D} (hn : nonneg_scores M) (n : Nat) (s : G1State)
    (h : G1Inv M s) (hlt : s.picks.length + n ≤ min M.rows M.cols) :
    G1Inv M (greedy_1_loop n s) ∧ (greedy_1_loop n s).picks.length = s.picks.length + n := by
  induction n generalizing s with
  | zero => exact ⟨h, rfl⟩
  | succ n ih =>
    obtain ⟨hb, hl⟩ := greedy_1_body_inv hn h (by omega)
    obtain ⟨h1, h2⟩ := ih (greedy_1_body s) hb (by omega)
    exact ⟨h1, by rw [greedy_1_loop, h2, hl]; omega⟩

theorem init_array_of_length (a : List Int) (n : Nat) (v : Int) (h : a.length = n) :
    init_array a n v = List.replicate n v := by
  simp [init_array, List.drop_of_length_le (le_of_eq h)]

theorem greedy_1_select_inv {M : DenseMatrix1D} (hn : nonneg_scores M) (assignment : List Int)
    (u : Uninit) (hlen : assignment.length = M.rows) :
    G1Inv M (greedy_1_select M assignment u) ∧
    (greedy_1_select M assignment u).picks.length = min M.rows M.cols := by
  have := greedy_1_loop_inv hn (min M.rows M.cols)
    { scores := M, total_score := 0, row := u.row, col := u.col,
      assignment := init_array assignment M.rows (-1), picks := [] }
    ⟨by rw [init_array_of_length _ _ _ hlen]; exact Selecting.sel_init M, score_ordered_nil M⟩
    (by simp)
  simpa [greedy_1_select, DenseMatrix1D.getNumberOfRows, DenseMatrix1D.getNumberOfColumns]
    using this

end IsoRank
namespace IsoRank

/-! ## Claims on `greedy_1` -/

theorem greedy_1_select_pm {scores graph1 graph2 : DenseMatrix1D} {assignment : List Int}
    (u : Uninit) (hn : nonneg_scores scores) (h1 : scores.rows = graph1.rows)
    (h2 : scores.cols = graph2.rows) (hlen : assignment.length = graph1.rows) :
    PartialMatch (greedy_1_select scores assignment u).assignment
      (greedy_1_select scores assignment u).picks graph1.rows graph2.rows ∧
    (greedy_1_select scores assignment u).picks.length = min graph1.rows graph2.rows := by
  obtain ⟨hinv, hl⟩ := greedy_1_select_inv hn assignment u (h1 ▸ hlen)
  have := hinv.sel.pm
  rw [h1, h2] at this hl
  exact ⟨this, hl⟩

/-- C1: for every |G1| x |G2| matrix of non-negative scores and every pair of graphs,
the assignment returned by `greedy_1` never maps two distinct graph-1 vertices to
the same graph-2 vertex, and its non-sentinel entries lie in [0, |G2|). -/
theorem greedy_1_injective (scores graph1 graph2 : DenseMatrix1D) (assignment : List Int)
    (u : Uninit) (hn : nonneg_scores scores) (h1 : scores.rows = graph1.rows)
    (h2 : scores.cols = graph2.rows) (hlen : assignment.length = graph1.rows) :
    injective_assignment (greedy_1 scores graph1 graph2 assignment u) ∧
    in_range_assignment (greedy_1 scores graph1 graph2 assignment u) graph2.rows ∧
    (greedy_1 scores graph1 graph2 assignment u).length = graph1.rows := by
  obtain ⟨hpm, _⟩ := greedy_1_select_pm u hn h1 h2 hlen
  obtain ⟨extra, hpm2, _, _⟩ := match_rest_spec hpm
  exact ⟨hpm2.injective, hpm2.range, hpm2.len⟩

/-- C2: for every |G1| x |G2| matrix of non-negative scores, when the selection loop
of `greedy_1` ends exactly min(|G1|,|G2|) cells of the assignment are non-sentinel,
`match_rest` changes nothing, and the returned assignment has exactly
min(|G1|,|G2|) non-sentinel cells. -/
theorem greedy_1_complete (scores graph1 graph2 : DenseMatrix1D) (assignment : List Int)
    (u : Uninit) (hn : nonneg_scores scores) (h1 : scores.rows = graph1.rows)
    (h2 : scores.cols = graph2.rows) (hlen : assignment.length = graph1.rows) :
    assigned_count (greedy_1_select scores assignment u).assignment
      = min graph1.rows graph2.rows ∧
    (greedy_1_select scores assignment u).assignment.length = graph1.rows ∧
    greedy_1 scores graph1 graph2 assignment u
      = (greedy_1_select scores assignment u).assignment ∧
    assigned_count (greedy_1 scores graph1 graph2 assignment u)
      = min graph1.rows graph2.rows := by
  obtain ⟨hpm, hl⟩ := greedy_1_select_pm u hn h1 h2 hlen
  have hid : greedy_1 scores graph1 graph2 assignment u
      = (greedy_1_select scores assignment u).assignment := match_rest_of_complete hpm hl
  have hc : assigned_count (greedy_1_select scores assignment u).assignment
      = min graph1.rows graph2.rows := by rw [hpm.count, hl]
  exact ⟨hc, hpm.len, hid, by rw [hid, hc]⟩

/-- C3: for every matrix of non-negative scores, `greedy_1` records min(|G1|,|G2|)
pairs; the pair recorded at iteration k has a row and a column not selected before
and the largest score among all cells whose row and column were not selected at
iterations 0..k-1; the first pair holds the global maximum; when the maximum is
unique the first pair is its cell and no later pair uses its row or its column. -/
theorem greedy_1_score_order (scores : DenseMatrix1D) (assignment : List Int) (u : Uninit)
    (hn : nonneg_scores scores) (hlen : assignment.length = scores.rows) :
    (greedy_1_select scores assignment u).picks.length = min scores.rows scores.cols ∧
    (∀ p ∈ (greedy_1_select scores assignment u).picks,
      (greedy_1_select scores assignment u).assignment.getD p.1 (-1) = (p.2 : Int)) ∧
    score_ordered scores (greedy_1_select scores assignment u).picks ∧
    (∀ p, (greedy_1_select scores assignment u).picks.get? 0 = some p →
      ∀ i, i < scores.rows → ∀ j, j < scores.cols → scores.val i j ≤ scores.val p.1 p.2) ∧
    (∀ a b, a < scores.rows → b < scores.cols →
      (∀ i, i < scores.rows → ∀ j, j < scores.cols → (i, j) ≠ (a, b) →
        scores.val i j < scores.val a b) →
      (greedy_1_select scores assignment u).picks.get? 0 = some (a, b) ∧
      ∀ k p, 0 < k → (greedy_1_select scores assignment u).picks.get? k = some p →
        p.1 ≠ a ∧ p.2 ≠ b) := by
  obtain ⟨hinv, hl⟩ := greedy_1_select_inv hn assignment u hlen
  generalize (greedy_1_select scores assignment u) = s at hinv hl
  have hfirst : ∀ p, s.picks.get? 0 = some p →
      ∀ i, i < scores.rows → ∀ j, j < scores.cols → scores.val i j ≤ scores.val p.1 p.2 := by
    intro p hp i hi j hj
    exact (hinv.ord 0 p hp).2.2 i hi j hj (by simp) (by simp)
  refine ⟨hl, hinv.sel.pm.hit, hinv.ord, hfirst, ?_⟩
  intro a b ha hb huniq
  have hpos : 0 < s.picks.length := by rw [hl]; omega
  have h0 : s.picks.get? 0 = some (s.picks.get ⟨0, hpos⟩) := List.get?_eq_get hpos
  have hp0 : s.picks.get ⟨0, hpos⟩ = (a, b) := by
    by_contra hne
    have hin := hinv.sel.pm.in_range _ (List.get_mem s.picks 0 hpos)
    have hlt := huniq _ hin.1 _ hin.2 hne
    have hle := hfirst _ h0 a ha b hb
    exact absurd hlt (not_lt.2 hle)
  rw [hp0] at h0
  refine ⟨h0, ?_⟩
  intro k p hk hkp
  obtain ⟨hr, hc, _⟩ := hinv.ord k p hkp
  have hmem : (a, b) ∈ s.picks.take k := by
    have hk0 : s.picks.get? 0 = (s.picks.take k).get? 0 := by
      simp only [List.get?_eq_getElem?]
      rw [List.getElem?_take_of_lt hk]
    rw [hk0] at h0
    exact List.get?_mem h0
  constructor
  · intro he
    exact hr (he ▸ List.mem_map_of_mem Prod.fst hmem)
  · intro he
    exact hc (he ▸ List.mem_map_of_mem Prod.snd hmem)

theorem nonneg_scenarioA : nonneg_scores scenarioA := by
  unfold nonneg_scores
  decide!

theorem greedy_1_injective_witness :
    nonneg_scores scenarioA ∧ scenarioA.rows = (noEdges 4).rows ∧
    scenarioA.cols = (noEdges 4).rows ∧ [7, 7, 7, (7 : Int)].length = (noEdges 4).rows ∧
    injective_assignment (greedy_1 scenarioA (noEdges 4) (noEdges 4) [7, 7, 7, 7] zeroed) ∧
    in_range_assignment (greedy_1 scenarioA (noEdges 4) (noEdges 4) [7, 7, 7, 7] zeroed)
      (noEdges 4).rows ∧
    (greedy_1 scenarioA (noEdges 4) (noEdges 4) [7, 7, 7, 7] zeroed).length
      = (noEdges 4).rows :=
  ⟨nonneg_scenarioA, rfl, rfl, rfl,
    greedy_1_injective scenarioA (noEdges 4) (noEdges 4) [7, 7, 7, 7] zeroed
      nonneg_scenarioA rfl rfl rfl⟩

end IsoRank
namespace IsoRank

/-! ## `greedy_connectivity_3` -/

theorem sum_set_of_zero (l : List Int) (i : Nat) (h : i < l.length) (h0 : l.getD i 0 = 0) :
    (l.set i 1).sum = l.sum + 1 := by
  induction l generalizing i with
  | nil => simp at h
  | cons x l ih =>
    cases i with
    | zero =>
      simp only [List.getD_cons_zero] at h0
      simp only [List.set_cons_zero, List.sum_cons, h0]
      ring
    | succ i =>
      simp only [List.getD_cons_succ] at h0
      simp only [List.length_cons, Nat.add_lt_add_iff_right] at h
      simp only [List.set_cons_succ, List.sum_cons, ih i h h0]
      ring

theorem Flags.fl_init (n1 : Nat) : Flags (List.replicate n1 0) [] n1 where
  len := by simp
  zero := by
    intro i _
    simp only [List.getD_eq_getElem?_getD]
    by_cases h : i < n1
    · simp [List.getElem?_replicate, h]
    · simp [List.getElem?_replicate, h]
  sum := by simp

theorem Flags.fl_step {a2 : List Int} {picks : List (Nat × Nat)} {n1 : Nat}
    (h : Flags a2 picks n1) {row : Nat} (col : Nat) (hr : row < n1)
    (hrow : row ∉ picks.map Prod.fst) :
    Flags (a2.set row 1) (picks ++ [(row, col)]) n1 where
  len := by simp [h.len]
  zero := by
    intro i hi
    simp only [List.map_append, List.map_cons, List.map_nil, List.mem_append,
      List.mem_singleton, not_or] at hi
    rw [getD_set_ne _ _ _ _ _ (Ne.symm hi.2)]
    exact h.zero i hi.1
  sum := by
    rw [sum_set_of_zero _ _ (h.len ▸ hr) (h.zero row hrow), h.sum]
    simp

theorem Flags.sum_array_eq {a2 : List Int} {picks : List (Nat × Nat)} {n1 : Nat}
    (h : Flags a2 picks n1) : sum_array a2 n1 = (picks.length : Int) := by
  simp only [sum_array]
  rw [List.take_of_length_le (le_of_eq h.len), h.sum]

/-- A pick made from a matrix `m` whose valid cells agree with the canonical matrix. -/
theorem greedy_connectivity_3_pick_inv {M : DenseMatrix1D} {s : G3State} (m : DenseMatrix1D)
    (h : G3Inv M s) (hr : m.rows = M.rows) (hc : m.cols = M.cols)
    (hm : ∀ i j, ⊥ < m.val i j → m.val i j = s.scores.val i j) (hv : has_valid m) :
    Selecting M
      (invalidate (greedy_connectivity_3_pick m s).row (greedy_connectivity_3_pick m s).col
        s.scores)
      (greedy_connectivity_3_pick m s).assignment (greedy_connectivity_3_pick m s).picks ∧
    Flags (greedy_connectivity_3_pick m s).assignment2 (greedy_connectivity_3_pick m s).picks
      M.rows ∧
    (greedy_connectivity_3_pick m s).picks.length = s.picks.length + 1 ∧
    (greedy_connectivity_3_pick m s).scores = s.scores ∧
    (greedy_connectivity_3_pick m s).local_matches = s.local_matches := by
  obtain ⟨h1, h2, h3, h4, _⟩ := return_max_valid m s.final_score s.row s.col hv
  rw [← h3] at h4
  have h5 : ⊥ < s.scores.val (return_max m s.final_score s.row s.col).2.2.1
      (return_max m s.final_score s.row s.col).2.2.2 := by
    rw [← hm _ _ h4]; exact h4
  refine ⟨?_, ?_, by simp [greedy_connectivity_3_pick], rfl, rfl⟩
  · exact h.sel.pick (hr ▸ h1) (hc ▸ h2) h5
  · exact h.flags.fl_step _ (hr ▸ h1) (h.sel.fresh h5).1

theorem greedy_connectivity_3_inner_inv {M : DenseMatrix1D} (n : Nat) (s : G3State)
    (h : G3Inv M s) :
    G3Inv M (greedy_connectivity_3_inner n s).2 ∧
    s.picks.length ≤ (greedy_connectivity_3_inner n s).2.picks.length := by
  induction n generalizing s with
  | zero => exact ⟨h, le_refl _⟩
  | succ n ih =>
    unfold greedy_connectivity_3_inner
    by_cases ha : all_inf s.local_matches = true
    · rw [if_pos ha]; exact ⟨h, le_refl _⟩
    · rw [if_neg ha]
      have hv : has_valid s.local_matches :=
        (all_inf_false_iff _).1 (by simpa using ha)
      obtain ⟨p1, p2, p3, p4, p5⟩ :=
        greedy_connectivity_3_pick_inv s.local_matches h h.loc_rows h.loc_cols h.loc_vals hv
      have hinv : G3Inv M
          { greedy_connectivity_3_pick s.local_matches s with
            local_matches := invalidate (greedy_connectivity_3_pick s.local_matches s).row
              (greedy_connectivity_3_pick s.local_matches s).col
              (greedy_connectivity_3_pick s.local_matches s).local_matches
            scores := invalidate (greedy_connectivity_3_pick s.local_matches s).row
              (greedy_connectivity_3_pick s.local_matches s).col
              (greedy_connectivity_3_pick s.local_matches s).scores
            branches := G3Branch.record (greedy_connectivity_3_pick s.local_matches s).branches
              { local_before := s.local_matches
                row := (greedy_connectivity_3_pick s.local_matches s).row
                col := (greedy_connectivity_3_pick s.local_matches s).col
                local_after := invalidate (greedy_connectivity_3_pick s.local_matches s).row
                  (greedy_connectivity_3_pick s.local_matches s).col
                  (greedy_connectivity_3_pick s.local_matches s).local_matches
                scores_after := invalidate (greedy_connectivity_3_pick s.local_matches s).row
                  (greedy_connectivity_3_pick s.local_matches s).col
                  (greedy_connectivity_3_pick s.local_matches s).scores } } := by
        refine ⟨by rw [p4]; exact p1, p2, ?_, ?_, ?_⟩
        · rw [p5]; exact h.loc_rows
        · rw [p5]; exact h.loc_cols
        · intro i j
          rw [p4, p5]
          simp only [invalidate]
          by_cases hc : i = (greedy_connectivity_3_pick s.local_matches s).row ∨
              j = (greedy_connectivity_3_pick s.local_matches s).col
          · rw [if_pos hc, if_pos hc]; intro _; rfl
          · rw [if_neg hc, if_neg hc]; exact h.loc_vals i j
      simp only
      split
      · exact ⟨hinv, by simp only; omega⟩
      · obtain ⟨q1, q2⟩ := ih _ hinv
        exact ⟨q1, by simp only at q2; omega⟩

theorem greedy_connectivity_3_seed_inv {M : DenseMatrix1D} (graph1 graph2 : DenseMatrix1D)
    {s : G3State}
    (h : G3Inv M s) (hv : has_valid s.scores) :
    G3Inv M (greedy_connectivity_3_seed graph1 graph2 s) ∧
    (greedy_connectivity_3_seed graph1 graph2 s).picks.length = s.picks.length + 1 := by
  obtain ⟨p1, p2, p3, p4, p5⟩ :=
    greedy_connectivity_3_pick_inv s.scores h h.sel.rows_eq h.sel.cols_eq (fun _ _ _ => rfl) hv
  refine ⟨⟨by rw [p4] at *; exact p1, p2, ?_, ?_, ?_⟩, p3⟩
  · simp only [greedy_connectivity_3_seed, set_matrix_values, set_to_min, p5]
    exact h.loc_rows
  · simp only [greedy_connectivity_3_seed, set_matrix_values, set_to_min, p5]
    exact h.loc_cols
  · intro i j
    simp only [greedy_connectivity_3_seed, set_matrix_values]
    split
    · intro _; rfl
    · intro hb; exact absurd hb (lt_irrefl _)

/-- With enough fuel the outer loop of `greedy_connectivity_3` returns; the state it
stops in satisfies the invariant. -/
theorem greedy_connectivity_3_loop_total {M graph1 graph2 : DenseMatrix1D}
    (hn : nonneg_scores M) (h1 : M.rows = graph1.rows) (h2 : M.cols = graph2.rows)
    (n : Nat) (s : G3State) (h : G3Inv M s)
    (hfuel : min graph1.rows graph2.rows - s.picks.length < n) :
    ∃ t, greedy_connectivity_3_loop graph1 graph2 n s
        = .ok (t, match_rest t.assignment graph1 graph2) ∧ G3Inv M t := by
  induction n generalizing s with
  | zero => omega
  | succ n ih =>
    unfold greedy_connectivity_3_loop
    simp only [DenseMatrix1D.getNumberOfRows]
    rw [← h1, h.flags.sum_array_eq]
    by_cases hc : (s.picks.length : Int) < ((min M.rows graph2.rows : Nat) : Int)
    · rw [if_pos hc]
      have hlt : s.picks.length < min M.rows M.cols := by rw [h2]; exact_mod_cast hc
      obtain ⟨hs, hl⟩ := greedy_connectivity_3_seed_inv graph1 graph2 h
        (h.sel.valid_of_lt hn hlt)
      by_cases ha : all_inf (greedy_connectivity_3_seed graph1 graph2 s).scores = true
      · rw [if_pos ha]; exact ⟨_, rfl, hs⟩
      · rw [if_neg ha]
        obtain ⟨hi, hl2⟩ := greedy_connectivity_3_inner_inv
          (min (greedy_connectivity_3_seed graph1 graph2 s).neigh_1.length
            (greedy_connectivity_3_seed graph1 graph2 s).neigh_2.length) _ hs
        split
        · exact ⟨_, rfl, hi⟩
        · apply ih _ hi
          rw [← h1] at hfuel
          rw [← h1]
          omega
    · rw [if_neg hc]; exact ⟨_, rfl, h⟩

theorem greedy_connectivity_3_init_inv (M graph1 graph2 : DenseMatrix1D)
    (assignment : List Int) (u : Uninit) (h1 : M.rows = graph1.rows)
    (hlen : assignment.length = graph1.rows) :
    G3Inv M (greedy_connectivity_3_init M graph1 graph2 assignment u) where
  sel := by
    simp only [greedy_connectivity_3_init, DenseMatrix1D.getNumberOfRows]
    rw [init_array_of_length _ _ _ hlen, ← h1]
    exact Selecting.sel_init M
  flags := by
    simp only [greedy_connectivity_3_init, DenseMatrix1D.getNumberOfRows, ← h1]
    exact Flags.fl_init _
  loc_rows := rfl
  loc_cols := rfl
  loc_vals := fun _ _ _ => rfl

/-- The run of `greedy_connectivity_3` returns when graph 1 has no more vertices
than graph 2, and the state in which it stops holds a partial matching of
min(|G1|,|G2|) or fewer pairs. -/
theorem greedy_connectivity_3_run_total {scores graph1 graph2 : DenseMatrix1D}
    (assignment : List Int) (u : Uninit) (fuel : Nat) (hn : nonneg_scores scores)
    (h1 : scores.rows = graph1.rows) (h2 : scores.cols = graph2.rows)
    (hlen : assignment.length = graph1.rows) (hsz : graph1.rows ≤ graph2.rows)
    (hfuel : min graph1.rows graph2.rows < fuel) :
    ∃ t, greedy_connectivity_3_run scores graph1 graph2 assignment u fuel
        = .ok (t, match_rest t.assignment graph1 graph2) ∧
      PartialMatch t.assignment t.picks graph1.rows graph2.rows := by
  have hinit := greedy_connectivity_3_init_inv scores graph1 graph2 assignment u h1 hlen
  obtain ⟨t, ht, hinv⟩ := greedy_connectivity_3_loop_total hn h1 h2 fuel _ hinit
    (by simp only [greedy_connectivity_3_init, List.length_nil]; omega)
  refine ⟨t, ?_, ?_⟩
  · unfold greedy_connectivity_3_run
    rw [if_neg (by simp only [DenseMatrix1D.getNumberOfRows]; omega)]
    exact ht
  · have := hinv.sel.pm
    rw [h1, h2] at this
    exact this

/-- With more graph-1 than graph-2 vertices the run of `greedy_connectivity_3` stops
at the initialisation of the flag array `assignment_G2`. -/
theorem greedy_connectivity_3_run_overflow (scores graph1 graph2 : DenseMatrix1D)
    (assignment : List Int) (u : Uninit) (fuel : Nat) (hsz : graph2.rows < graph1.rows) :
    greedy_connectivity_3_run scores graph1 graph2 assignment u fuel = .error .out_of_bounds ∧
    greedy_connectivity_3 scores graph1 graph2 assignment u fuel = .error .out_of_bounds := by
  have h : greedy_connectivity_3_run scores graph1 graph2 assignment u fuel
      = .error .out_of_bounds := by
    unfold greedy_connectivity_3_run
    rw [if_pos (by simp only [DenseMatrix1D.getNumberOfRows]; exact hsz)]
  exact ⟨h, by simp [greedy_connectivity_3, h, Except.map]⟩

end IsoRank
namespace IsoRank

/-! ## Claims on `greedy_connectivity_3` -/

theorem greedy_connectivity_3_eq_of_run {scores graph1 graph2 : DenseMatrix1D}
    {assignment : List Int} {u : Uninit} {fuel : Nat} {t : G3State} {a : List Int}
    (h : greedy_connectivity_3_run scores graph1 graph2 assignment u fuel = .ok (t, a)) :
    greedy_connectivity_3 scores graph1 graph2 assignment u fuel = .ok a := by
  simp [greedy_connectivity_3, h, Except.map]

/-- C5 (where the code fails, and where the claim holds): for every |G1| x |G2|
matrix of non-negative scores and every pair of graphs, `greedy_connectivity_3` with
more graph-1 than graph-2 vertices writes past its flag array `assignment_G2` and
returns no assignment; with |G1| <= |G2| it returns (given fuel beyond min(|G1|,|G2|))
an assignment that never maps two distinct graph-1 vertices to the same graph-2
vertex, on whichever path it returns; the pairs picked by the outer and the inner
loop have pairwise distinct rows and pairwise distinct columns, and they are the
cells of the returned assignment. -/
theorem greedy_connectivity_3_injective (scores graph1 graph2 : DenseMatrix1D)
    (assignment : List Int) (u : Uninit) (fuel : Nat) (hn : nonneg_scores scores)
    (h1 : scores.rows = graph1.rows) (h2 : scores.cols = graph2.rows)
    (hlen : assignment.length = graph1.rows) (hfuel : min graph1.rows graph2.rows < fuel) :
    (graph2.rows < graph1.rows →
      greedy_connectivity_3 scores graph1 graph2 assignment u fuel
        = .error .out_of_bounds) ∧
    (graph1.rows ≤ graph2.rows →
      ∃ t a, greedy_connectivity_3_run scores graph1 graph2 assignment u fuel = .ok (t, a) ∧
        greedy_connectivity_3 scores graph1 graph2 assignment u fuel = .ok a ∧
        injective_assignment a ∧ in_range_assignment a graph2.rows ∧
        (t.picks.map Prod.fst).Nodup ∧ (t.picks.map Prod.snd).Nodup ∧
        (∀ p ∈ t.picks,
          p.1 < graph1.rows ∧ p.2 < graph2.rows ∧ a.getD p.1 (-1) = (p.2 : Int))) := by
  refine ⟨fun hsz =>
    (greedy_connectivity_3_run_overflow scores graph1 graph2 assignment u fuel hsz).2, ?_⟩
  intro hsz
  obtain ⟨t, ht, hpm⟩ :=
    greedy_connectivity_3_run_total assignment u fuel hn h1 h2 hlen hsz hfuel
  obtain ⟨extra, hpm2, _, hkeep⟩ := match_rest_spec hpm
  refine ⟨t, _, ht, greedy_connectivity_3_eq_of_run ht, hpm2.injective, hpm2.range,
    hpm.rows_nodup, hpm.cols_nodup, ?_⟩
  intro p hp
  refine ⟨(hpm.in_range p hp).1, (hpm.in_range p hp).2, ?_⟩
  rw [hkeep p.1 (by rw [hpm.hit p hp]; omega)]
  exact hpm.hit p hp

/-- C6 (where the code fails, and where the claim holds): for every |G1| x |G2|
matrix of non-negative scores and every pair of graphs, `greedy_connectivity_3` with
more graph-1 than graph-2 vertices stops at the write past its flag array
`assignment_G2`, before its loop and without the completion fallback; with
|G1| <= |G2| it terminates (fuel beyond min(|G1|,|G2|) is enough), what it returns is
the result of `match_rest` on the assignment of the state in which it stopped, and the
returned assignment has exactly min(|G1|,|G2|) non-sentinel cells. -/
theorem greedy_connectivity_3_complete (scores graph1 graph2 : DenseMatrix1D)
    (assignment : List Int) (u : Uninit) (fuel : Nat) (hn : nonneg_scores scores)
    (h1 : scores.rows = graph1.rows) (h2 : scores.cols = graph2.rows)
    (hlen : assignment.length = graph1.rows) (hfuel : min graph1.rows graph2.rows < fuel) :
    (graph2.rows < graph1.rows →
      greedy_connectivity_3_run scores graph1 graph2 assignment u fuel
        = .error .out_of_bounds) ∧
    (graph1.rows ≤ graph2.rows →
      ∃ t, greedy_connectivity_3_run scores graph1 graph2 assignment u fuel
          = .ok (t, match_rest t.assignment graph1 graph2) ∧
        greedy_connectivity_3 scores graph1 graph2 assignment u fuel
          = .ok (match_rest t.assignment graph1 graph2) ∧
        assigned_count (match_rest t.assignment graph1 graph2)
          = min graph1.rows graph2.rows ∧
        (match_rest t.assignment graph1 graph2).length = graph1.rows) := by
  refine ⟨fun hsz =>
    (greedy_connectivity_3_run_overflow scores graph1 graph2 assignment u fuel hsz).1, ?_⟩
  intro hsz
  obtain ⟨t, ht, hpm⟩ :=
    greedy_connectivity_3_run_total assignment u fuel hn h1 h2 hlen hsz hfuel
  obtain ⟨extra, hpm2, hcount, _⟩ := match_rest_spec hpm
  exact ⟨t, ht, greedy_connectivity_3_eq_of_run ht, hcount, hpm2.len⟩

/-- Every return of the loop of `greedy_connectivity_3` passes through `match_rest`,
whatever the input. -/
theorem greedy_connectivity_3_loop_fallback (graph1 graph2 : DenseMatrix1D) (n : Nat)
    (s t : G3State) (a : List Int)
    (h : greedy_connectivity_3_loop graph1 graph2 n s = .ok (t, a)) :
    a = match_rest t.assignment graph1 graph2 := by
  induction n generalizing s with
  | zero => simp [greedy_connectivity_3_loop] at h
  | succ n ih =>
    unfold greedy_connectivity_3_loop at h
    simp only at h
    split at h
    · split at h
      · simp only [Except.ok.injEq, Prod.mk.injEq] at h
        rw [← h.2, ← h.1]
      · split at h
        · simp only [Except.ok.injEq, Prod.mk.injEq] at h
          rw [← h.2, ← h.1]
        · exact ih _ h
    · simp only [Except.ok.injEq, Prod.mk.injEq] at h
      rw [← h.2, ← h.1]

end IsoRank
namespace IsoRank

/-! ## `greedy_connectivity_2` -/

theorem score_sub_coe (a b : ℚ) : Score.sub (a : Score) (b : Score) = ((a - b : ℚ) : Score) := rfl

theorem mem_cells_at_or_above {m : DenseMatrix1D} {thr : Score} {p : Nat × Nat} :
    p ∈ cells_at_or_above m thr ↔ (p.1 < m.rows ∧ p.2 < m.cols) ∧ thr ≤ m.val p.1 p.2 := by
  simp only [cells_at_or_above, List.mem_filter, decide_eq_true_eq]
  constructor
  · rintro ⟨h1, h2⟩; exact ⟨mem_coords.1 h1, h2⟩
  · rintro ⟨h1, h2⟩; exact ⟨mem_coords.2 h1, h2⟩

theorem find_values_length (m : DenseMatrix1D) (thr : Score) :
    (find_values m thr).length = (cells_at_or_above m thr).length := by
  simp [find_values]

/-- With an index inside the tie-set `get_Max` returns a cell of the tie-set. -/
theorem get_Max_mem (m : DenseMatrix1D) (id : Nat) (thr : Score) (row col : Nat)
    (h1 : 1 ≤ id) (h2 : id ≤ (find_values m thr).length) :
    ((get_Max m id thr row col).2.1, (get_Max m id thr row col).2.2) ∈ cells_at_or_above m thr ∧
    (get_Max m id thr row col).1
      = m.val (get_Max m id thr row col).2.1 (get_Max m id thr row col).2.2 := by
  rw [find_values_length] at h2
  have hlt : id - 1 < (cells_at_or_above m thr).length := by omega
  have hg : (cells_at_or_above m thr).get? (id - 1)
      = some ((cells_at_or_above m thr).get ⟨id - 1, hlt⟩) := List.get?_eq_get hlt
  simp only [get_Max, hg]
  exact ⟨List.get_mem _ _ _, trivial⟩

/-- The loop condition: when it holds the active matrix has a valid entry, the
score stays finite and the threshold is finite and at most the maximum. -/
theorem greedy_connectivity_2_cond_true {M graph1 graph2 : DenseMatrix1D} {s : G2State}
    (h : G2Inv M s) (hc : (greedy_connectivity_2_cond graph1 graph2 s).1 = true) :
    has_valid s.active_matches ∧
    (greedy_connectivity_2_cond graph1 graph2 s).2.active_matches = s.active_matches ∧
    (greedy_connectivity_2_cond graph1 graph2 s).2.scores = s.scores ∧
    (greedy_connectivity_2_cond graph1 graph2 s).2.assignment = s.assignment ∧
    (greedy_connectivity_2_cond graph1 graph2 s).2.assignment2 = s.assignment2 ∧
    (greedy_connectivity_2_cond graph1 graph2 s).2.picks = s.picks ∧
    (greedy_connectivity_2_cond graph1 graph2 s).2.score ≠ ⊥ ∧
    (∃ q : ℚ, greedy_connectivity_2_threshold (greedy_connectivity_2_cond graph1 graph2 s).2
      = (q : Score)) ∧
    (∃ p, p ∈ cells_at_or_above s.active_matches
      (greedy_connectivity_2_threshold (greedy_connectivity_2_cond graph1 graph2 s).2)) := by
  unfold greedy_connectivity_2_cond at hc ⊢
  simp only at hc ⊢
  split at hc
  · rename_i hsum
    rw [if_pos hsum]
    simp only [decide_eq_true_eq] at hc
    have hv : has_valid s.active_matches := by
      by_contra hnv
      rw [return_max_no_valid _ _ _ _ hnv] at hc
      exact absurd hc (not_lt_bot)
    obtain ⟨r1, r2, r3, r4, _⟩ := return_max_valid s.active_matches s.score s.row s.col hv
    obtain ⟨x, hx⟩ := WithBot.ne_bot_iff_exists.1 h.score_ne
    obtain ⟨y, hy⟩ := WithBot.ne_bot_iff_exists.1 (ne_of_gt r4)
    have hsc : (return_max s.active_matches s.score s.row s.col).2.1 = ((x + y : ℚ) : Score) := by
      show s.score + (return_max s.active_matches s.score s.row s.col).1 = _
      rw [← hy, ← hx]
      rfl
    have hthr : greedy_connectivity_2_threshold
        { s with score := (return_max s.active_matches s.score s.row s.col).2.1,
                 row := (return_max s.active_matches s.score s.row s.col).2.2.1,
                 col := (return_max s.active_matches s.score s.row s.col).2.2.2 }
        = ((x + y - x - 1 / 1000000 : ℚ) : Score) := by
      simp only [greedy_connectivity_2_threshold, h.prev_eq, hsc]
      rw [← hx, score_sub_coe]
      rfl
    refine ⟨hv, rfl, rfl, rfl, rfl, rfl, ?_, ⟨_, hthr⟩, ?_⟩
    · simp only [hsc]; exact WithBot.coe_ne_bot
    · refine ⟨((return_max s.active_matches s.score s.row s.col).2.2.1,
        (return_max s.active_matches s.score s.row s.col).2.2.2), ?_⟩
      rw [mem_cells_at_or_above]
      refine ⟨⟨r1, r2⟩, ?_⟩
      rw [hthr, r3, ← hy, WithBot.coe_le_coe]
      linarith
  · simp at hc

theorem greedy_connectivity_2_cond_false (graph1 graph2 : DenseMatrix1D) (s : G2State) :
    (greedy_connectivity_2_cond graph1 graph2 s).2.assignment = s.assignment ∧
    (greedy_connectivity_2_cond graph1 graph2 s).2.picks = s.picks ∧
    (greedy_connectivity_2_cond graph1 graph2 s).2.scores = s.scores := by
  unfold greedy_connectivity_2_cond
  simp only
  split <;> exact ⟨rfl, rfl, rfl⟩

theorem greedy_connectivity_2_rebuild_spec (graph1 graph2 scores : DenseMatrix1D)
    (assignment : List Int) (l : List Nat) (act : DenseMatrix1D)
    (h : ∀ i j, ⊥ < act.val i j → act.val i j = scores.val i j) :
    (greedy_connectivity_2_rebuild graph1 graph2 scores assignment l act).rows = act.rows ∧
    (greedy_connectivity_2_rebuild graph1 graph2 scores assignment l act).cols = act.cols ∧
    ∀ i j, ⊥ < (greedy_connectivity_2_rebuild graph1 graph2 scores assignment l act).val i j →
      (greedy_connectivity_2_rebuild graph1 graph2 scores assignment l act).val i j
        = scores.val i j := by
  induction l generalizing act with
  | nil => exact ⟨rfl, rfl, h⟩
  | cons x l ih =>
    simp only [greedy_connectivity_2_rebuild, List.foldl_cons]
    have := ih (set_matrix_values act scores (graph1.getNeighbors x)
      (graph2.getNeighbors (assignment.getD x (-1)).toNat)) (by
        intro i j
        simp only [set_matrix_values]
        split
        · intro _; rfl
        · intro hb; exact absurd hb (lt_irrefl _))
    simpa [greedy_connectivity_2_rebuild, set_matrix_values] using this

/-- The assignment step keeps the invariant and adds one pair. -/
theorem greedy_connectivity_2_assign_inv {M : DenseMatrix1D} (graph1 graph2 : DenseMatrix1D)
    (s : G2State) (id : Nat) (sel : Selecting M s.scores s.assignment s.picks)
    (flags : Flags s.assignment2 s.picks M.rows)
    (hr : s.active_matches.rows = M.rows) (hcl : s.active_matches.cols = M.cols)
    (hv : ∀ i j, ⊥ < s.active_matches.val i j → s.active_matches.val i j = s.scores.val i j)
    (hsc : s.score ≠ ⊥) (hq : ∃ q : ℚ, greedy_connectivity_2_threshold s = (q : Score))
    (h1 : 1 ≤ id)
    (h2 : id ≤ (find_values s.active_matches (greedy_connectivity_2_threshold s)).length) :
    G2Inv M (greedy_connectivity_2_assign graph1 graph2 id s) ∧
    (greedy_connectivity_2_assign graph1 graph2 id s).picks.length = s.picks.length + 1 := by
  obtain ⟨hmem, _⟩ := get_Max_mem s.active_matches id (greedy_connectivity_2_threshold s)
    s.row s.col h1 h2
  obtain ⟨⟨g1, g2⟩, g3⟩ := mem_cells_at_or_above.1 hmem
  simp only at g1 g2 g3
  obtain ⟨q, hq⟩ := hq
  have hpos : ⊥ < s.active_matches.val
      (get_Max s.active_matches id (greedy_connectivity_2_threshold s) s.row s.col).2.1
      (get_Max s.active_matches id (greedy_connectivity_2_threshold s) s.row s.col).2.2 := by
    exact lt_of_lt_of_le (hq ▸ WithBot.bot_lt_coe q) g3
  have hpos2 := hpos
  rw [hv _ _ hpos] at hpos2
  have hsel := sel.pick (hr ▸ g1) (hcl ▸ g2) hpos2
  have hfl := flags.fl_step (get_Max s.active_matches id
    (greedy_connectivity_2_threshold s) s.row s.col).2.2 (hr ▸ g1) (sel.fresh hpos2).1
  obtain ⟨b1, b2, b3⟩ := greedy_connectivity_2_rebuild_spec graph1 graph2
    (invalidate (get_Max s.active_matches id (greedy_connectivity_2_threshold s) s.row s.col).2.1
      (get_Max s.active_matches id (greedy_connectivity_2_threshold s) s.row s.col).2.2 s.scores)
    (s.assignment.set
      (get_Max s.active_matches id (greedy_connectivity_2_threshold s) s.row s.col).2.1
      ((get_Max s.active_matches id (greedy_connectivity_2_threshold s) s.row s.col).2.2 : Int))
    (s.assigned_G1 ++
      [(get_Max s.active_matches id (greedy_connectivity_2_threshold s) s.row s.col).2.1])
    (set_to_min s.active_matches) (by
      intro i j hb
      exact absurd hb (lt_irrefl _))
  refine ⟨⟨hsel, hfl, ?_, ?_, b3, hsc, rfl⟩, by simp [greedy_connectivity_2_assign]⟩
  · simp only [greedy_connectivity_2_assign]
    rw [b1]; exact hr
  · simp only [greedy_connectivity_2_assign]
    rw [b2]; exact hcl

/-- With enough fuel the loop of `greedy_connectivity_2` returns, and what it
returns is the assignment of the state in which it stops. -/
theorem greedy_connectivity_2_loop_total {M graph1 : DenseMatrix1D} (graph2 : DenseMatrix1D)
    (rnd : Nat → Nat) (h1 : M.rows = graph1.cols)
    (n : Nat) (s : G2State) (h : G2Inv M s)
    (hfuel : min graph1.cols graph2.cols - s.picks.length < n) :
    ∃ t, greedy_connectivity_2_loop graph1 graph2 rnd n s = .ok (t, t.assignment) ∧
      Selecting M t.scores t.assignment t.picks := by
  induction n generalizing s with
  | zero => omega
  | succ n ih =>
    unfold greedy_connectivity_2_loop
    simp only
    by_cases hc : (greedy_connectivity_2_cond graph1 graph2 s).1 = true
    · rw [if_pos hc]
      obtain ⟨c1, c2, c3, c4, c5, c6, c7, c8, c9⟩ := greedy_connectivity_2_cond_true h hc
      have hni : all_inf (greedy_connectivity_2_cond graph1 graph2 s).2.active_matches = false := by
        rw [c2]; exact (all_inf_false_iff _).2 c1
      rw [hni]
      simp only [Bool.false_eq_true, if_false]
      have hsz : (find_values (greedy_connectivity_2_cond graph1 graph2 s).2.active_matches
          (greedy_connectivity_2_threshold (greedy_connectivity_2_cond graph1 graph2 s).2)).length
          ≠ 0 := by
        rw [find_values_length, c2]
        obtain ⟨p, hp⟩ := c9
        exact List.length_pos_iff_ne_nil.1 (List.length_pos_of_mem hp) |> fun hne =>
          fun h0 => hne (List.length_eq_zero.1 h0)
      rw [if_neg hsz]
      have hlt : s.picks.length < min graph1.cols graph2.cols := by
        unfold greedy_connectivity_2_cond at hc
        simp only at hc
        split at hc
        · rename_i hsum
          simp only [DenseMatrix1D.getNumberOfColumns] at hsum
          rw [← h1, h.flags.sum_array_eq, h1] at hsum
          exact_mod_cast hsum
        · simp at hc
      obtain ⟨hinv, hl⟩ := greedy_connectivity_2_assign_inv (M := M) graph1 graph2
        (greedy_connectivity_2_cond graph1 graph2 s).2
        (rnd (greedy_connectivity_2_cond graph1 graph2 s).2.k %
          (find_values (greedy_connectivity_2_cond graph1 graph2 s).2.active_matches
            (greedy_connectivity_2_threshold
              (greedy_connectivity_2_cond graph1 graph2 s).2)).length + 1)
        (by rw [c3, c4, c6]; exact h.sel) (by rw [c5, c6]; exact h.flags)
        (by rw [c2]; exact h.act_rows) (by rw [c2]; exact h.act_cols)
        (by rw [c2, c3]; exact h.act_vals) c7 c8 (by omega)
        (Nat.succ_le_of_lt (Nat.mod_lt _ (Nat.pos_of_ne_zero hsz)))
      apply ih _ hinv
      rw [hl, c6]
      omega
    · rw [if_neg hc]
      obtain ⟨f1, f2, f3⟩ := greedy_connectivity_2_cond_false graph1 graph2 s
      exact ⟨_, rfl, by rw [f1, f2, f3]; exact h.sel⟩

theorem greedy_connectivity_2_init_inv (M graph1 : DenseMatrix1D) (assignment : List Int)
    (u : Uninit) (h1 : M.rows = graph1.cols) (hlen : assignment.length = graph1.cols) :
    G2Inv M (greedy_connectivity_2_init M graph1 assignment u) where
  sel := by
    simp only [greedy_connectivity_2_init, DenseMatrix1D.getNumberOfColumns]
    rw [init_array_of_length _ _ _ hlen, ← h1]
    exact Selecting.sel_init M
  flags := by
    simp only [greedy_connectivity_2_init, DenseMatrix1D.getNumberOfColumns, ← h1]
    exact Flags.fl_init _
  act_rows := rfl
  act_cols := rfl
  act_vals := fun _ _ _ => rfl
  score_ne := by
    simp only [greedy_connectivity_2_init]
    exact WithBot.coe_ne_bot (a := (0 : ℚ))
  prev_eq := rfl

end IsoRank
namespace IsoRank

/-! ## Claims on `greedy_connectivity_2` -/

/-- C7: for every |G1| x |G2| score matrix, every pair of graphs and every outcome
of the random choices, `greedy_connectivity_2` returns (given fuel beyond
min(|G1|,|G2|)) the assignment of its final state; the pairs it assigned have
pairwise distinct rows and pairwise distinct columns, they are the cells of the
returned assignment, and the assignment never maps two distinct graph-1 vertices
to the same graph-2 vertex. -/
theorem greedy_connectivity_2_injective (scores graph1 graph2 : DenseMatrix1D)
    (assignment : List Int) (u : Uninit) (rnd : Nat → Nat) (fuel : Nat)
    (h1 : scores.rows = graph1.cols) (h2 : scores.cols = graph2.cols)
    (hlen : assignment.length = graph1.cols) (hfuel : min graph1.cols graph2.cols < fuel) :
    ∃ t, greedy_connectivity_2_run scores graph1 graph2 assignment u rnd fuel
        = .ok (t, t.assignment) ∧
      greedy_connectivity_2 scores graph1 graph2 assignment u rnd fuel = .ok t.assignment ∧
      injective_assignment t.assignment ∧ in_range_assignment t.assignment graph2.cols ∧
      (t.picks.map Prod.fst).Nodup ∧ (t.picks.map Prod.snd).Nodup ∧
      (∀ p ∈ t.picks, p.1 < graph1.cols ∧ p.2 < graph2.cols ∧
        t.assignment.getD p.1 (-1) = (p.2 : Int)) := by
  have hinit := greedy_connectivity_2_init_inv scores graph1 assignment u h1 hlen
  obtain ⟨t, ht, hsel⟩ := greedy_connectivity_2_loop_total graph2 rnd h1 fuel _ hinit
    (by simp only [greedy_connectivity_2_init, List.length_nil]; omega)
  have hpm := hsel.pm
  rw [h1, h2] at hpm
  refine ⟨t, ht, ?_, hpm.injective, hpm.range, hpm.rows_nodup, hpm.cols_nodup, ?_⟩
  · simp only [greedy_connectivity_2, greedy_connectivity_2_run, ht, Except.map]
  · intro p hp
    exact ⟨(hpm.in_range p hp).1, (hpm.in_range p hp).2, hpm.hit p hp⟩

theorem greedy_connectivity_2_injective_witness :
    scenarioB.rows = triangle.cols ∧ scenarioB.cols = triangle.cols ∧
    [7, 7, (7 : Int)].length = triangle.cols ∧ min triangle.cols triangle.cols < 4 ∧
    ∃ t, greedy_connectivity_2_run scenarioB triangle triangle [7, 7, 7] zeroed (fun k => k) 4
        = .ok (t, t.assignment) ∧
      greedy_connectivity_2 scenarioB triangle triangle [7, 7, 7] zeroed (fun k => k) 4
        = .ok t.assignment ∧
      injective_assignment t.assignment ∧ in_range_assignment t.assignment triangle.cols ∧
      (t.picks.map Prod.fst).Nodup ∧ (t.picks.map Prod.snd).Nodup ∧
      (∀ p ∈ t.picks, p.1 < triangle.cols ∧ p.2 < triangle.cols ∧
        t.assignment.getD p.1 (-1) = (p.2 : Int)) :=
  ⟨rfl, rfl, rfl, by decide,
    greedy_connectivity_2_injective scenarioB triangle triangle [7, 7, 7] zeroed (fun k => k) 4
      rfl rfl rfl (by decide)⟩

end IsoRank
namespace IsoRank

/-! ## Scenario B: the deterministic strategies -/

theorem init_array_of_le (a : List Int) (n : Nat) (v : Int) (h : a.length ≤ n) :
    init_array a n v = List.replicate n v := by
  simp [init_array, List.drop_of_length_le h]

theorem greedy_connectivity_1_body_indep (graph1 graph2 : DenseMatrix1D) (s : G1State)
    (r c : Nat) (hv : has_valid s.scores) :
    greedy_connectivity_1_body graph1 graph2 { s with row := r, col := c }
      = greedy_connectivity_1_body graph1 graph2 s := by
  simp only [greedy_connectivity_1_body, return_max_indep s.scores s.total_score r c s.row s.col hv]

/-- On a matrix with a valid entry and at least one iteration
`greedy_connectivity_1` does not depend on the uninitialised locals nor on the
contents of the assignment array. -/
theorem greedy_connectivity_1_indep (scores graph1 graph2 : DenseMatrix1D)
    (assignment : List Int) (u : Uninit) (hv : has_valid scores)
    (hpos : 0 < min scores.rows scores.cols) (hlen : assignment.length = scores.rows) :
    greedy_connectivity_1 scores graph1 graph2 assignment u
      = greedy_connectivity_1 scores graph1 graph2 (List.replicate scores.rows (-1)) zeroed := by
  obtain ⟨n, hn⟩ := Nat.exists_eq_succ_of_ne_zero (Nat.pos_iff_ne_zero.1 hpos)
  simp only [greedy_connectivity_1, DenseMatrix1D.getNumberOfRows,
    DenseMatrix1D.getNumberOfColumns, hn, greedy_connectivity_1_loop,
    init_array_of_length _ _ _ hlen, init_array_of_length _ _ _ (List.length_replicate _ _)]
  have h1 := greedy_connectivity_1_body_indep graph1 graph2
    { scores := scores, total_score := 0, row := zeroed.row, col := zeroed.col,
      assignment := List.replicate scores.rows (-1), picks := [] } u.row u.col hv
  simp only at h1
  rw [h1]

theorem greedy_connectivity_3_pick_indep (m : DenseMatrix1D) (s : G3State) (r c : Nat)
    (hv : has_valid m) :
    greedy_connectivity_3_pick m { s with row := r, col := c }
      = greedy_connectivity_3_pick m s := by
  simp only [greedy_connectivity_3_pick, return_max_indep m s.final_score r c s.row s.col hv]

theorem greedy_connectivity_3_loop_indep (graph1 graph2 : DenseMatrix1D) (n : Nat)
    (s : G3State) (r c : Nat) (hv : has_valid s.scores)
    (hsum : sum_array s.assignment2 graph1.getNumberOfRows
      < ((min graph1.getNumberOfRows graph2.getNumberOfRows : Nat) : Int)) :
    greedy_connectivity_3_loop graph1 graph2 (n + 1) { s with row := r, col := c }
      = greedy_connectivity_3_loop graph1 graph2 (n + 1) s := by
  have hseed : greedy_connectivity_3_seed graph1 graph2 { s with row := r, col := c }
      = greedy_connectivity_3_seed graph1 graph2 s := by
    simp only [greedy_connectivity_3_seed, greedy_connectivity_3_pick_indep s.scores s r c hv]
  simp only [greedy_connectivity_3_loop, hsum, if_true, hseed]

/-- With at least one unit of fuel, a matrix with a valid entry and at least one
vertex on each side, `greedy_connectivity_3` does not depend on the uninitialised
locals nor on the contents of the assignment array, provided graph 1 is not larger
than graph 2. -/
theorem greedy_connectivity_3_indep (scores graph1 graph2 : DenseMatrix1D)
    (assignment : List Int) (u : Uninit) (n : Nat) (hv : has_valid scores)
    (hpos : 0 < min graph1.rows graph2.rows) (hle : graph2.rows ≤ graph1.rows)
    (hlen : assignment.length = graph1.rows) :
    greedy_connectivity_3 scores graph1 graph2 assignment u (n + 1)
      = greedy_connectivity_3 scores graph1 graph2 (List.replicate graph1.rows (-1)) zeroed
          (n + 1) := by
  have hfl : ∀ l : List Int,
      init_array (l.take graph2.rows) graph1.rows 0 = List.replicate graph1.rows 0 := by
    intro l
    apply init_array_of_le
    simp only [List.length_take]
    omega
  have h := greedy_connectivity_3_loop_indep graph1 graph2 n
    (greedy_connectivity_3_init scores graph1 graph2 (List.replicate graph1.rows (-1)) zeroed)
    u.row u.col hv (by
      simp only [greedy_connectivity_3_init, sum_array, DenseMatrix1D.getNumberOfRows,
        List.take_replicate, List.sum_replicate, smul_zero]
      exact_mod_cast hpos)
  simp only [greedy_connectivity_3, greedy_connectivity_3_run]
  by_cases hsz : graph2.getNumberOfRows < graph1.getNumberOfRows
  · rw [if_pos hsz, if_pos hsz]
  · rw [if_neg hsz, if_neg hsz, ← h]
    simp only [greedy_connectivity_3_init, hfl, DenseMatrix1D.getNumberOfRows,
      init_array_of_length _ _ _ hlen, init_array_of_length _ _ _ (List.length_replicate _ _)]

theorem has_valid_scenarioB : has_valid scenarioB :=
  (all_inf_false_iff _).1 (by decide!)

theorem greedy_connectivity_3_loop_mono (graph1 graph2 : DenseMatrix1D) (n : Nat)
    (s : G3State) (r : G3State × List Int)
    (h : greedy_connectivity_3_loop graph1 graph2 n s = .ok r) (m : Nat) :
    greedy_connectivity_3_loop graph1 graph2 (n + m) s = .ok r := by
  induction n generalizing s with
  | zero => simp [greedy_connectivity_3_loop] at h
  | succ n ih =>
    rw [Nat.succ_add]
    unfold greedy_connectivity_3_loop at h ⊢
    simp only at h ⊢
    split
    · rename_i hc
      rw [if_pos hc] at h
      split
      · rename_i ha
        rw [if_pos ha] at h
        exact h
      · rename_i ha
        rw [if_neg ha] at h
        split
        · rename_i hr
          rw [if_pos hr] at h
          exact h
        · rename_i hr
          rw [if_neg hr] at h
          exact ih _ h
    · rename_i hc
      rw [if_neg hc] at h
      exact h

theorem greedy_connectivity_3_mono (scores graph1 graph2 : DenseMatrix1D)
    (assignment : List Int) (u : Uninit) (n m : Nat) (a : List Int)
    (h : greedy_connectivity_3 scores graph1 graph2 assignment u n = .ok a) :
    greedy_connectivity_3 scores graph1 graph2 assignment u (n + m) = .ok a := by
  simp only [greedy_connectivity_3, greedy_connectivity_3_run] at h ⊢
  by_cases hsz : graph2.getNumberOfRows < graph1.getNumberOfRows
  · rw [if_pos hsz] at h
    simp [Except.map] at h
  · rw [if_neg hsz] at h ⊢
    cases hr : greedy_connectivity_3_loop graph1 graph2 n
        (greedy_connectivity_3_init scores graph1 graph2 assignment u) with
    | error e => rw [hr] at h; simp [Except.map] at h
    | ok r =>
      rw [hr] at h
      rw [greedy_connectivity_3_loop_mono graph1 graph2 n _ r hr m]
      exact h

/-- Scenario B for the two deterministic connectivity-aware strategies. -/
theorem scenarioB_deterministic (assignment : List Int) (u : Uninit) (fuel : Nat)
    (hlen : assignment.length = 3) (hfuel : 3 < fuel) :
    greedy_connectivity_1 scenarioB triangle triangle assignment u = [0, 1, 2] ∧
    greedy_connectivity_3 scenarioB triangle triangle assignment u fuel = .ok [0, 1, 2] := by
  constructor
  · rw [greedy_connectivity_1_indep scenarioB triangle triangle assignment u
      has_valid_scenarioB (by decide) hlen]
    decide!
  · obtain ⟨m, rfl⟩ : ∃ m, fuel = 4 + m := ⟨fuel - 4, by omega⟩
    apply greedy_connectivity_3_mono
    rw [greedy_connectivity_3_indep scenarioB triangle triangle assignment u 3
        has_valid_scenarioB (by decide) (le_refl _) hlen]
    decide!

end IsoRank
namespace IsoRank

/-! ## Scenario B: `greedy_connectivity_2` -/

/-- Soundness of the exhaustive exploration: when it succeeds, the run returns an
accepted assignment for every random stream. -/
theorem greedy_connectivity_2_all_sound (graph1 graph2 : DenseMatrix1D) (P : List Int → Bool)
    (rnd : Nat → Nat) (n : Nat) (s : G2State)
    (h : greedy_connectivity_2_all graph1 graph2 P n s = true) :
    ∃ r, greedy_connectivity_2_loop graph1 graph2 rnd n s = .ok r ∧ P r.2 = true := by
  induction n generalizing s with
  | zero => simp [greedy_connectivity_2_all] at h
  | succ n ih =>
    unfold greedy_connectivity_2_all at h
    unfold greedy_connectivity_2_loop
    simp only at h ⊢
    split
    · rename_i hc
      rw [if_pos hc] at h
      split
      · rename_i ha
        rw [if_pos ha] at h
        exact ⟨_, rfl, h⟩
      · rename_i ha
        rw [if_neg ha] at h
        simp only [Bool.and_eq_true, decide_eq_true_eq, List.all_eq_true, List.mem_range] at h
        rw [if_neg h.1]
        exact ih _ (h.2 _ (Nat.mod_lt _ (Nat.pos_of_ne_zero h.1)))
    · rename_i hc
      rw [if_neg hc] at h
      exact ⟨_, rfl, h⟩

theorem greedy_connectivity_2_loop_mono (graph1 graph2 : DenseMatrix1D) (rnd : Nat → Nat)
    (n : Nat) (s : G2State) (r : G2State × List Int)
    (h : greedy_connectivity_2_loop graph1 graph2 rnd n s = .ok r) (m : Nat) :
    greedy_connectivity_2_loop graph1 graph2 rnd (n + m) s = .ok r := by
  induction n generalizing s with
  | zero => simp [greedy_connectivity_2_loop] at h
  | succ n ih =>
    rw [Nat.succ_add]
    unfold greedy_connectivity_2_loop at h ⊢
    simp only at h ⊢
    split
    · rename_i hc
      rw [if_pos hc] at h
      split
      · rename_i ha
        rw [if_pos ha] at h
        exact h
      · rename_i ha
        rw [if_neg ha] at h
        split
        · rename_i hz
          rw [if_pos hz] at h
          exact h
        · rename_i hz
          rw [if_neg hz] at h
          exact ih _ h
    · rename_i hc
      rw [if_neg hc] at h
      exact h

theorem greedy_connectivity_2_loop_indep (graph1 graph2 : DenseMatrix1D) (rnd : Nat → Nat)
    (n : Nat) (s : G2State) (r c : Nat) (hv : has_valid s.active_matches)
    (hsum : sum_array s.assignment2 graph1.getNumberOfColumns
      < ((min graph1.getNumberOfColumns graph2.getNumberOfColumns : Nat) : Int)) :
    greedy_connectivity_2_loop graph1 graph2 rnd (n + 1) { s with row := r, col := c }
      = greedy_connectivity_2_loop graph1 graph2 rnd (n + 1) s := by
  have hcond : greedy_connectivity_2_cond graph1 graph2 { s with row := r, col := c }
      = greedy_connectivity_2_cond graph1 graph2 s := by
    simp only [greedy_connectivity_2_cond, hsum, if_true,
      return_max_indep s.active_matches s.score r c s.row s.col hv]
  simp only [greedy_connectivity_2_loop, hcond]

/-- Scenario B for `greedy_connectivity_2`, for every random stream. -/
theorem scenarioB_greedy_connectivity_2 (assignment : List Int) (u : Uninit)
    (rnd : Nat → Nat) (fuel : Nat) (hlen : assignment.length = 3) (hfuel : 3 < fuel) :
    greedy_connectivity_2 scenarioB triangle triangle assignment u rnd fuel = .ok [0, 1, 2] := by
  obtain ⟨m, rfl⟩ : ∃ m, fuel = 4 + m := ⟨fuel - 4, by omega⟩
  have hall : greedy_connectivity_2_all triangle triangle (fun a => decide (a = [0, 1, 2])) 4
      (greedy_connectivity_2_init scenarioB triangle [-1, -1, -1] zeroed) = true := by
    decide!
  obtain ⟨r, hr, hP⟩ := greedy_connectivity_2_all_sound triangle triangle _ rnd 4 _ hall
  have hinit : greedy_connectivity_2_init scenarioB triangle assignment u
      = { greedy_connectivity_2_init scenarioB triangle [-1, -1, -1] zeroed with
          row := u.row, col := u.col } := by
    have h3 : triangle.getNumberOfColumns = 3 := rfl
    simp only [greedy_connectivity_2_init, h3, init_array_of_length _ _ _ hlen]
    rfl
  have hind := greedy_connectivity_2_loop_indep triangle triangle rnd 3
    (greedy_connectivity_2_init scenarioB triangle [-1, -1, -1] zeroed) u.row u.col
    has_valid_scenarioB (by decide)
  simp only [greedy_connectivity_2, greedy_connectivity_2_run]
  rw [hinit, greedy_connectivity_2_loop_mono triangle triangle rnd 4 _ r (by rw [hind]; exact hr) m]
  simp only [decide_eq_true_eq] at hP
  simp [Except.map, hP]

end IsoRank
namespace IsoRank

/-! ## Scenario B: `greedy_connectivity_4` -/

theorem getD_set (l : List Int) (i j : Nat) (v d : Int) :
    (l.set i v).getD j d = if i = j ∧ i < l.length then v else l.getD j d := by
  by_cases h : i = j
  · subst h
    by_cases h2 : i < l.length
    · simp [h2, getD_set_eq _ _ _ _ h2]
    · simp only [h2, and_false, if_false]
      rw [List.set_eq_of_length_le (not_lt.1 h2)]
  · simp only [h, false_and, if_false]
    exact getD_set_ne _ _ _ _ _ h

theorem agree_set {A B : List Int} {W : List Nat} (hl : B.length = A.length)
    (ha : ∀ i ∈ W, B.getD i (-1) = A.getD i (-1)) (row : Nat) (v : Int) :
    (B.set row v).length = (A.set row v).length ∧
    ∀ i ∈ W ++ [row], (B.set row v).getD i (-1) = (A.set row v).getD i (-1) := by
  refine ⟨by simp [hl], ?_⟩
  intro i hi
  rw [getD_set, getD_set, hl]
  by_cases h : row = i ∧ row < A.length
  · rw [if_pos h, if_pos h]
  · rw [if_neg h, if_neg h]
    rcases List.mem_append.1 hi with hi | hi
    · exact ha i hi
    · simp only [List.mem_singleton] at hi
      subst hi
      have hge : ¬ i < A.length := fun hlt => h ⟨rfl, hlt⟩
      rw [List.getD_eq_default _ _ (by omega), List.getD_eq_default _ _ (by omega)]

theorem G4Sim_first (graph1 graph2 : DenseMatrix1D) (id : Nat) {s t : G4State}
    (h : G4Sim s t) :
    G4Sim (greedy_connectivity_4_first graph1 graph2 id s)
      (greedy_connectivity_4_first graph1 graph2 id t) := by
  obtain ⟨A, rfl, hl, ha⟩ := h
  obtain ⟨h1, h2⟩ := agree_set hl ha
    (get_Max s.scores id (Score.sub s.score max_tol) s.row s.col).2.1
    ((get_Max s.scores id (Score.sub s.score max_tol) s.row s.col).2.2 : Int)
  exact ⟨_, rfl, h1, by simpa [greedy_connectivity_4_first] using h2⟩

theorem G4Sim_second (id : Nat) {s t : G4State} (h : G4Sim s t) :
    G4Sim (greedy_connectivity_4_second id s) (greedy_connectivity_4_second id t) := by
  obtain ⟨A, rfl, hl, ha⟩ := h
  obtain ⟨h1, h2⟩ := agree_set hl ha
    (get_Max s.matches_local id (Score.sub s.score max_tol) s.row s.col).2.1
    ((get_Max s.matches_local id (Score.sub s.score max_tol) s.row s.col).2.2 : Int)
  exact ⟨_, rfl, h1, by simpa [greedy_connectivity_4_second] using h2⟩

theorem G4Sim_record {s t s2 : G4State} (hr : greedy_connectivity_4_record s = .ok s2)
    (h : G4Sim s t) :
    ∃ t2, greedy_connectivity_4_record t = .ok t2 ∧ G4Sim s2 t2 := by
  obtain ⟨A, rfl, hl, ha⟩ := h
  obtain ⟨h1, h2⟩ := agree_set hl ha s.best_row (s.best_col : Int)
  unfold greedy_connectivity_4_record at hr ⊢
  by_cases hc : s.add_order.length ≤ s.add_order_counter
  · rw [if_pos hc] at hr
    exact Except.noConfusion hr
  · rw [if_neg hc] at hr
    simp only [Except.ok.injEq] at hr
    subst hr
    refine ⟨_, if_neg hc, ?_⟩
    exact ⟨_, rfl, h1, by simpa using h2⟩

theorem G4Sim_inner (graph1 graph2 : DenseMatrix1D) (rnd : Nat → Nat) (n : Nat)
    (s t s2 : G4State) (h : G4Sim s t)
    (hd : greedy_connectivity_4_inner_det n s = some s2) :
    ∃ t2, greedy_connectivity_4_inner graph1 graph2 rnd n t = .ok t2 ∧ G4Sim s2 t2 := by
  induction n generalizing s t with
  | zero =>
    simp only [greedy_connectivity_4_inner_det, Option.some.injEq] at hd
    subst hd
    exact ⟨t, rfl, h⟩
  | succ n ih =>
    obtain ⟨A, rfl, hl, ha⟩ := h
    unfold greedy_connectivity_4_inner_det at hd
    unfold greedy_connectivity_4_inner
    simp only at hd ⊢
    split at hd
    · exact Option.noConfusion hd
    · rename_i h1
      rw [if_neg h1]
      split at hd
      · rename_i h2
        rw [if_pos h2]
        split at hd
        · exact Option.noConfusion hd
        · rename_i s3 hrec
          obtain ⟨t3, ht3, hsim3⟩ := G4Sim_record hrec ⟨A, rfl, hl, ha⟩
          simp only at ht3
          rw [ht3]
          exact ih _ _ hsim3 hd
      · rename_i h2
        rw [if_neg h2]
        simp only [Option.some.injEq] at hd
        subst hd
        exact ⟨_, rfl, A, rfl, hl, ha⟩

theorem G4Sim_loop (graph1 graph2 : DenseMatrix1D) (rnd : Nat → Nat) (n : Nat)
    (s t s2 : G4State) (h : G4Sim s t)
    (hd : greedy_connectivity_4_loop_det graph1 graph2 n s = some s2) :
    ∃ t2, greedy_connectivity_4_loop graph1 graph2 rnd n t = .ok t2 ∧ G4Sim s2 t2 := by
  induction n generalizing s t with
  | zero => simp [greedy_connectivity_4_loop_det] at hd
  | succ n ih =>
    unfold greedy_connectivity_4_loop_det at hd
    unfold greedy_connectivity_4_loop
    simp only at hd ⊢
    have hfields : t.add_order = s.add_order ∧ t.neigh_1 = s.neigh_1 ∧ t.neigh_2 = s.neigh_2 := by
      obtain ⟨A, rfl, _, _⟩ := h
      exact ⟨rfl, rfl, rfl⟩
    rw [hfields.1, hfields.2.1, hfields.2.2]
    split at hd
    · rename_i hc
      rw [if_pos hc]
      cases hin : greedy_connectivity_4_inner_det (min s.neigh_1.length s.neigh_2.length) s with
      | none => rw [hin] at hd; exact Option.noConfusion hd
      | some s1 =>
        rw [hin] at hd
        obtain ⟨t1, ht1, hsim1⟩ := G4Sim_inner graph1 graph2 rnd _ s t s1 h hin
        rw [ht1]
        obtain ⟨A1, rfl, hl1, ha1⟩ := hsim1
        simp only at hd ⊢
        split at hd
        · rename_i hr
          rw [if_pos hr]
          simp only [Option.some.injEq] at hd
          subst hd
          exact ⟨_, rfl, A1, rfl, hl1, ha1⟩
        · rename_i hr
          rw [if_neg hr]
          split at hd
          · rename_i hw
            have hcell := ha1 _ hw
            rw [hcell]
            refine ih _ _ ?_ hd
            exact ⟨A1, rfl, hl1, ha1⟩
          · exact Option.noConfusion hd
    · rename_i hc
      rw [if_neg hc]
      simp only [Option.some.injEq] at hd
      subst hd
      exact ⟨t, rfl, h⟩

theorem list_eq_of_getD {A B : List Int} (hl : B.length = A.length)
    (h : ∀ i, i < A.length → B.getD i (-1) = A.getD i (-1)) : B = A := by
  apply List.ext_get hl
  intro n h1 h2
  have := h n h2
  rw [List.getD_eq_getElem _ _ h1, List.getD_eq_getElem _ _ h2] at this
  exact this

/-- Soundness of the exhaustive exploration of `greedy_connectivity_4`: when it
succeeds from `s`, the run from any state that differs from `s` only in the
contents of the assignment returns an accepted assignment, for every random
stream. -/
theorem greedy_connectivity_4_all_sound (graph1 graph2 : DenseMatrix1D) (P : List Int → Bool)
    (rnd : Nat → Nat) (fuel : Nat) (s t : G4State) (h : G4Sim s t)
    (hall : greedy_connectivity_4_all graph1 graph2 P fuel s = true) :
    ∃ t2, greedy_connectivity_4_from graph1 graph2 rnd fuel t = .ok t2 ∧
      P (greedy_connectivity_4_finish graph1 graph2 t2.assignment) = true := by
  have hf : t.scores = s.scores ∧ t.score = s.score ∧ t.k = s.k := by
    obtain ⟨A, rfl, _, _⟩ := h
    exact ⟨rfl, rfl, rfl⟩
  unfold greedy_connectivity_4_all at hall
  unfold greedy_connectivity_4_from
  simp only [Bool.and_eq_true, decide_eq_true_eq, List.all_eq_true, List.mem_range] at hall
  simp only [hf.1, hf.2.1, hf.2.2]
  obtain ⟨⟨hz0, hb0⟩, hall⟩ := hall
  have hao : t.add_order = s.add_order := by
    obtain ⟨A, rfl, _, _⟩ := h
    rfl
  rw [if_neg hz0, hao, if_neg (by omega)]
  have hlt0 := Nat.mod_lt (rnd s.k) (Nat.pos_of_ne_zero hz0)
  obtain ⟨⟨hz1, hb1⟩, hall⟩ := hall _ hlt0
  have hs1 := G4Sim_first graph1 graph2
    (rnd s.k % (find_values s.scores (Score.sub s.score max_tol)).length + 1) h
  have hf1 : (greedy_connectivity_4_first graph1 graph2
        (rnd s.k % (find_values s.scores (Score.sub s.score max_tol)).length + 1) t).matches_local
      = (greedy_connectivity_4_first graph1 graph2
        (rnd s.k % (find_values s.scores (Score.sub s.score max_tol)).length + 1) s).matches_local ∧
      (greedy_connectivity_4_first graph1 graph2
        (rnd s.k % (find_values s.scores (Score.sub s.score max_tol)).length + 1) t).score
      = (greedy_connectivity_4_first graph1 graph2
        (rnd s.k % (find_values s.scores (Score.sub s.score max_tol)).length + 1) s).score ∧
      (greedy_connectivity_4_first graph1 graph2
        (rnd s.k % (find_values s.scores (Score.sub s.score max_tol)).length + 1) t).k
      = (greedy_connectivity_4_first graph1 graph2
        (rnd s.k % (find_values s.scores (Score.sub s.score max_tol)).length + 1) s).k := by
    obtain ⟨A, hA, _, _⟩ := hs1
    rw [hA]
    exact ⟨rfl, rfl, rfl⟩
  have hao1 : (greedy_connectivity_4_first graph1 graph2
        (rnd s.k % (find_values s.scores (Score.sub s.score max_tol)).length + 1) t).add_order
      = (greedy_connectivity_4_first graph1 graph2
        (rnd s.k % (find_values s.scores (Score.sub s.score max_tol)).length + 1) s).add_order := by
    obtain ⟨A, hA, _, _⟩ := hs1
    rw [hA]
  simp only [hf1.1, hf1.2.1, hf1.2.2, hao1]
  rw [if_neg hz1, if_neg (by omega)]
  generalize greedy_connectivity_4_first graph1 graph2
    (rnd s.k % (find_values s.scores (Score.sub s.score max_tol)).length + 1) s = s1
    at hz1 hb1 hall hs1 hf1 hao1 ⊢
  generalize greedy_connectivity_4_first graph1 graph2
    (rnd s.k % (find_values s.scores (Score.sub s.score max_tol)).length + 1) t = t1
    at hs1 hf1 hao1 ⊢
  have hlt1 := Nat.mod_lt (rnd s1.k) (Nat.pos_of_ne_zero hz1)
  have hrun := hall _ hlt1
  have hs2 := G4Sim_second
    (rnd s1.k % (find_values s1.matches_local (Score.sub s1.score max_tol)).length + 1) hs1
  cases hd : greedy_connectivity_4_loop_det graph1 graph2 fuel
      (greedy_connectivity_4_second
        (rnd s1.k % (find_values s1.matches_local (Score.sub s1.score max_tol)).length + 1) s1) with
  | none => rw [hd] at hrun; exact Bool.noConfusion hrun
  | some s3 =>
    rw [hd] at hrun
    simp only [Bool.and_eq_true, List.all_eq_true, List.mem_range, decide_eq_true_eq] at hrun
    obtain ⟨t3, ht3, A3, rfl, hl3, ha3⟩ := G4Sim_loop graph1 graph2 rnd fuel _ _ s3 hs2 hd
    refine ⟨_, ht3, ?_⟩
    have : A3 = s3.assignment := list_eq_of_getD hl3 (fun i hi => ha3 i (hrun.1 i hi))
    rw [this]
    exact hrun.2

theorem greedy_connectivity_4_loop_mono (graph1 graph2 : DenseMatrix1D) (rnd : Nat → Nat)
    (n : Nat) (s r : G4State)
    (h : greedy_connectivity_4_loop graph1 graph2 rnd n s = .ok r) (m : Nat) :
    greedy_connectivity_4_loop graph1 graph2 rnd (n + m) s = .ok r := by
  induction n generalizing s with
  | zero => simp [greedy_connectivity_4_loop] at h
  | succ n ih =>
    rw [Nat.succ_add]
    unfold greedy_connectivity_4_loop at h ⊢
    simp only at h ⊢
    split
    · rename_i hc
      rw [if_pos hc] at h
      cases hin : greedy_connectivity_4_inner graph1 graph2 rnd
          (min s.neigh_1.length s.neigh_2.length) s with
      | error e => rw [hin] at h; exact h
      | ok s1 =>
        rw [hin] at h
        simp only at h ⊢
        split
        · rename_i hr
          rw [if_pos hr] at h
          exact h
        · rename_i hr
          rw [if_neg hr] at h
          exact ih _ h
    · rename_i hc
      rw [if_neg hc] at h
      exact h

theorem greedy_connectivity_4_from_mono (graph1 graph2 : DenseMatrix1D) (rnd : Nat → Nat)
    (n : Nat) (s r : G4State)
    (h : greedy_connectivity_4_from graph1 graph2 rnd n s = .ok r) (m : Nat) :
    greedy_connectivity_4_from graph1 graph2 rnd (n + m) s = .ok r := by
  unfold greedy_connectivity_4_from at h ⊢
  simp only at h ⊢
  split
  · rename_i hz
    rw [if_pos hz] at h
    exact h
  · rename_i hz
    rw [if_neg hz] at h
    split
    · rename_i hb0
      rw [if_pos hb0] at h
      exact h
    · rename_i hb0
      rw [if_neg hb0] at h
      split
      · rename_i hz1
        rw [if_pos hz1] at h
        exact h
      · rename_i hz1
        rw [if_neg hz1] at h
        split
        · rename_i hb1
          rw [if_pos hb1] at h
          exact h
        · rename_i hb1
          rw [if_neg hb1] at h
          exact greedy_connectivity_4_loop_mono graph1 graph2 rnd n _ r h m

/-- Scenario B for `greedy_connectivity_4`, for every random stream and every
content of the assignment array at the time of the call. -/
theorem scenarioB_greedy_connectivity_4 (assignment : List Int) (u : Uninit)
    (rnd : Nat → Nat) (fuel : Nat) (hlen : assignment.length = 3) (hfuel : 3 < fuel) :
    greedy_connectivity_4 scenarioB triangle triangle assignment u rnd fuel = .ok [0, 1, 2] := by
  obtain ⟨m, rfl⟩ : ∃ m, fuel = 4 + m := ⟨fuel - 4, by omega⟩
  have hall : greedy_connectivity_4_all triangle triangle (fun a => decide (a = [0, 1, 2])) 4
      (greedy_connectivity_4_init scenarioB triangle triangle [-1, -1, -1] zeroed) = true := by
    decide!
  have hinit : greedy_connectivity_4_init scenarioB triangle triangle assignment u
      = { greedy_connectivity_4_init scenarioB triangle triangle [-1, -1, -1] zeroed with
          assignment := assignment } := by
    simp only [greedy_connectivity_4_init,
      return_max_indep scenarioB 0 u.row u.col zeroed.row zeroed.col has_valid_scenarioB]
  have hsim : G4Sim (greedy_connectivity_4_init scenarioB triangle triangle [-1, -1, -1] zeroed)
      (greedy_connectivity_4_init scenarioB triangle triangle assignment u) :=
    ⟨assignment, hinit, by rw [hlen]; rfl, by
      intro i hi
      simp [greedy_connectivity_4_init] at hi⟩
  obtain ⟨t, ht, hP⟩ := greedy_connectivity_4_all_sound triangle triangle _ rnd 4 _ _ hsim hall
  simp only [greedy_connectivity_4, greedy_connectivity_4_run]
  rw [greedy_connectivity_4_from_mono triangle triangle rnd 4 _ t ht m]
  simp only [decide_eq_true_eq] at hP
  simp [Except.map, hP]

end IsoRank
namespace IsoRank

/-! ## Failing inputs -/

theorem greedy_connectivity_2_of_all (scores graph1 graph2 : DenseMatrix1D)
    (assignment : List Int) (u : Uninit) (P : List Int → Bool) (rnd : Nat → Nat) (n : Nat)
    (h : greedy_connectivity_2_all graph1 graph2 P n
      (greedy_connectivity_2_init scores graph1 assignment u) = true) :
    ∃ a, greedy_connectivity_2 scores graph1 graph2 assignment u rnd n = .ok a ∧ P a = true := by
  obtain ⟨r, hr, hP⟩ := greedy_connectivity_2_all_sound graph1 graph2 P rnd n _ h
  exact ⟨r.2, by simp [greedy_connectivity_2, greedy_connectivity_2_run, hr, Except.map], hP⟩

/-- C8 (failing input): on two graphs of two vertices without edges and the 2 x 2
matrix of zero scores, `greedy_connectivity_2` assigns one vertex, finds its local
matrix exhausted and returns without the completion fallback: with `rand()`
returning 0 the result is [0, -1], and for every random stream exactly one cell of
the returned assignment is non-sentinel, while min(|G1|,|G2|) is 2 and `match_rest`
would have completed the assignment. -/
theorem greedy_connectivity_2_no_fallback :
    greedy_connectivity_2 (ofRows 2 2 []) (noEdges 2) (noEdges 2) [-1, -1] zeroed (fun _ => 0) 5
      = .ok [0, -1] ∧
    (∀ rnd : Nat → Nat, ∃ a,
      greedy_connectivity_2 (ofRows 2 2 []) (noEdges 2) (noEdges 2) [-1, -1] zeroed rnd 5
        = .ok a ∧ assigned_count a = 1) ∧
    nonneg_scores (ofRows 2 2 []) ∧
    min (noEdges 2).rows (noEdges 2).rows = 2 ∧
    match_rest [0, -1] (noEdges 2) (noEdges 2) = [0, 1] := by
  refine ⟨by decide!, ?_, by unfold nonneg_scores; decide!, by decide!, by decide!⟩
  intro rnd
  obtain ⟨a, ha, hP⟩ := greedy_connectivity_2_of_all (ofRows 2 2 []) (noEdges 2) (noEdges 2)
    [-1, -1] zeroed (fun a => decide (assigned_count a = 1)) rnd 5 (by decide!)
  exact ⟨a, ha, by simpa using hP⟩

/-- C10 (failing input): on the 2 x 2 matrix whose entries all equal the invalidated
floor, `greedy_connectivity_2` leaves its loop at once and returns the all-sentinel
assignment without the completion fallback, for every random stream, while
min(|G1|,|G2|) is 2. -/
theorem greedy_connectivity_2_scenario_C :
    (∀ rnd : Nat → Nat,
      greedy_connectivity_2 (scenarioC 2 2) (noEdges 2) (noEdges 2) [-1, -1] zeroed rnd 5
        = .ok [-1, -1]) ∧
    assigned_count [-1, -1] = 0 ∧ min (noEdges 2).rows (noEdges 2).rows = 2 := by
  refine ⟨?_, by decide!, by decide!⟩
  intro rnd
  obtain ⟨a, ha, hP⟩ := greedy_connectivity_2_of_all (scenarioC 2 2) (noEdges 2) (noEdges 2)
    [-1, -1] zeroed (fun a => decide (a = [-1, -1])) rnd 5 (by decide!)
  simp only [decide_eq_true_eq] at hP
  rw [ha, hP]

/-- C9 (failing input): on two graphs of two vertices without edges and the 2 x 2
matrix of zero scores, with the random values 1 and 3, `greedy_connectivity_4`
assigns vertex 0 to vertex 1, finds the local matrix all-invalidated, takes all
four cells as tie-set and assigns vertex 1 to vertex 1 as well. -/
theorem greedy_connectivity_4_collision :
    greedy_connectivity_4 (ofRows 2 2 []) (noEdges 2) (noEdges 2) [-1, -1] zeroed
      (fun k => 2 * k + 1) 5 = .ok [1, 1] ∧
    nonneg_scores (ofRows 2 2 []) ∧
    ¬ injective_assignment [1, 1] := by
  refine ⟨by decide!, by unfold nonneg_scores; decide!, ?_⟩
  intro h
  exact h 0 (by decide) 1 (by decide) (by decide) (by decide) rfl

end IsoRank
namespace IsoRank

/-! ## Scenario B and instances of the general theorems -/

/-- C4: Scenario B.  On two triangle graphs and the 3 x 3 matrix with 1.0 on the
diagonal and 0.1 off the diagonal, each of `greedy_connectivity_1`,
`greedy_connectivity_2`, `greedy_connectivity_3` and `greedy_connectivity_4` returns
the identity assignment, for every random stream, every content of the
uninitialised locals and of the assignment array, and every fuel beyond 3. -/
theorem scenarioB_identity (assignment : List Int) (u : Uninit) (rnd : Nat → Nat)
    (fuel : Nat) (hlen : assignment.length = 3) (hfuel : 3 < fuel) :
    greedy_connectivity_1 scenarioB triangle triangle assignment u = [0, 1, 2] ∧
    greedy_connectivity_2 scenarioB triangle triangle assignment u rnd fuel = .ok [0, 1, 2] ∧
    greedy_connectivity_3 scenarioB triangle triangle assignment u fuel = .ok [0, 1, 2] ∧
    greedy_connectivity_4 scenarioB triangle triangle assignment u rnd fuel = .ok [0, 1, 2] :=
  ⟨(scenarioB_deterministic assignment u fuel hlen hfuel).1,
    scenarioB_greedy_connectivity_2 assignment u rnd fuel hlen hfuel,
    (scenarioB_deterministic assignment u fuel hlen hfuel).2,
    scenarioB_greedy_connectivity_4 assignment u rnd fuel hlen hfuel⟩

theorem scenarioB_identity_witness :
    [7, 7, (7 : Int)].length = 3 ∧ 3 < 4 ∧
    greedy_connectivity_1 scenarioB triangle triangle [7, 7, 7] zeroed = [0, 1, 2] ∧
    greedy_connectivity_2 scenarioB triangle triangle [7, 7, 7] zeroed (fun k => k) 4
      = .ok [0, 1, 2] ∧
    greedy_connectivity_3 scenarioB triangle triangle [7, 7, 7] zeroed 4 = .ok [0, 1, 2] ∧
    greedy_connectivity_4 scenarioB triangle triangle [7, 7, 7] zeroed (fun k => k) 4
      = .ok [0, 1, 2] :=
  ⟨rfl, by decide, scenarioB_identity [7, 7, 7] zeroed (fun k => k) 4 rfl (by decide)⟩

theorem greedy_1_complete_witness :
    nonneg_scores scenarioA ∧ scenarioA.rows = (noEdges 4).rows ∧
    scenarioA.cols = (noEdges 4).rows ∧ [7, 7, 7, (7 : Int)].length = (noEdges 4).rows ∧
    assigned_count (greedy_1_select scenarioA [7, 7, 7, 7] zeroed).assignment
      = min (noEdges 4).rows (noEdges 4).rows ∧
    (greedy_1_select scenarioA [7, 7, 7, 7] zeroed).assignment.length = (noEdges 4).rows ∧
    greedy_1 scenarioA (noEdges 4) (noEdges 4) [7, 7, 7, 7] zeroed
      = (greedy_1_select scenarioA [7, 7, 7, 7] zeroed).assignment ∧
    assigned_count (greedy_1 scenarioA (noEdges 4) (noEdges 4) [7, 7, 7, 7] zeroed)
      = min (noEdges 4).rows (noEdges 4).rows :=
  ⟨nonneg_scenarioA, rfl, rfl, rfl,
    greedy_1_complete scenarioA (noEdges 4) (noEdges 4) [7, 7, 7, 7] zeroed
      nonneg_scenarioA rfl rfl rfl⟩

/-- Scenario A: the first pair recorded by `greedy_1` is (0, 2), the cell of the
unique maximum, and no later pair uses row 0 or column 2. -/
theorem greedy_1_score_order_witness :
    nonneg_scores scenarioA ∧ [7, 7, 7, (7 : Int)].length = scenarioA.rows ∧
    (greedy_1_select scenarioA [7, 7, 7, 7] zeroed).picks.get? 0 = some (0, 2) ∧
    ∀ k p, 0 < k → (greedy_1_select scenarioA [7, 7, 7, 7] zeroed).picks.get? k = some p →
      p.1 ≠ 0 ∧ p.2 ≠ 2 :=
  ⟨nonneg_scenarioA, rfl,
    (greedy_1_score_order scenarioA [7, 7, 7, 7] zeroed nonneg_scenarioA rfl).2.2.2.2 0 2
      (by decide) (by decide) (by decide!)⟩

theorem nonneg_scenarioB : nonneg_scores scenarioB := by
  unfold nonneg_scores
  decide!

/-- C5 at a failing input (two graph-1 vertices, one graph-2 vertex, the scores 1
and 2, no edges: the run stops at the write past the flag array) and on Scenario B,
where |G1| = |G2|. -/
theorem greedy_connectivity_3_injective_witness :
    greedy_connectivity_3 (ofRows 2 1 [[1], [2]]) (noEdges 2) (noEdges 1) [-1, -1] zeroed 3
      = .error .out_of_bounds ∧
    ∃ t a, greedy_connectivity_3_run scenarioB triangle triangle [7, 7, 7] zeroed 4
        = .ok (t, a) ∧
      greedy_connectivity_3 scenarioB triangle triangle [7, 7, 7] zeroed 4 = .ok a ∧
      injective_assignment a ∧ in_range_assignment a triangle.rows ∧
      (t.picks.map Prod.fst).Nodup ∧ (t.picks.map Prod.snd).Nodup ∧
      (∀ p ∈ t.picks, p.1 < triangle.rows ∧ p.2 < triangle.rows ∧
        a.getD p.1 (-1) = (p.2 : Int)) :=
  ⟨(greedy_connectivity_3_injective (ofRows 2 1 [[1], [2]]) (noEdges 2) (noEdges 1) [-1, -1]
      zeroed 3 (by unfold nonneg_scores; decide!) rfl rfl rfl (by decide)).1 (by decide),
    (greedy_connectivity_3_injective scenarioB triangle triangle [7, 7, 7] zeroed 4
      nonneg_scenarioB rfl rfl rfl (by decide)).2 (le_refl _)⟩

/-- C6 at a failing input (three graph-1 vertices, two graph-2 vertices, zero scores,
no edges: the run stops at the write past the flag array, without the completion
fallback) and on Scenario B, where |G1| = |G2|. -/
theorem greedy_connectivity_3_complete_witness :
    greedy_connectivity_3_run (ofRows 3 2 []) (noEdges 3) (noEdges 2) [-1, -1, -1] zeroed 3
      = .error .out_of_bounds ∧
    ∃ t, greedy_connectivity_3_run scenarioB triangle triangle [7, 7, 7] zeroed 4
        = .ok (t, match_rest t.assignment triangle triangle) ∧
      greedy_connectivity_3 scenarioB triangle triangle [7, 7, 7] zeroed 4
        = .ok (match_rest t.assignment triangle triangle) ∧
      assigned_count (match_rest t.assignment triangle triangle)
        = min triangle.rows triangle.rows ∧
      (match_rest t.assignment triangle triangle).length = triangle.rows :=
  ⟨(greedy_connectivity_3_complete (ofRows 3 2 []) (noEdges 3) (noEdges 2) [-1, -1, -1]
      zeroed 3 (by unfold nonneg_scores; decide!) rfl rfl rfl (by decide)).1 (by decide),
    (greedy_connectivity_3_complete scenarioB triangle triangle [7, 7, 7] zeroed 4
      nonneg_scenarioB rfl rfl rfl (by decide)).2 (le_refl _)⟩

end IsoRank
namespace IsoRank

/-! ## SymSparseMatrix: the map, insert and operator() -/

theorem EdgeMap.find_erase_self (m : EdgeMap) (k : Int) :
    EdgeMap.find (EdgeMap.erase m k) k = none := by
  induction m with
  | nil => rfl
  | cons e r ih =>
    obtain ⟨k1, v⟩ := e
    by_cases h : k1 = k
    · simpa [EdgeMap.erase, List.filter_cons, h] using ih
    · simpa [EdgeMap.erase, List.filter_cons, h, EdgeMap.find] using ih

theorem EdgeMap.find_erase_ne (m : EdgeMap) (k k2 : Int) (h : k2 ≠ k) :
    EdgeMap.find (EdgeMap.erase m k) k2 = EdgeMap.find m k2 := by
  induction m with
  | nil => rfl
  | cons e r ih =>
    obtain ⟨k1, v⟩ := e
    by_cases h1 : k1 = k
    · subst h1
      have : ¬ k1 = k2 := fun h2 => h h2.symm
      simpa [EdgeMap.erase, List.filter_cons, EdgeMap.find, this] using ih
    · by_cases h2 : k1 = k2
      · subst h2
        simp [EdgeMap.erase, List.filter_cons, h1, EdgeMap.find]
      · simpa [EdgeMap.erase, List.filter_cons, h1, EdgeMap.find, h2] using ih

theorem EdgeMap.find_assign_self (m : EdgeMap) (k : Int) (v : ℚ) :
    EdgeMap.find (EdgeMap.assign m k v) k = some v := by
  simp [EdgeMap.assign, EdgeMap.find]

theorem EdgeMap.find_assign_ne (m : EdgeMap) (k k2 : Int) (v : ℚ) (h : k2 ≠ k) :
    EdgeMap.find (EdgeMap.assign m k v) k2 = EdgeMap.find m k2 := by
  have : ¬ k = k2 := fun h2 => h h2.symm
  simp [EdgeMap.assign, EdgeMap.find, this, EdgeMap.find_erase_ne m k k2 h]

theorem EdgeMap.erase_of_absent (m : EdgeMap) (k : Int) (h : EdgeMap.find m k = none) :
    EdgeMap.erase m k = m := by
  induction m with
  | nil => rfl
  | cons e r ih =>
    obtain ⟨k1, v⟩ := e
    by_cases h1 : k1 = k
    · simp [EdgeMap.find, h1] at h
    · simp only [EdgeMap.find, h1, if_false] at h
      simp only [EdgeMap.erase, List.filter_cons, ne_eq, h1, not_false_eq_true, decide_True,
        if_true, List.cons.injEq, true_and]
      exact ih h

theorem SymSparseMatrix.out_of_bounds_iff (m : SymSparseMatrix) (i j : Int) :
    m.out_of_bounds i j = true ↔ (i < 0 ∨ i ≥ m._size ∨ j < 0 ∨ j ≥ m._size) := by
  simp only [SymSparseMatrix.out_of_bounds, Bool.or_eq_true, decide_eq_true_eq]
  tauto

theorem SymSparseMatrix.in_bounds (m : SymSparseMatrix) (i j : Int)
    (hi : 0 ≤ i ∧ i < m._size) (hj : 0 ≤ j ∧ j < m._size) : m.out_of_bounds i j = false := by
  rw [Bool.eq_false_iff, ne_eq, SymSparseMatrix.out_of_bounds_iff]
  omega

/-- What `insert` does to an in-range pair: the object keeps its size, and its map
is the old one with the key erased when absent, then assigned when the value is not
zero. -/
theorem SymSparseMatrix.insert_in_bounds (m : SymSparseMatrix) (i j : Int) (v : ℚ)
    (hb : m.out_of_bounds i j = false) :
    m.insert i j v =
      (if v ≠ 0 then { m with _edges := EdgeMap.assign m._edges (edge_key i j) v } else m,
        .ok ()) := by
  unfold SymSparseMatrix.insert SymSparseMatrix._hasEdge
  simp only [hb, Bool.false_eq_true, if_false]
  cases hf : EdgeMap.find m._edges (edge_key i j) with
  | none =>
    simp only [Option.isNone_none, if_true, EdgeMap.erase_of_absent _ _ hf]
  | some q => simp only [Option.isNone_some, Bool.false_eq_true, if_false]

theorem SymSparseMatrix.insert_out_of_bounds (m : SymSparseMatrix) (i j : Int) (v : ℚ)
    (hb : m.out_of_bounds i j = true) :
    m.insert i j v = (m, .error .IndexOutOfBoundsException) := by
  unfold SymSparseMatrix.insert
  simp only [hb, if_true]

end IsoRank
namespace IsoRank

theorem packed_index_comm (i j : Nat) : packed_index i j = packed_index j i := by
  unfold packed_index
  by_cases h1 : i ≤ j
  · by_cases h2 : j ≤ i
    · have : i = j := le_antisymm h1 h2
      subst this; rfl
    · simp [h1, h2]
  · have h2 : j ≤ i := by omega
    simp [h1, h2]

theorem edge_key_comm (i j : Int) : edge_key i j = edge_key j i := by
  unfold edge_key; rw [packed_index_comm]

theorem SymSparseMatrix.out_of_bounds_comm (m : SymSparseMatrix) (i j : Int) :
    m.out_of_bounds i j = m.out_of_bounds j i := by
  rw [Bool.eq_iff_iff, SymSparseMatrix.out_of_bounds_iff, SymSparseMatrix.out_of_bounds_iff]
  tauto

theorem SymSparseMatrix.apply_in_bounds (m : SymSparseMatrix) (i j : Int)
    (hb : m.out_of_bounds i j = false) :
    m.apply i j = .ok ((EdgeMap.find m._edges (edge_key i j)).getD 0) := by
  unfold SymSparseMatrix.apply
  simp only [hb, Bool.false_eq_true, if_false]
  cases EdgeMap.find m._edges (edge_key i j) <;> rfl

/-- C13: for every matrix, every in-range pair (i, j) and every non-zero value v,
`insert(i, j, v)` succeeds, keeps the size, and afterwards `operator()(i, j)` returns
v, whatever was stored at (i, j) before. -/
theorem insert_then_apply (m : SymSparseMatrix) (i j : Int) (v : ℚ)
    (hi : 0 ≤ i ∧ i < m._size) (hj : 0 ≤ j ∧ j < m._size) (hv : v ≠ 0) :
    (m.insert i j v).2 = .ok () ∧ (m.insert i j v).1.getSize = m.getSize ∧
      (m.insert i j v).1.apply i j = .ok v := by
  have hb := SymSparseMatrix.in_bounds m i j hi hj
  have h := SymSparseMatrix.insert_in_bounds m i j v hb
  rw [if_pos hv] at h
  rw [h]
  refine ⟨rfl, rfl, ?_⟩
  rw [SymSparseMatrix.apply_in_bounds _ i j (by exact hb)]
  simp only [EdgeMap.find_assign_self, Option.getD_some]

/-- C13 at a matrix of size 3 that stores 7 at (0, 1): after `insert(0, 1, 5)` the
query returns 5. -/
theorem insert_then_apply_witness :
    ((SymSparseMatrix.mk 3 [(1, 7)]).insert 0 1 5).1.apply 0 1 = .ok 5 :=
  (insert_then_apply (SymSparseMatrix.mk 3 [(1, 7)]) 0 1 5 (by decide) (by decide)
    (by decide!)).2.2

/-- C14 (failing input): for every matrix and every in-range pair (i, j) at which a
non-zero value q is stored, `insert(i, j, 0)` leaves the object as it was: the entry
stays in the map, `operator()(i, j)` and `operator()(j, i)` still return q, and the
number of stored entries is the same. -/
theorem insert_zero_keeps_entry (m : SymSparseMatrix) (i j : Int) (q : ℚ)
    (hi : 0 ≤ i ∧ i < m._size) (hj : 0 ≤ j ∧ j < m._size)
    (hs : EdgeMap.find m._edges (edge_key i j) = some q) (hq : q ≠ 0) :
    m.insert i j 0 = (m, .ok ()) ∧
      (m.insert i j 0).1.apply i j = .ok q ∧ (m.insert i j 0).1.apply j i = .ok q ∧
      (m.insert i j 0).1.apply i j ≠ .ok 0 ∧
      (m.insert i j 0).1._edges.length = m._edges.length := by
  have hb := SymSparseMatrix.in_bounds m i j hi hj
  have hb2 := SymSparseMatrix.in_bounds m j i hj hi
  have h0 : m.insert i j 0 = (m, .ok ()) := by
    rw [SymSparseMatrix.insert_in_bounds m i j 0 hb]; simp
  rw [h0]
  refine ⟨rfl, ?_, ?_, ?_, rfl⟩
  · rw [SymSparseMatrix.apply_in_bounds m i j hb, hs]; rfl
  · rw [SymSparseMatrix.apply_in_bounds m j i hb2, edge_key_comm, hs]; rfl
  · rw [SymSparseMatrix.apply_in_bounds m i j hb, hs]
    simp only [Option.getD_some, ne_eq, Except.ok.injEq]; exact hq

/-- C14 at the matrix of size 2 built by `insert(0, 1, 5)`: after `insert(0, 1, 0)`
both queries still return 5 and the map still has its one entry. -/
theorem insert_zero_keeps_entry_witness :
    (((SymSparseMatrix.empty 2).insert 0 1 5).1.insert 0 1 0).1.apply 0 1 = .ok 5 ∧
    (((SymSparseMatrix.empty 2).insert 0 1 5).1.insert 0 1 0).1.apply 1 0 = .ok 5 ∧
    (((SymSparseMatrix.empty 2).insert 0 1 5).1.insert 0 1 0).1._edges.length = 1 :=
  have h := insert_zero_keeps_entry ((SymSparseMatrix.empty 2).insert 0 1 5).1 0 1 5
    (by decide!) (by decide!) (by decide!) (by decide!)
  ⟨h.2.1, h.2.2.1, h.2.2.2.2.trans (by decide!)⟩

/-- C15: `operator()(i, j)` and `insert(i, j, v)` throw IndexOutOfBoundsException
exactly when i < 0, i >= n, j < 0 or j >= n; they throw nothing else, and an
`insert` that throws leaves the object as it was. -/
theorem bounds_checking (m : SymSparseMatrix) (i j : Int) (v : ℚ) :
    (m.apply i j = .error .IndexOutOfBoundsException ↔
      (i < 0 ∨ i ≥ m.getSize ∨ j < 0 ∨ j ≥ m.getSize)) ∧
    ((m.insert i j v).2 = .error .IndexOutOfBoundsException ↔
      (i < 0 ∨ i ≥ m.getSize ∨ j < 0 ∨ j ≥ m.getSize)) ∧
    ((∃ q, m.apply i j = .ok q) ∨ m.apply i j = .error .IndexOutOfBoundsException) ∧
    ((m.insert i j v).2 = .ok () ∨
      ((m.insert i j v).2 = .error .IndexOutOfBoundsException ∧ (m.insert i j v).1 = m)) := by
  unfold SymSparseMatrix.getSize
  rw [← SymSparseMatrix.out_of_bounds_iff]
  cases hb : m.out_of_bounds i j with
  | false =>
    rw [SymSparseMatrix.apply_in_bounds m i j hb, SymSparseMatrix.insert_in_bounds m i j v hb]
    simp
  | true =>
    rw [SymSparseMatrix.insert_out_of_bounds m i j v hb]
    simp [SymSparseMatrix.apply, hb]

end IsoRank
namespace IsoRank

/-! ### The packed index and the file constructor -/

theorem packed_index_lt (a b n : Nat) (ha : a < n) (hb : b < n) (hn : n ≤ 92681) :
    packed_index a b < 4294967296 := by
  unfold packed_index
  split
  · have h1 : b * (b + 1) ≤ 92680 * 92681 := Nat.mul_le_mul (by omega) (by omega)
    generalize b * (b + 1) = x at h1 ⊢
    omega
  · have h1 : a * (a + 1) ≤ 92680 * 92681 := Nat.mul_le_mul (by omega) (by omega)
    generalize a * (a + 1) = x at h1 ⊢
    omega

theorem triangle_gap (b d : Nat) (h : b < d) : b + b * (b + 1) / 2 < d * (d + 1) / 2 := by
  have h1 : (b + 1) * (b + 2) ≤ d * (d + 1) := Nat.mul_le_mul (by omega) (by omega)
  have h2 : (b + 1) * (b + 2) = b * (b + 1) + 2 * (b + 1) := by ring
  rw [h2] at h1
  generalize b * (b + 1) = x at h1 ⊢
  generalize d * (d + 1) = y at h1 ⊢
  omega

theorem packed_index_inj_ordered (a b c d : Nat) (hab : a ≤ b) (hcd : c ≤ d)
    (h : a + b * (b + 1) / 2 = c + d * (d + 1) / 2) : a = c ∧ b = d := by
  have hbd : b = d := by
    rcases Nat.lt_trichotomy b d with h1 | h1 | h1
    · have := triangle_gap b d h1; omega
    · exact h1
    · have := triangle_gap d b h1; omega
  subst hbd
  exact ⟨by omega, rfl⟩

/-- Over the natural numbers the packed index determines the unordered pair. -/
theorem packed_index_inj (a b c d : Nat) (h : packed_index a b = packed_index c d) :
    (a = c ∧ b = d) ∨ (a = d ∧ b = c) := by
  unfold packed_index at h
  by_cases h1 : a ≤ b <;> by_cases h2 : c ≤ d
  · simp only [h1, h2, if_true] at h
    exact Or.inl (packed_index_inj_ordered a b c d h1 h2 h)
  · simp only [h1, h2, if_true, if_false] at h
    have := packed_index_inj_ordered a b d c h1 (by omega) h
    exact Or.inr this
  · simp only [h1, h2, if_true, if_false] at h
    have := packed_index_inj_ordered b a c d (by omega) h2 h
    exact Or.inr ⟨this.2, this.1⟩
  · simp only [h1, h2, if_false] at h
    have := packed_index_inj_ordered b a d c (by omega) (by omega) h
    exact Or.inl ⟨this.2, this.1⟩

theorem int_of_size_t_inj (x y : Nat) (hx : x < 4294967296) (hy : y < 4294967296)
    (h : int_of_size_t x = int_of_size_t y) : x = y := by
  unfold int_of_size_t at h; omega

/-- For a size of at most 92681 the key determines the unordered in-range pair. -/
theorem edge_key_inj (n a b c d : Int) (hn : n ≤ 92681)
    (ha : 0 ≤ a ∧ a < n) (hb : 0 ≤ b ∧ b < n) (hc : 0 ≤ c ∧ c < n) (hd : 0 ≤ d ∧ d < n)
    (h : edge_key a b = edge_key c d) : (a = c ∧ b = d) ∨ (a = d ∧ b = c) := by
  unfold edge_key at h
  have hn2 : n.toNat ≤ 92681 := by omega
  have h1 := int_of_size_t_inj _ _
    (packed_index_lt a.toNat b.toNat n.toNat (by omega) (by omega) hn2)
    (packed_index_lt c.toNat d.toNat n.toNat (by omega) (by omega) hn2) h
  rcases packed_index_inj _ _ _ _ h1 with ⟨h2, h3⟩ | ⟨h2, h3⟩
  · left; omega
  · right; omega

theorem pair_tokens_isEmpty (pairs : List (Int × Int)) :
    (pair_tokens pairs).isEmpty = pairs.isEmpty := by
  cases pairs with
  | nil => rfl
  | cons p r => obtain ⟨p, q⟩ := p; rfl

end IsoRank
namespace IsoRank

/-! ### getNeighbors -/

theorem EdgeMap.access_value (e : EdgeMap) (k : Int) :
    (EdgeMap.access e k).2 = (EdgeMap.find e k).getD 0 := by
  unfold EdgeMap.access
  cases EdgeMap.find e k <;> rfl

theorem EdgeMap.access_find (e : EdgeMap) (k k2 : Int) :
    (EdgeMap.find (EdgeMap.access e k).1 k2).getD 0 = (EdgeMap.find e k2).getD 0 := by
  unfold EdgeMap.access
  cases h : EdgeMap.find e k with
  | some v => rfl
  | none =>
    by_cases hk : k = k2
    · subst hk; simp [EdgeMap.find, h]
    · simp [EdgeMap.find, hk]

theorem SymSparseMatrix.getNeighbors_fold (m : SymSparseMatrix) (cols vertex : Int)
    (l : List Nat) :
    ∀ acc : SymSparseMatrix × List Int,
      (∀ k, (EdgeMap.find acc.1._edges k).getD 0 = (EdgeMap.find m._edges k).getD 0) →
      (l.foldl (SymSparseMatrix.getNeighbors_step cols vertex) acc).2 =
        acc.2 ++ (l.filter (fun i : Nat =>
          decide ((EdgeMap.find m._edges ((i : Int) * cols + vertex)).getD 0 = 1))).map
            (fun i : Nat => (i : Int)) := by
  induction l with
  | nil => intro acc _; simp
  | cons i r ih =>
    intro acc hacc
    rw [List.foldl_cons, ih]
    · simp only [SymSparseMatrix.getNeighbors_step, EdgeMap.access_value, hacc,
        List.filter_cons]
      by_cases hP : (EdgeMap.find m._edges ((i : Int) * cols + vertex)).getD 0 = 1
      · simp [hP]
      · simp [hP]
    · intro k
      simp only [SymSparseMatrix.getNeighbors_step]
      rw [EdgeMap.access_find, hacc]

/-- The list that `getNeighbors` returns: the indices i below `rows`, in increasing
order, for which the map holds 1 under the key `i * cols + vertex`. -/
theorem SymSparseMatrix.getNeighbors_eq (m : SymSparseMatrix) (rows cols vertex : Int) :
    (m.getNeighbors rows cols vertex).2 =
      ((List.range rows.toNat).filter (fun i : Nat =>
        decide ((EdgeMap.find m._edges ((i : Int) * cols + vertex)).getD 0 = 1))).map
          (fun i : Nat => (i : Int)) := by
  unfold SymSparseMatrix.getNeighbors
  rw [SymSparseMatrix.getNeighbors_fold m cols vertex _ (m, []) (fun _ => rfl)]
  rfl

/-- C18 (failing input): on the path 0 - 1 - 2 of size 3 built by `insert`, vertex 1
has the neighbours 0 and 2 by `operator()`, but `getNeighbors(1)` returns [0, 1] and
`getNeighbors(0)` and `getNeighbors(2)` return nothing when the undeclared `_cols` and
`getNumberOfRows()` are the size 3; and whatever values these two have,
`getNeighbors(1)` is not [0, 2]. -/
theorem getNeighbors_dense_index :
    (pathMatrix.apply 0 1 = .ok 1 ∧ pathMatrix.apply 1 1 = .ok 0 ∧
      pathMatrix.apply 2 1 = .ok 1 ∧ pathMatrix.apply 1 0 = .ok 1 ∧
      pathMatrix.apply 1 2 = .ok 1) ∧
    (pathMatrix.getNeighbors 3 3 1).2 = [0, 1] ∧
    (pathMatrix.getNeighbors 3 3 0).2 = [] ∧
    (pathMatrix.getNeighbors 3 3 2).2 = [] ∧
    ∀ rows cols : Int, (pathMatrix.getNeighbors rows cols 1).2 ≠ [0, 2] := by
  refine ⟨by decide!, by decide!, by decide!, by decide!, ?_⟩
  intro rows cols h
  rw [SymSparseMatrix.getNeighbors_eq] at h
  have he : pathMatrix._edges = [(4, 1), (1, 1)] := by decide!
  rw [he] at h
  have h2 : (2 : Int) ∈ ((List.range rows.toNat).filter (fun i : Nat =>
      decide ((EdgeMap.find [(4, 1), (1, 1)] ((i : Int) * cols + 1)).getD 0 = 1))).map
        (fun i : Nat => (i : Int)) := by rw [h]; simp
  simp only [List.mem_map, List.mem_filter, List.mem_range, decide_eq_true_eq] at h2
  obtain ⟨i, ⟨hi, hP⟩, hi2⟩ := h2
  have hi3 : i = 2 := by omega
  subst hi3
  have hc : cols = 0 := by
    by_contra hne
    have c1 : ¬ ((4 : Int) = ((2 : Nat) : Int) * cols + 1) := by omega
    have c2 : ¬ ((1 : Int) = ((2 : Nat) : Int) * cols + 1) := by omega
    simp only [EdgeMap.find] at hP
    rw [if_neg c1, if_neg c2] at hP
    simp at hP
  subst hc
  have h1 : (1 : Int) ∈ ((List.range rows.toNat).filter (fun i : Nat =>
      decide ((EdgeMap.find [(4, 1), (1, 1)] ((i : Int) * 0 + 1)).getD 0 = 1))).map
        (fun i : Nat => (i : Int)) := by
    simp only [List.mem_map, List.mem_filter, List.mem_range, decide_eq_true_eq]
    exact ⟨1, ⟨by omega, by simp [EdgeMap.find]⟩, rfl⟩
  rw [h] at h1
  simp at h1

end IsoRank
namespace IsoRank

/-! ## Entry of the strategies: the assignment array and the first tie-set -/

/-- The four strategies that call `init_array` on the assignment return the same
result for any two arrays of the graph-1 size. -/
theorem init_array_strategies_indep (scores graph1 graph2 : DenseMatrix1D) (a b : List Int)
    (u : Uninit) (rnd : Nat → Nat) (fuel : Nat)
    (ha : a.length = scores.getNumberOfRows) (hb : b.length = scores.getNumberOfRows)
    (h1 : graph1.getNumberOfRows = scores.getNumberOfRows)
    (h2 : graph1.getNumberOfColumns = scores.getNumberOfRows) :
    greedy_1 scores graph1 graph2 a u = greedy_1 scores graph1 graph2 b u ∧
    greedy_connectivity_1 scores graph1 graph2 a u
      = greedy_connectivity_1 scores graph1 graph2 b u ∧
    greedy_connectivity_2 scores graph1 graph2 a u rnd fuel
      = greedy_connectivity_2 scores graph1 graph2 b u rnd fuel ∧
    greedy_connectivity_3 scores graph1 graph2 a u fuel
      = greedy_connectivity_3 scores graph1 graph2 b u fuel := by
  refine ⟨?_, ?_, ?_, ?_⟩
  · simp only [greedy_1, greedy_1_select, init_array_of_length _ _ _ ha,
      init_array_of_length _ _ _ hb]
  · simp only [greedy_connectivity_1, init_array_of_length _ _ _ ha,
      init_array_of_length _ _ _ hb]
  · simp only [greedy_connectivity_2, greedy_connectivity_2_run, greedy_connectivity_2_init,
      init_array_of_length _ _ _ (ha.trans h2.symm), init_array_of_length _ _ _ (hb.trans h2.symm)]
  · simp only [greedy_connectivity_3, greedy_connectivity_3_run, greedy_connectivity_3_init,
      init_array_of_length _ _ _ (ha.trans h1.symm), init_array_of_length _ _ _ (hb.trans h1.symm)]

/-- C11 (failing input): on two graphs of two vertices without edges, the 2 x 2 matrix
of zero scores and `rand()` returning 0, `greedy_connectivity_4` returns [0, 1] when
the caller's array holds [-1, -1] and [0, 7] when it holds [7, 7]: the array is not
initialised, vertex 1 keeps the caller's 7, and the completion fallback is skipped
because no cell holds -1. -/
theorem greedy_connectivity_4_uninitialised :
    greedy_connectivity_4 (ofRows 2 2 []) (noEdges 2) (noEdges 2) [-1, -1] zeroed
      (fun _ => 0) 5 = .ok [0, 1] ∧
    greedy_connectivity_4 (ofRows 2 2 []) (noEdges 2) (noEdges 2) [7, 7] zeroed
      (fun _ => 0) 5 = .ok [0, 7] ∧
    greedy_connectivity_2 (ofRows 2 2 []) (noEdges 2) (noEdges 2) [-1, -1] zeroed
      (fun _ => 0) 5 =
    greedy_connectivity_2 (ofRows 2 2 []) (noEdges 2) (noEdges 2) [7, 7] zeroed
      (fun _ => 0) 5 := by
  refine ⟨by decide!, by decide!, by decide!⟩

theorem coords_of_empty (R C : Nat) (h : R = 0 ∨ C = 0) : coords R C = [] := by
  rcases h with h | h <;> subst h <;> simp [coords]

/-- C12 (failing input): on a score matrix without rows or without columns the first
tie-set of `greedy_connectivity_4` is empty and `rand() % size` is computed with
`size = 0`, for every random stream and every content of the other arguments. -/
theorem greedy_connectivity_4_modulo_zero (scores graph1 graph2 : DenseMatrix1D)
    (assignment : List Int) (u : Uninit) (rnd : Nat → Nat) (fuel : Nat)
    (h : scores.rows = 0 ∨ scores.cols = 0) :
    greedy_connectivity_4 scores graph1 graph2 assignment u rnd fuel
      = .error .division_by_zero := by
  have h0 : ∀ thr, find_values scores thr = [] := by
    intro thr
    simp [find_values, cells_at_or_above, coords_of_empty _ _ h]
  simp only [greedy_connectivity_4, greedy_connectivity_4_run, greedy_connectivity_4_from,
    greedy_connectivity_4_init, h0, List.length_nil, if_true]
  rfl

/-- C12 at the empty graphs: no vertices, no scores. -/
theorem greedy_connectivity_4_modulo_zero_witness :
    greedy_connectivity_4 (ofRows 0 0 []) (noEdges 0) (noEdges 0) [] zeroed (fun _ => 0) 5
      = .error .division_by_zero :=
  greedy_connectivity_4_modulo_zero (ofRows 0 0 []) (noEdges 0) (noEdges 0) [] zeroed
    (fun _ => 0) 5 (Or.inl rfl)

end IsoRank
namespace IsoRank

/-! ## The tolerance band of `greedy_connectivity_2` -/

end IsoRank
namespace IsoRank

/-! ## The expansion loop of `greedy_connectivity_4` -/

/-- C19 (failing input): graph 1 is the star with centre 0 on four vertices, graph 2
the path 0 - 3 - 2 with the isolated vertex 1, the scores have the maximum 9 at (0, 3),
then 8 at (1, 2), and 5 at both (2, 0) and (3, 0); `rand()` returns 3 every time.
`greedy_connectivity_4` assigns (0, 3) and (1, 2); in its expansion loop the tie-set is
[(2, 0), (3, 0)], the branch `size > 1` chooses best_row = 3 and best_col = 3, and the
pair (3, 3) is assigned although it is no member of the tie-set: column 3 is not
paired with row 3 there, and it is the column already given to vertex 0.  The
returned assignment [3, 2, 0, 3] maps the vertices 0 and 3 to the same vertex. -/
theorem greedy_connectivity_4_tie_outside :
    (∃ t, greedy_connectivity_4_run tieScores star4 path4 [-1, -1, -1, -1] zeroed
        (fun _ => 3) 6 = .ok t ∧
      t.picks = [(0, 3), (1, 2), (3, 3)] ∧
      t.ties.map (fun x => (x.tie_set, x.best_row, x.best_col))
        = [([(2, 0), (3, 0)], 3, 3)] ∧
      ∀ x ∈ t.ties, 1 < x.tie_set.length ∧ ¬ x.inside) ∧
    greedy_connectivity_4 tieScores star4 path4 [-1, -1, -1, -1] zeroed (fun _ => 3) 6
      = .ok [3, 2, 0, 3] ∧
    ¬ injective_assignment [3, 2, 0, 3] ∧
    nonneg_scores tieScores := by
  refine ⟨?_, by decide!, ?_, by unfold nonneg_scores; decide!⟩
  · have hv : (greedy_connectivity_4_run tieScores star4 path4 [-1, -1, -1, -1] zeroed
        (fun _ => 3) 6).map
        (fun t => (t.picks, t.ties.map (fun x => (x.tie_set, x.best_row, x.best_col))))
        = .ok ([(0, 3), (1, 2), (3, 3)], [([(2, 0), (3, 0)], 3, 3)]) := by
      decide!
    cases hr : greedy_connectivity_4_run tieScores star4 path4 [-1, -1, -1, -1] zeroed
        (fun _ => 3) 6 with
    | error e => rw [hr] at hv; simp [Except.map] at hv
    | ok t =>
      rw [hr] at hv
      simp only [Except.map, Except.ok.injEq, Prod.mk.injEq] at hv
      refine ⟨t, rfl, hv.1, hv.2, ?_⟩
      intro x hx
      have hm : (x.tie_set, x.best_row, x.best_col) ∈
          t.ties.map (fun x => (x.tie_set, x.best_row, x.best_col)) :=
        List.mem_map_of_mem _ hx
      rw [hv.2] at hm
      simp only [List.mem_singleton, Prod.mk.injEq] at hm
      obtain ⟨h1, h2, h3⟩ := hm
      refine ⟨by rw [h1]; decide, ?_⟩
      intro hin
      have := hin.2.2.2
      rw [h1, h2, h3] at this
      revert this
      decide
  · intro h
    exact h 0 (by decide) 3 (by decide) (by decide) (by decide) rfl

/-- C26 (failing input): graph 1 is the star with centre 0 on three vertices, graph 2
has four vertices, of which 0 has no edge and 1 is adjacent to 2 and 3; the scores
have the maximum 9 at (0, 0), then 8 at (1, 2) and 7 at (2, 3); `rand()` returns 1 every
time.  `greedy_connectivity_4` assigns (0, 0); vertex 0 of graph 2 has no neighbour, so
the local matrix is exhausted and the second assignment, drawn from all twelve cells,
is (0, 1): row 0 once more, so `add_order` holds [0, 0, -1] with two of three rows
still unassigned.  The outer loop then expands from vertex 0 and assigns (1, 2) with
`add_order[2] = 1` and (2, 3) with `add_order[3] = 2`, a write past the three cells of
`add_order`: the run stops there and returns nothing. -/
theorem greedy_connectivity_4_add_order_overflow :
    (greedy_connectivity_4_run frontierScores star3 star4_centre1 [-1, -1, -1] zeroed
      (fun _ => 1) 6).map (fun t => t.picks) = .error .out_of_bounds ∧
    greedy_connectivity_4 frontierScores star3 star4_centre1 [-1, -1, -1] zeroed
      (fun _ => 1) 6 = .error .out_of_bounds ∧
    ((greedy_connectivity_4_second (1 % 12 + 1)
        (greedy_connectivity_4_first star3 star4_centre1 (1 % 1 + 1)
          (greedy_connectivity_4_init frontierScores star3 star4_centre1 [-1, -1, -1]
            zeroed))).picks = [(0, 0), (0, 1)] ∧
      (greedy_connectivity_4_second (1 % 12 + 1)
        (greedy_connectivity_4_first star3 star4_centre1 (1 % 1 + 1)
          (greedy_connectivity_4_init frontierScores star3 star4_centre1 [-1, -1, -1]
            zeroed))).add_order = [0, 0, -1] ∧
      (greedy_connectivity_4_second (1 % 12 + 1)
        (greedy_connectivity_4_first star3 star4_centre1 (1 % 1 + 1)
          (greedy_connectivity_4_init frontierScores star3 star4_centre1 [-1, -1, -1]
            zeroed))).add_order_counter = 2) ∧
    2 ≤ star3.getNumberOfRows ∧
    nonneg_scores frontierScores := by
  refine ⟨by decide!, by decide!, ⟨by decide!, by decide!, by decide!⟩, by decide,
    by unfold nonneg_scores; decide!⟩

end IsoRank
namespace IsoRank

/-! ### Symmetry, frame and the packed index -/

theorem SymSparseMatrix.insert_size (m : SymSparseMatrix) (i j : Int) (v : ℚ) :
    (m.insert i j v).1._size = m._size := by
  cases hb : m.out_of_bounds i j with
  | false =>
    rw [SymSparseMatrix.insert_in_bounds m i j v hb]
    dsimp only
    split <;> rfl
  | true => rw [SymSparseMatrix.insert_out_of_bounds m i j v hb]

theorem SymSparseMatrix.inserts_size (calls : List (Int × Int × ℚ)) :
    ∀ m : SymSparseMatrix, (m.inserts calls)._size = m._size := by
  induction calls with
  | nil => intro m; rfl
  | cons c r ih =>
    intro m
    obtain ⟨i, j, v⟩ := c
    show (SymSparseMatrix.inserts (m.insert i j v).1 r)._size = _
    rw [ih, SymSparseMatrix.insert_size]

/-- The query is symmetric on every object: both orders fail together or return the
same value. -/
theorem SymSparseMatrix.apply_comm (m : SymSparseMatrix) (i j : Int) :
    m.apply i j = m.apply j i := by
  unfold SymSparseMatrix.apply
  rw [SymSparseMatrix.out_of_bounds_comm m i j, edge_key_comm i j]

/-- C24: on every matrix obtained from the empty matrix of size n by a sequence of
`insert` calls, and for all i, j in [0, n), `operator()(i, j)` equals
`operator()(j, i)`; and a further `insert(i, j, v)` with v not zero succeeds and
makes both `operator()(i, j)` and `operator()(j, i)` return v. -/
theorem inserts_symmetric (n : Int) (calls : List (Int × Int × ℚ)) (i j : Int) (v : ℚ)
    (hi : 0 ≤ i ∧ i < n) (hj : 0 ≤ j ∧ j < n) (hv : v ≠ 0) :
    ((SymSparseMatrix.empty n).inserts calls).apply i j
      = ((SymSparseMatrix.empty n).inserts calls).apply j i ∧
    (∃ q, ((SymSparseMatrix.empty n).inserts calls).apply i j = .ok q) ∧
    (((SymSparseMatrix.empty n).inserts calls).insert i j v).2 = .ok () ∧
    (((SymSparseMatrix.empty n).inserts calls).insert i j v).1.apply j i = .ok v ∧
    (((SymSparseMatrix.empty n).inserts calls).insert i j v).1.apply i j = .ok v := by
  have hs : ((SymSparseMatrix.empty n).inserts calls)._size = n :=
    SymSparseMatrix.inserts_size calls _
  generalize (SymSparseMatrix.empty n).inserts calls = m at hs
  subst hs
  have hb := SymSparseMatrix.in_bounds m i j hi hj
  have hins := SymSparseMatrix.insert_in_bounds m i j v hb
  rw [if_pos hv] at hins
  have hq : (SymSparseMatrix.mk m._size (EdgeMap.assign m._edges (edge_key i j) v)).apply i j
      = .ok v := by
    rw [SymSparseMatrix.apply_in_bounds _ i j (by exact hb)]
    simp only [EdgeMap.find_assign_self, Option.getD_some]
  refine ⟨SymSparseMatrix.apply_comm m i j, ⟨_, SymSparseMatrix.apply_in_bounds m i j hb⟩, ?_,
    ?_, ?_⟩
  · rw [hins]
  · rw [hins, SymSparseMatrix.apply_comm]; exact hq
  · rw [hins]; exact hq

/-- C24 on the matrix of size 3 after `insert(0, 1, 1)`, `insert(2, 1, 4)` and the
out-of-range `insert(5, 0, 1)`: (1, 2) and (2, 1) both hold 4, and after
`insert(2, 0, 7)` the query at (0, 2) returns 7. -/
theorem inserts_symmetric_witness :
    ((SymSparseMatrix.empty 3).inserts [(0, 1, 1), (2, 1, 4), (5, 0, 1)]).apply 1 2 = .ok 4 ∧
    ((SymSparseMatrix.empty 3).inserts [(0, 1, 1), (2, 1, 4), (5, 0, 1)]).apply 2 1 = .ok 4 ∧
    (((SymSparseMatrix.empty 3).inserts [(0, 1, 1), (2, 1, 4), (5, 0, 1)]).insert 2 0 7).1.apply
      0 2 = .ok 7 :=
  ⟨by decide!, by decide!,
    (inserts_symmetric 3 [(0, 1, 1), (2, 1, 4), (5, 0, 1)] 2 0 7 (by decide) (by decide)
      (by decide!)).2.2.2.1⟩

/-- C25 (amended): for every matrix of size at most 92681, every in-range (i, j),
every value v and every in-range (k, l) that is neither (i, j) nor (j, i),
`operator()(k, l)` returns after `insert(i, j, v)` what it returned before; and
`insert` never changes the size. -/
theorem insert_frame (m : SymSparseMatrix) (i j k l : Int) (v : ℚ)
    (hn : m.getSize ≤ 92681)
    (hi : 0 ≤ i ∧ i < m.getSize) (hj : 0 ≤ j ∧ j < m.getSize)
    (hk : 0 ≤ k ∧ k < m.getSize) (hl : 0 ≤ l ∧ l < m.getSize)
    (hne : ¬ ((k = i ∧ l = j) ∨ (k = j ∧ l = i))) :
    (m.insert i j v).1.apply k l = m.apply k l ∧
    (m.insert i j v).1.getSize = m.getSize := by
  unfold SymSparseMatrix.getSize at *
  refine ⟨?_, SymSparseMatrix.insert_size m i j v⟩
  have hb := SymSparseMatrix.in_bounds m i j hi hj
  have hb2 := SymSparseMatrix.in_bounds m k l hk hl
  rw [SymSparseMatrix.insert_in_bounds m i j v hb]
  by_cases hv : v = 0
  · rw [if_neg (not_not.2 hv)]
  · rw [if_pos hv, SymSparseMatrix.apply_in_bounds _ k l (by exact hb2),
      SymSparseMatrix.apply_in_bounds m k l hb2]
    have hkey : edge_key k l ≠ edge_key i j := by
      intro e
      exact hne (edge_key_inj m._size k l i j hn hk hl hi hj e)
    simp only [EdgeMap.find_assign_ne _ _ _ _ hkey]

/-- C25 on the matrix of size 3 that holds 4 at (1, 2): `insert(0, 1, 9)` leaves
(1, 2) at 4 and (0, 2) at 0. -/
theorem insert_frame_witness :
    ((SymSparseMatrix.mk 3 [(4, 4)]).insert 0 1 9).1.apply 1 2 = .ok 4 ∧
    (SymSparseMatrix.mk 3 [(4, 4)]).apply 1 2 = .ok 4 ∧
    ((SymSparseMatrix.mk 3 [(4, 4)]).insert 0 1 9).1.getSize = 3 :=
  have h := insert_frame (SymSparseMatrix.mk 3 [(4, 4)]) 0 1 1 2 9 (by decide) (by decide)
    (by decide) (by decide) (by decide) (by decide)
  ⟨h.1.trans (by decide!), by decide!, h.2⟩

/-- C25 (counterexample): on the empty matrix of size 92682, `insert(37075, 92681, 1)`
changes `operator()(0, 0)` from 0 to 1, although (0, 0) is a different pair: the
packed index of (37075, 92681) is 2^32, which the `int` key of the map turns into 0,
the key of (0, 0). -/
theorem insert_frame_overflow :
    (SymSparseMatrix.empty 92682).apply 0 0 = .ok 0 ∧
    ((SymSparseMatrix.empty 92682).insert 37075 92681 1).2 = .ok () ∧
    ((SymSparseMatrix.empty 92682).insert 37075 92681 1).1.apply 0 0 = .ok 1 ∧
    ¬ (((0 : Int) = 37075 ∧ (0 : Int) = 92681) ∨ ((0 : Int) = 92681 ∧ (0 : Int) = 37075)) ∧
    edge_key 37075 92681 = edge_key 0 0 := by
  refine ⟨by decide!, by decide!, by decide!, by decide, by decide!⟩

theorem triangle_mono (a b : Nat) (h : a ≤ b) : a * (a + 1) / 2 ≤ b * (b + 1) / 2 :=
  Nat.div_le_div_right (Nat.mul_le_mul h (Nat.succ_le_succ h))

/-- C27: over the natural numbers the packed index p(i, j) = (i <= j ? i + j*(j+1)/2 :
j + i*(i+1)/2) takes the same value on two pairs with entries below n exactly when
they are the same unordered pair, and every value is below n*(n+1)/2. -/
theorem packed_index_one_to_one (n i j k l : Nat)
    (hi : i < n) (hj : j < n) (hk : k < n) (hl : l < n) :
    (packed_index i j = packed_index k l ↔ (i = k ∧ j = l) ∨ (i = l ∧ j = k)) ∧
    packed_index i j < n * (n + 1) / 2 ∧ packed_index k l < n * (n + 1) / 2 := by
  have hbound : ∀ a b, a < n → b < n → packed_index a b < n * (n + 1) / 2 := by
    intro a b ha hb
    unfold packed_index
    split
    · have h1 := triangle_gap b (b + 1) (Nat.lt_succ_self b)
      have h2 := triangle_mono (b + 1) n hb
      omega
    · have h1 := triangle_gap a (a + 1) (Nat.lt_succ_self a)
      have h2 := triangle_mono (a + 1) n ha
      omega
  refine ⟨⟨packed_index_inj i j k l, ?_⟩, hbound i j hi hj, hbound k l hk hl⟩
  rintro (⟨rfl, rfl⟩ | ⟨rfl, rfl⟩)
  · rfl
  · exact packed_index_comm _ _

/-- C27 for n = 4: (1, 3) and (3, 1) are the same unordered pair and share one index,
which is below 10. -/
theorem packed_index_one_to_one_witness :
    (packed_index 1 3 = packed_index 3 1 ↔ (1 = 3 ∧ 3 = 1) ∨ (1 = 1 ∧ 3 = 3)) ∧
    packed_index 1 3 < 4 * (4 + 1) / 2 ∧ packed_index 3 1 < 4 * (4 + 1) / 2 :=
  packed_index_one_to_one 4 1 3 3 1 (by decide) (by decide) (by decide) (by decide)

end IsoRank
namespace IsoRank

/-! ## The graph-2 flag array of `greedy_connectivity_3` -/

/-- C23 (failing input): `init_array(assignment_G2, graph1_nodes, 0)` runs over the
graph-1 size.  With |G1| = 2 and |G2| = 3 the cell 2 of the flag array keeps what it
held before: on the scores [[1, 0.1, 0.1], [0.1, 0.5, 0.4]], the edge 0 - 1 in graph 1
and the edge 0 - 2 in graph 2, `greedy_connectivity_3` returns [0, 2] when that cell
held 0 and [0, 1] when it held 1.  With |G1| = 2 and |G2| = 1 the call writes cell 1
of an array that has one cell.  In general the cells from |G1| on are not initialised
when |G1| < |G2|, and |G1| cells are written when |G2| < |G1|. -/
theorem greedy_connectivity_3_flag_array :
    greedy_connectivity_3 (ofRows 2 3 [[1, 1/10, 1/10], [1/10, 5/10, 4/10]])
      (ofRows 2 2 [[0, 1], [1, 0]]) (ofRows 3 3 [[0, 0, 1], [0, 0, 0], [1, 0, 0]])
      [-1, -1] { row := 0, col := 0, flags := [0, 0, 0] } 5 = .ok [0, 2] ∧
    greedy_connectivity_3 (ofRows 2 3 [[1, 1/10, 1/10], [1/10, 5/10, 4/10]])
      (ofRows 2 2 [[0, 1], [1, 0]]) (ofRows 3 3 [[0, 0, 1], [0, 0, 0], [1, 0, 0]])
      [-1, -1] { row := 0, col := 0, flags := [0, 0, 1] } 5 = .ok [0, 1] ∧
    (greedy_connectivity_3_init (ofRows 2 3 [[1, 1/10, 1/10], [1/10, 5/10, 4/10]])
      (ofRows 2 2 [[0, 1], [1, 0]]) (ofRows 3 3 [[0, 0, 1], [0, 0, 0], [1, 0, 0]])
      [-1, -1] { row := 0, col := 0, flags := [5, 5, 1] }).assignment_G2 = [0, 0, 1] ∧
    ((greedy_connectivity_3_init (ofRows 2 1 []) (noEdges 2) (noEdges 1) [-1, -1]
      { row := 0, col := 0, flags := [5] }).assignment_G2 = [0, 0] ∧
      (noEdges 1).getNumberOfRows = 1) ∧
    (∀ (scores graph1 graph2 : DenseMatrix1D) (assignment : List Int) (u : Uninit) (i : Nat),
      graph1.getNumberOfRows ≤ i →
      (greedy_connectivity_3_init scores graph1 graph2 assignment u).assignment_G2.getD i 0
        = (u.flags.take graph2.getNumberOfRows).getD i 0) ∧
    (∀ (scores graph1 graph2 : DenseMatrix1D) (assignment : List Int) (u : Uninit),
      graph1.getNumberOfRows ≤
        (greedy_connectivity_3_init scores graph1 graph2 assignment u).assignment_G2.length) := by
  refine ⟨by decide!, by decide!, by decide!, ⟨by decide!, rfl⟩, ?_, ?_⟩
  · intro scores graph1 graph2 assignment u i hi
    simp only [greedy_connectivity_3_init, init_array, List.getD_eq_getElem?_getD]
    rw [List.getElem?_append_right (by rw [List.length_replicate]; exact hi),
      List.length_replicate, List.getElem?_drop]
    congr 2
    omega
  · intro scores graph1 graph2 assignment u
    simp only [greedy_connectivity_3_init, init_array, List.length_append,
      List.length_replicate]
    omega

end IsoRank
namespace IsoRank

/-! ## The inner loop of `greedy_connectivity_3` -/

end IsoRank
namespace IsoRank

/-! ## `greedy_connectivity_2` expands through neighbours -/

theorem greedy_connectivity_2_rebuild_nbr (graph1 graph2 scores : DenseMatrix1D)
    (assignment : List Int) (all : List Nat) (l : List Nat) :
    ∀ act : DenseMatrix1D, (∀ x ∈ l, x ∈ all) →
      (∀ i j, ⊥ < act.val i j → ∃ x ∈ all, i ∈ graph1.getNeighbors x ∧
        j ∈ graph2.getNeighbors (assignment.getD x (-1)).toNat) →
      ∀ i j, ⊥ < (greedy_connectivity_2_rebuild graph1 graph2 scores assignment l act).val i j →
        ∃ x ∈ all, i ∈ graph1.getNeighbors x ∧
          j ∈ graph2.getNeighbors (assignment.getD x (-1)).toNat := by
  induction l with
  | nil => intro act _ h; exact h
  | cons x l ih =>
    intro act hsub h
    simp only [greedy_connectivity_2_rebuild, List.foldl_cons]
    apply ih (set_matrix_values act scores (graph1.getNeighbors x)
      (graph2.getNeighbors (assignment.getD x (-1)).toNat))
      (fun y hy => hsub y (List.mem_cons_of_mem _ hy))
    intro i j hij
    simp only [set_matrix_values] at hij
    split at hij
    · rename_i hmem
      exact ⟨x, hsub x (List.mem_cons_self _ _), hmem.1, hmem.2⟩
    · exact absurd hij (lt_irrefl _)

theorem greedy_connectivity_2_cond_assigned (graph1 graph2 : DenseMatrix1D) (s : G2State) :
    (greedy_connectivity_2_cond graph1 graph2 s).2.assigned_G1 = s.assigned_G1 := by
  unfold greedy_connectivity_2_cond
  dsimp only
  split <;> rfl

/-- The assignment step keeps the record of the neighbour expansion. -/
theorem greedy_connectivity_2_assign_nbr {M : DenseMatrix1D} (graph1 graph2 : DenseMatrix1D)
    (s : G2State) (id : Nat)
    (hinv : G2Inv M (greedy_connectivity_2_assign graph1 graph2 id s))
    (hq : ∃ q : ℚ, greedy_connectivity_2_threshold s = (q : Score))
    (h1 : 1 ≤ id)
    (h2 : id ≤ (find_values s.active_matches (greedy_connectivity_2_threshold s)).length)
    (hA : s.assigned_G1 = s.picks.map Prod.fst)
    (hK : s.picks = [] ∨ ∀ i j, ⊥ < s.active_matches.val i j →
      ∃ p ∈ s.picks, i ∈ graph1.getNeighbors p.1 ∧ j ∈ graph2.getNeighbors p.2)
    (hQ : neighbor_expanded graph1 graph2 s.picks) :
    (greedy_connectivity_2_assign graph1 graph2 id s).assigned_G1
      = (greedy_connectivity_2_assign graph1 graph2 id s).picks.map Prod.fst ∧
    (∀ i j, ⊥ < (greedy_connectivity_2_assign graph1 graph2 id s).active_matches.val i j →
      ∃ p ∈ (greedy_connectivity_2_assign graph1 graph2 id s).picks,
        i ∈ graph1.getNeighbors p.1 ∧ j ∈ graph2.getNeighbors p.2) ∧
    neighbor_expanded graph1 graph2 (greedy_connectivity_2_assign graph1 graph2 id s).picks := by
  obtain ⟨hmem, _⟩ := get_Max_mem s.active_matches id (greedy_connectivity_2_threshold s)
    s.row s.col h1 h2
  obtain ⟨q, hq⟩ := hq
  have hpos : ⊥ < s.active_matches.val
      (get_Max s.active_matches id (greedy_connectivity_2_threshold s) s.row s.col).2.1
      (get_Max s.active_matches id (greedy_connectivity_2_threshold s) s.row s.col).2.2 :=
    lt_of_lt_of_le (hq ▸ WithBot.bot_lt_coe q) (mem_cells_at_or_above.1 hmem).2
  have hhit := hinv.sel.pm.hit
  have hpicks : (greedy_connectivity_2_assign graph1 graph2 id s).picks = s.picks ++
      [((get_Max s.active_matches id (greedy_connectivity_2_threshold s) s.row s.col).2.1,
        (get_Max s.active_matches id (greedy_connectivity_2_threshold s) s.row s.col).2.2)] :=
    rfl
  have hAs : (greedy_connectivity_2_assign graph1 graph2 id s).assigned_G1
      = (greedy_connectivity_2_assign graph1 graph2 id s).picks.map Prod.fst := by
    rw [hpicks, List.map_append, ← hA]; rfl
  refine ⟨hAs, ?_, ?_⟩
  · intro i j hij
    obtain ⟨x, hx, hi, hj⟩ := greedy_connectivity_2_rebuild_nbr graph1 graph2
      (greedy_connectivity_2_assign graph1 graph2 id s).scores
      (greedy_connectivity_2_assign graph1 graph2 id s).assignment
      (greedy_connectivity_2_assign graph1 graph2 id s).assigned_G1
      (greedy_connectivity_2_assign graph1 graph2 id s).assigned_G1
      (set_to_min s.active_matches) (fun y hy => hy)
      (fun i j hb => absurd hb (lt_irrefl _)) i j hij
    rw [hAs] at hx
    obtain ⟨p, hp, hpx⟩ := List.mem_map.1 hx
    refine ⟨p, hp, by rw [hpx]; exact hi, ?_⟩
    have := hhit p hp
    rw [hpx] at this
    rw [this, Int.toNat_ofNat] at hj
    exact hj
  · intro k p hk hk0
    rw [hpicks] at hk ⊢
    by_cases hlt : k < s.picks.length
    · rw [List.getElem?_append_left hlt] at hk
      obtain ⟨p2, hp2, hn⟩ := hQ k p hk hk0
      refine ⟨p2, ?_, hn⟩
      rw [List.take_append_of_le_length (le_of_lt hlt)]
      exact hp2
    · have hge : s.picks.length ≤ k := not_lt.1 hlt
      rw [List.getElem?_append_right hge] at hk
      have hk1 : k - s.picks.length = 0 := by
        by_contra hne
        rw [List.getElem?_eq_none (by simp only [List.length_singleton]; omega)] at hk
        exact Option.noConfusion hk
      have hkl : k = s.picks.length := by omega
      rw [hk1] at hk
      simp only [List.getElem?_cons_zero, Option.some.injEq] at hk
      have hne : s.picks ≠ [] := by
        intro e; rw [e] at hkl; simp at hkl; omega
      rcases hK with hK | hK
      · exact absurd hK hne
      · obtain ⟨p2, hp2, hi, hj⟩ := hK _ _ hpos
        refine ⟨p2, ?_, ?_⟩
        · rw [hkl, List.take_left]; exact hp2
        · rw [← hk]; exact ⟨hi, hj⟩

/-- With enough fuel the loop of `greedy_connectivity_2` returns a state whose
assigned pairs expand through neighbours. -/
theorem greedy_connectivity_2_loop_nbr {M graph1 : DenseMatrix1D} (graph2 : DenseMatrix1D)
    (rnd : Nat → Nat) (h1 : M.rows = graph1.cols) (n : Nat) :
    ∀ s : G2State, G2Inv M s →
      s.assigned_G1 = s.picks.map Prod.fst →
      (s.picks = [] ∨ ∀ i j, ⊥ < s.active_matches.val i j →
        ∃ p ∈ s.picks, i ∈ graph1.getNeighbors p.1 ∧ j ∈ graph2.getNeighbors p.2) →
      neighbor_expanded graph1 graph2 s.picks →
      min graph1.cols graph2.cols - s.picks.length < n →
      ∃ t, greedy_connectivity_2_loop graph1 graph2 rnd n s = .ok (t, t.assignment) ∧
        Selecting M t.scores t.assignment t.picks ∧
        neighbor_expanded graph1 graph2 t.picks := by
  induction n with
  | zero => intro s _ _ _ _ hfuel; omega
  | succ n ih =>
    intro s h hA hK hQ hfuel
    unfold greedy_connectivity_2_loop
    simp only
    by_cases hc : (greedy_connectivity_2_cond graph1 graph2 s).1 = true
    · rw [if_pos hc]
      obtain ⟨c1, c2, c3, c4, c5, c6, c7, c8, c9⟩ := greedy_connectivity_2_cond_true h hc
      have hni : all_inf (greedy_connectivity_2_cond graph1 graph2 s).2.active_matches = false := by
        rw [c2]; exact (all_inf_false_iff _).2 c1
      rw [hni]
      simp only [Bool.false_eq_true, if_false]
      have hsz : (find_values (greedy_connectivity_2_cond graph1 graph2 s).2.active_matches
          (greedy_connectivity_2_threshold (greedy_connectivity_2_cond graph1 graph2 s).2)).length
          ≠ 0 := by
        rw [find_values_length, c2]
        obtain ⟨p, hp⟩ := c9
        intro h0
        rw [List.length_eq_zero.1 h0] at hp
        exact absurd hp (List.not_mem_nil _)
      rw [if_neg hsz]
      have hlt : s.picks.length < min graph1.cols graph2.cols := by
        unfold greedy_connectivity_2_cond at hc
        simp only at hc
        split at hc
        · rename_i hsum
          simp only [DenseMatrix1D.getNumberOfColumns] at hsum
          rw [← h1, h.flags.sum_array_eq, h1] at hsum
          exact_mod_cast hsum
        · simp at hc
      have hid2 := Nat.succ_le_of_lt (Nat.mod_lt
        (rnd (greedy_connectivity_2_cond graph1 graph2 s).2.k) (Nat.pos_of_ne_zero hsz))
      obtain ⟨hinv, hl⟩ := greedy_connectivity_2_assign_inv (M := M) graph1 graph2
        (greedy_connectivity_2_cond graph1 graph2 s).2
        (rnd (greedy_connectivity_2_cond graph1 graph2 s).2.k %
          (find_values (greedy_connectivity_2_cond graph1 graph2 s).2.active_matches
            (greedy_connectivity_2_threshold
              (greedy_connectivity_2_cond graph1 graph2 s).2)).length + 1)
        (by rw [c3, c4, c6]; exact h.sel) (by rw [c5, c6]; exact h.flags)
        (by rw [c2]; exact h.act_rows) (by rw [c2]; exact h.act_cols)
        (by rw [c2, c3]; exact h.act_vals) c7 c8 (by omega) hid2
      obtain ⟨n1, n2, n3⟩ := greedy_connectivity_2_assign_nbr graph1 graph2
        (greedy_connectivity_2_cond graph1 graph2 s).2
        (rnd (greedy_connectivity_2_cond graph1 graph2 s).2.k %
          (find_values (greedy_connectivity_2_cond graph1 graph2 s).2.active_matches
            (greedy_connectivity_2_threshold
              (greedy_connectivity_2_cond graph1 graph2 s).2)).length + 1)
        hinv c8 (by omega) hid2
        (by rw [greedy_connectivity_2_cond_assigned, c6]; exact hA)
        (by rw [c2, c6]; exact hK) (by rw [c6]; exact hQ)
      apply ih _ hinv n1 (Or.inr n2) n3
      rw [hl, c6]
      omega
    · rw [if_neg hc]
      obtain ⟨f1, f2, f3⟩ := greedy_connectivity_2_cond_false graph1 graph2 s
      exact ⟨_, rfl, by rw [f1, f2, f3]; exact h.sel, by rw [f2]; exact hQ⟩

/-- C21: for every |G1| x |G2| score matrix, graph pair, caller array and random
stream, `greedy_connectivity_2` returns (given fuel beyond min(|G1|,|G2|)) a state
whose assigned pairs, in the order of assignment, satisfy: for every pair (r, c)
after the first one there is an earlier pair (r0, c0), with assignment[r0] = c0 in
the returned assignment, such that r is a neighbour of r0 in graph 1 and c is a
neighbour of c0 in graph 2. -/
theorem greedy_connectivity_2_neighbor_expansion (scores graph1 graph2 : DenseMatrix1D)
    (assignment : List Int) (u : Uninit) (rnd : Nat → Nat) (fuel : Nat)
    (h1 : scores.rows = graph1.cols)
    (hlen : assignment.length = graph1.cols) (hfuel : min graph1.cols graph2.cols < fuel) :
    ∃ t, greedy_connectivity_2_run scores graph1 graph2 assignment u rnd fuel
        = .ok (t, t.assignment) ∧
      greedy_connectivity_2 scores graph1 graph2 assignment u rnd fuel = .ok t.assignment ∧
      (∀ p ∈ t.picks, t.assignment.getD p.1 (-1) = (p.2 : Int)) ∧
      ∀ k p, t.picks[k]? = some p → 0 < k →
        ∃ q ∈ t.picks.take k, t.assignment.getD q.1 (-1) = (q.2 : Int) ∧
          p.1 ∈ graph1.getNeighbors q.1 ∧ p.2 ∈ graph2.getNeighbors q.2 := by
  have hinit := greedy_connectivity_2_init_inv scores graph1 assignment u h1 hlen
  obtain ⟨t, ht, hsel, hQ⟩ := greedy_connectivity_2_loop_nbr graph2 rnd h1 fuel _ hinit rfl
    (Or.inl rfl) (by intro k p hk; simp [greedy_connectivity_2_init] at hk)
    (by simp only [greedy_connectivity_2_init, List.length_nil]; omega)
  refine ⟨t, ht, ?_, hsel.pm.hit, ?_⟩
  · simp only [greedy_connectivity_2, greedy_connectivity_2_run, ht, Except.map]
  · intro k p hk hk0
    obtain ⟨q, hq, hn⟩ := hQ k p hk hk0
    exact ⟨q, hq, hsel.pm.hit q (List.mem_of_mem_take hq), hn⟩

/-- C21 on Scenario B with the triangle as both graphs and `rand()` returning its
call number: the run assigns (0, 0), (2, 2), (1, 1), and the second and the third pair
are adjacent to earlier ones. -/
theorem greedy_connectivity_2_neighbor_expansion_witness :
    (greedy_connectivity_2_run scenarioB triangle triangle [-1, -1, -1] zeroed
        (fun k => k) 4).map (fun r => r.1.picks) = .ok [(0, 0), (2, 2), (1, 1)] ∧
    ∃ t, greedy_connectivity_2_run scenarioB triangle triangle [-1, -1, -1] zeroed
        (fun k => k) 4 = .ok (t, t.assignment) ∧
      greedy_connectivity_2 scenarioB triangle triangle [-1, -1, -1] zeroed (fun k => k) 4
        = .ok t.assignment ∧
      (∀ p ∈ t.picks, t.assignment.getD p.1 (-1) = (p.2 : Int)) ∧
      ∀ k p, t.picks[k]? = some p → 0 < k →
        ∃ q ∈ t.picks.take k, t.assignment.getD q.1 (-1) = (q.2 : Int) ∧
          p.1 ∈ triangle.getNeighbors q.1 ∧ p.2 ∈ triangle.getNeighbors q.2 :=
  ⟨by decide!,
    greedy_connectivity_2_neighbor_expansion scenarioB triangle triangle [-1, -1, -1] zeroed
      (fun k => k) 4 rfl rfl (by decide)⟩

end IsoRank
